import Mathlib

/-!
Loops Go SDK: request execution, validation and error normalisation.

A shallow embedding of `client.go`, `errors.go`, `contacts.go`, `events.go`,
`transactional.go` and the request/response shapes of `types.go`.

Modelling conventions.

* A Go `string` and a Go `[]byte` are byte sequences: `List Nat`, one entry per
  byte.  `len` is `List.length`, `s[:n]` is `List.take n`, `s == ""` is `s = []`.
* A Go pointer (or slice) that may be `nil` is an `Option`.
* A Go `map[string]T` is a list of entries; `m[k] = v` is `setKey`, reading is
  `lookupKey`.  A map that may be `nil` *and written to* is an `Option` of that.
  A `range` loop visits the entries in list order; theorems about a map hold
  for every list with distinct keys, hence for every iteration order.
* A dynamic value (`interface{}`) is the JSON document it marshals to: a number
  is the literal written for it, a nested map is the object with its keys in
  sorted order.  What a generic decode leaves in an `interface{}` is
  `JSON.generic`: numbers go through float64, objects become maps.
* `encoding/json` is split in two.  Which document a Go value maps to, and how
  a document fills a Go value, follows the types and struct tags of types.go
  (`GoMarshal`, `GoUnmarshal`).  How a document is written as text and read
  back is a `JSONCodec`, a parameter of every function that marshals;
  `goJSON` is the codec of `encoding/json`: compact text with its escapes,
  invalid UTF-8 written and read as U+FFFD, nesting read up to 10000 deep.
* `net/http` request construction and the transport are fields of `Env`, which
  also carries the codec.
* A function that can panic returns `Res`; an endpoint call returns `Call`,
  which also records the requests handed to the transport.
-/

namespace Loops

/-! ## Strings and bytes -/

/-- Go `string`: an immutable sequence of bytes. -/
abbrev GoString := List Nat

/-- Go `[]byte`. -/
abbrev Bytes := List Nat

/-- UTF-8 encoding of one code point. -/
def utf8Encode (n : Nat) : List Nat :=
  if n < 0x80 then [n]
  else if n < 0x800 then [0xC0 + n / 0x40, 0x80 + n % 0x40]
  else if n < 0x10000 then [0xE0 + n / 0x1000, 0x80 + n / 0x40 % 0x40, 0x80 + n % 0x40]
  else [0xF0 + n / 0x40000, 0x80 + n / 0x1000 % 0x40, 0x80 + n / 0x40 % 0x40, 0x80 + n % 0x40]

/-- Bytes of a source-code string literal (Go source is UTF-8). -/
def lit (s : String) : GoString :=
  s.data.flatMap (fun c => utf8Encode c.toNat)

/-- Byte-wise `a <= b` on Go strings. -/
def strLE : GoString → GoString → Bool
  | [], _ => true
  | _ :: _, [] => false
  | a :: as, b :: bs => if a < b then true else if b < a then false else strLE as bs

/-- ASCII decimal digit. -/
def isDigit (b : Nat) : Bool := 48 ≤ b ∧ b ≤ 57

/-- Decimal digits of `n`, most significant first, in front of `acc`. -/
def natDigits : Nat → Nat → Bytes → Bytes
  | 0, _, acc => acc
  | f + 1, n, acc =>
    if n < 10 then (48 + n) :: acc else natDigits f (n / 10) ((48 + n % 10) :: acc)

/-- A natural number in decimal. -/
def renderNat (n : Nat) : Bytes := natDigits (n + 1) n []

/-- An integer in decimal. -/
def renderInt : Int → Bytes
  | .ofNat m => renderNat m
  | .negSucc m => 45 :: renderNat (m + 1)

/-- Read a run of decimal digits onto `acc`. -/
def readDigits : Bytes → Nat → Nat × Bytes
  | [], acc => (acc, [])
  | b :: bs, acc => if isDigit b then readDigits bs (acc * 10 + (b - 48)) else (acc, b :: bs)

/-- Read a natural number: `0`, or digits not starting with `0`. -/
def parseNat : Bytes → Option (Nat × Bytes)
  | [] => none
  | b :: rest =>
    if b = 48 then
      match rest with
      | [] => some (0, rest)
      | c :: _ => if isDigit c then none else some (0, rest)
    else if isDigit b then some (readDigits (b :: rest) 0)
    else none

/-! ## UTF-8 -/

/-- A continuation byte of UTF-8. -/
def isCont (b : Nat) : Bool := 0x80 ≤ b ∧ b ≤ 0xBF

/-- The size `utf8.DecodeRune` reports for the head of `bs`, as far as it is a
valid encoding: the number of bytes of the UTF-8 sequence that starts there, 0
when none does (Go then reports `RuneError` with size 1). -/
def utf8Len : Bytes → Nat
  | [] => 0
  | b0 :: rest =>
    if b0 < 0x80 then 1
    else if 0xC2 ≤ b0 ∧ b0 ≤ 0xDF then
      match rest with
      | b1 :: _ => if isCont b1 then 2 else 0
      | _ => 0
    else if 0xE0 ≤ b0 ∧ b0 ≤ 0xEF then
      match rest with
      | b1 :: b2 :: _ =>
        if (if b0 = 0xE0 then 0xA0 ≤ b1 ∧ b1 ≤ 0xBF
            else if b0 = 0xED then 0x80 ≤ b1 ∧ b1 ≤ 0x9F
            else isCont b1 = true) ∧ isCont b2 then 3 else 0
      | _ => 0
    else if 0xF0 ≤ b0 ∧ b0 ≤ 0xF4 then
      match rest with
      | b1 :: b2 :: b3 :: _ =>
        if (if b0 = 0xF0 then 0x90 ≤ b1 ∧ b1 ≤ 0xBF
            else if b0 = 0xF4 then 0x80 ≤ b1 ∧ b1 ≤ 0x8F
            else isCont b1 = true) ∧ isCont b2 ∧ isCont b3 then 4 else 0
      | _ => 0
    else 0

/-- Coercion to valid UTF-8 as `encoding/json` does it: every byte that does
not belong to a valid sequence becomes U+FFFD.  The first argument counts the
bytes of a sequence that was copied at its first byte and are still to pass. -/
def toValidFrom : Nat → Bytes → Bytes
  | _, [] => []
  | d + 1, _ :: bs => toValidFrom d bs
  | 0, b :: bs =>
    match utf8Len (b :: bs) with
    | 0 => 0xEF :: 0xBF :: 0xBD :: toValidFrom 0 bs
    | n + 1 => b :: (bs.take n ++ toValidFrom n bs)

/-- A Go string with every invalid byte replaced by U+FFFD. -/
def toValidUTF8 (s : GoString) : GoString := toValidFrom 0 s

/-- A JSON number literal: sign, integer part, the digits after the point
(none when there is no point) and the exponent (when there is one).  How the
exponent is spelled (`e` or `E`, a `+`, leading zeros) is not kept: it is
written as Go writes the numbers of its own, with `e`, a sign and no leading
zero. -/
structure Number where
  neg : Bool
  int : Nat
  frac : List (Fin 10)
  exp : Option Int
deriving DecidableEq, Repr

/-- The literal of a Go integer. -/
def Number.ofInt (n : Int) : Number :=
  { neg := decide (n < 0), int := n.natAbs, frac := [], exp := none }

/-- The fraction part of a number literal: a point and the digits. -/
def renderFrac (ds : List (Fin 10)) : Bytes :=
  if ds.length = 0 then [] else 46 :: ds.map (fun d => 48 + d.val)

/-- The exponent part of a number literal: `e`, a sign and the digits. -/
def renderExp : Option Int → Bytes
  | none => []
  | some e => 101 :: (if e < 0 then 45 else 43) :: renderNat e.natAbs

/-- The text of a number literal. -/
def Number.render (x : Number) : Bytes :=
  (if x.neg then [45] else []) ++ renderNat x.int ++ renderFrac x.frac ++ renderExp x.exp

/-- Read a run of decimal digits as a list. -/
def readDigitList : Bytes → List (Fin 10) × Bytes
  | [] => ([], [])
  | b :: bs =>
    if isDigit b then
      let r := readDigitList bs
      (Fin.ofNat (b - 48) :: r.1, r.2)
    else ([], b :: bs)

/-- The exponent part of a number literal, if one starts here. -/
def scanExp (bs : Bytes) : Option (Option Int × Bytes) :=
  match bs with
  | [] => some (none, [])
  | b :: rest =>
    if b = 101 ∨ b = 69 then
      match rest with
      | [] => none
      | s :: rest1 =>
        if s = 43 ∨ s = 45 then
          match rest1 with
          | [] => none
          | d :: _ =>
            if isDigit d then
              let r := readDigits rest1 0
              some (some (if s = 45 then Int.negOfNat r.1 else Int.ofNat r.1), r.2)
            else none
        else if isDigit s then
          let r := readDigits rest 0
          some (some (Int.ofNat r.1), r.2)
        else none
    else some (none, b :: rest)

/-- The fraction part of a number literal, if one starts here. -/
def scanFrac (bs : Bytes) : Option (List (Fin 10) × Bytes) :=
  match bs with
  | [] => some ([], [])
  | b :: rest =>
    if b = 46 then
      match rest with
      | [] => none
      | d :: _ => if isDigit d then some (readDigitList rest) else none
    else some ([], b :: rest)

/-- Read a number literal of the JSON grammar. -/
def scanNumber (bs : Bytes) : Option (Number × Bytes) :=
  let signed : Bool × Bytes :=
    match bs with
    | b :: rest => if b = 45 then (true, rest) else (false, bs)
    | [] => (false, [])
  match parseNat signed.2 with
  | none => none
  | some (n, r1) =>
    match scanFrac r1 with
    | none => none
    | some (fr, r2) =>
      match scanExp r2 with
      | none => none
      | some (e, r3) => some ({ neg := signed.1, int := n, frac := fr, exp := e }, r3)

/-! ## float64 -/

/-- A finite float64 value: `mant * 2 ^ exp`, negated when `neg`; `mant` has
at most 53 bits and 53 exactly unless `exp` is the least exponent. -/
structure F64 where
  neg : Bool
  mant : Nat
  exp : Int
deriving DecidableEq, Repr

/-- Halve `n` until it is below 2, at most as often as the first argument
says, and count the halvings. -/
def log2Fuel : Nat → Nat → Nat
  | 0, _ => 0
  | f + 1, n => if 2 ≤ n then log2Fuel f (n / 2) + 1 else 0

/-- Index of the highest set bit of `n` (`bits.Len(n) - 1`), 0 for 0. -/
def log2 (n : Nat) : Nat := log2Fuel n n

/-- Whether `p / q` is at least `2 ^ e`. -/
def geTwoPow (p q : Nat) (e : Int) : Bool :=
  if 0 ≤ e then decide (q * 2 ^ e.toNat ≤ p) else decide (q ≤ p * 2 ^ (-e).toNat)

/-- Round the positive fraction `p / q` to the nearest float64, ties to the even
mantissa; `none` when the result is beyond the largest float64. -/
def roundF64 (neg : Bool) (p q : Nat) : Option F64 :=
  if p = 0 then some { neg := neg, mant := 0, exp := -1074 }
  else
    let d : Int := (log2 p : Int) - (log2 q : Int)
    let e : Int := if geTwoPow p q d then d else d - 1
    let qe : Int := max (e - 52) (-1074)
    let a : Nat := if 0 ≤ qe then p else p * 2 ^ (-qe).toNat
    let b : Nat := if 0 ≤ qe then q * 2 ^ qe.toNat else q
    let m0 := a / b
    let r := a % b
    let m := if b < 2 * r ∨ (2 * r = b ∧ m0 % 2 = 1) then m0 + 1 else m0
    let mq : Nat × Int := if m = 2 ^ 53 then (2 ^ 52, qe + 1) else (m, qe)
    if 971 < mq.2 then none else some { neg := neg, mant := mq.1, exp := mq.2 }

/-- Value of a digit list read as a decimal numeral. -/
def digitsValue (ds : List (Fin 10)) : Nat := ds.foldl (fun acc d => acc * 10 + d.val) 0

/-- Number of decimal digits of `n` (0 for 0). -/
def decLen (n : Nat) : Nat := if n = 0 then 0 else (renderNat n).length

/-- `strconv.ParseFloat(s, 64)` on a number literal: the nearest float64, or
`none` for a value out of range. -/
def parseFloat (x : Number) : Option F64 :=
  let m : Nat := x.int * 10 ^ x.frac.length + digitsValue x.frac
  let e : Int := x.exp.getD 0 - (x.frac.length : Int)
  if m = 0 then some { neg := x.neg, mant := 0, exp := -1074 }
  else if 310 < e + (decLen m : Int) then none
  else if e + (decLen m : Int) < -330 then some { neg := x.neg, mant := 0, exp := -1074 }
  else if 0 ≤ e then roundF64 x.neg (m * 10 ^ e.toNat) 1
  else roundF64 x.neg m (10 ^ (-e).toNat)

/-- Whether `p / q < 10 ^ k`. -/
def ltTenPow (p q : Nat) (k : Int) : Bool :=
  if 0 ≤ k then decide (p < q * 10 ^ k.toNat) else decide (p * 10 ^ (-k).toNat < q)

/-- The least `k` from `lo` on with `p / q < 10 ^ k`, among `fuel` values. -/
def decExp : Nat → Nat → Nat → Int → Int
  | 0, _, _, k => k
  | f + 1, p, q, k => if ltTenPow p q k then k else decExp f p q (k + 1)

/-- Drop the zeros at the end of a decimal numeral, counting them. -/
def stripZeros : Nat → Nat → Int → Nat × Int
  | 0, c, k => (c, k)
  | f + 1, c, k => if c ≠ 0 ∧ c % 10 = 0 then stripZeros f (c / 10) (k + 1) else (c, k)

/-- The last `k` decimal digits of `n`, with leading zeros. -/
def lastDigits : Nat → Nat → List (Fin 10) → List (Fin 10)
  | 0, _, acc => acc
  | k + 1, n, acc => lastDigits k (n / 10) (Fin.ofNat (n % 10) :: acc)

/-- The literal `strconv.FormatFloat` writes for the decimal `c * 10 ^ k`: the
digits of `c` without the zeros at its end, in the form `d.ddde+x` of the verb
`e` when `expForm`, else in the positional form of the verb `f`. -/
def literalOf (expForm neg : Bool) (c0 : Nat) (k0 : Int) : Number :=
  let ck := stripZeros 20 c0 k0
  let c := ck.1
  let k := ck.2
  if expForm then
    { neg := neg, int := c / 10 ^ (decLen c - 1), frac := lastDigits (decLen c - 1) c [],
      exp := some (k + (decLen c : Int) - 1) }
  else if 0 ≤ k then { neg := neg, int := c * 10 ^ k.toNat, frac := [], exp := none }
  else
    { neg := neg, int := c / 10 ^ (-k).toNat, frac := lastDigits (-k).toNat c [], exp := none }

/-- Shortest digits: with `n` significant digits, the decimals just below and
just above `p / q`; the first `n` for which the literal of one of them reads
back as `f` gives the literal, the one of the nearer decimal when both do. -/
def shortest (f : F64) (expForm : Bool) (p q : Nat) (dexp : Int) : Nat → Nat → Option Number
  | 0, _ => none
  | fuel + 1, n =>
    let k : Int := dexp - (n : Int)
    let a : Nat := if 0 ≤ k then p else p * 10 ^ (-k).toNat
    let b : Nat := if 0 ≤ k then q * 10 ^ k.toNat else q
    let t := a / b
    let r := a % b
    let down := literalOf expForm f.neg t k
    let up := literalOf expForm f.neg (t + 1) k
    if parseFloat down = some f ∧ parseFloat up = some f then
      (if b < 2 * r ∨ (2 * r = b ∧ t % 2 = 1) then some up else some down)
    else if parseFloat down = some f then some down
    else if parseFloat up = some f then some up
    else shortest f expForm p q dexp fuel (n + 1)

/-- The float64 nearest to `1e-6`, as a fraction: below it `encoding/json`
writes the exponent form. -/
def smallF64 : Nat × Nat := (4722366482869645, 2 ^ 72)

/-- The literal `encoding/json` writes for a float64: the shortest decimal that
reads back as the same value (seventeen digits always hold one), in positional
form, or with an exponent when the value is below `1e-6` or at least `1e21`. -/
def formatFloat (f : F64) : Number :=
  if f.mant = 0 then { neg := f.neg, int := 0, frac := [], exp := none }
  else
    let p : Nat := if 0 ≤ f.exp then f.mant * 2 ^ f.exp.toNat else f.mant
    let q : Nat := if 0 ≤ f.exp then 1 else 2 ^ (-f.exp).toNat
    let est : Int := ((log2 p : Int) - (log2 q : Int)) * 30103 / 100000
    let dexp := decExp 6 p q (est - 2)
    let expForm : Bool := decide (p * smallF64.2 < smallF64.1 * q ∨ 10 ^ 21 * q ≤ p)
    match shortest f expForm p q dexp 17 1 with
    | none => { neg := false, int := 0, frac := [], exp := none }
    | some y => y

/-! ## JSON documents -/

/-- JSON document tree.  It doubles as the dynamic value of a Go `interface{}`,
which stands for the document it marshals to (`nil`, `bool`, a number with the
literal written for it, `string`, slices, and maps and structs as objects). -/
inductive JSON where
  | null
  | bool (b : Bool)
  | num (x : Number)
  | str (s : GoString)
  | arr (xs : List JSON)
  | obj (kvs : List (GoString × JSON))

/-- A Go integer as a dynamic value. -/
def JSON.int (n : Int) : JSON := .num (Number.ofInt n)

/-- Go `map[string]interface{}` entries. -/
abbrev Entries := List (GoString × JSON)

/-- The value stored under key `k` (first entry with that key). -/
def lookupKey {β : Type} : List (GoString × β) → GoString → Option β
  | [], _ => none
  | (k', v) :: rest, k => if k' = k then some v else lookupKey rest k

/-- Map assignment `m[k] = v`: overwrite the entry for `k`, or add one. -/
def setKey {β : Type} : List (GoString × β) → GoString → β → List (GoString × β)
  | [], k, v => [(k, v)]
  | (k', v') :: rest, k, v =>
    if k' = k then (k, v) :: rest else (k', v') :: setKey rest k v

/-- The keys of a map. -/
def keysOf {β : Type} (m : List (GoString × β)) : List GoString := m.map Prod.fst

/-- Insertion into a list of entries sorted by key. -/
def insertByKey {β : Type} (kv : GoString × β) : List (GoString × β) → List (GoString × β)
  | [] => [kv]
  | x :: rest => if strLE kv.1 x.1 then kv :: x :: rest else x :: insertByKey kv rest

/-- The entries of a Go map in the order `json.Marshal` writes them: sorted by
key, byte-wise. -/
def sortKeys {β : Type} (m : List (GoString × β)) : List (GoString × β) :=
  m.foldr insertByKey []

mutual
/-- Nesting of arrays and objects. -/
def JSON.depth : JSON → Nat
  | .arr xs => depthElems xs + 1
  | .obj kvs => depthMembers kvs + 1
  | _ => 0
/-- Deepest nesting among the elements. -/
def depthElems : List JSON → Nat
  | [] => 0
  | x :: xs => max x.depth (depthElems xs)
/-- Deepest nesting among the member values. -/
def depthMembers : List (GoString × JSON) → Nat
  | [] => 0
  | (_, v) :: kvs => max v.depth (depthMembers kvs)
end

mutual
/-- The document with every string and member name coerced to valid UTF-8:
what the text written for it says. -/
def JSON.toValid : JSON → JSON
  | .null => .null
  | .bool b => .bool b
  | .num x => .num x
  | .str s => .str (toValidUTF8 s)
  | .arr xs => .arr (toValidElems xs)
  | .obj kvs => .obj (toValidMembers kvs)
/-- Coercion of the elements. -/
def toValidElems : List JSON → List JSON
  | [] => []
  | x :: xs => x.toValid :: toValidElems xs
/-- Coercion of the members. -/
def toValidMembers : List (GoString × JSON) → List (GoString × JSON)
  | [] => []
  | (k, v) :: kvs => (toValidUTF8 k, v.toValid) :: toValidMembers kvs
end

/-! ## Errors (errors.go) -/

/-- `APIError` of errors.go. -/
structure APIError where
  StatusCode : Int
  Body : Bytes
  Success : Bool
  Message : GoString
deriving DecidableEq, Repr

/-- Errors of `encoding/json`. -/
inductive JSONError where
  | syntaxError
  | typeError (field : GoString)
  | unsupported
deriving DecidableEq, Repr

/-- Errors of `net/http` and `io`: they carry no status code. -/
inductive NetError where
  | newRequest
  | transport (code : Nat)
  | read (code : Nat)
deriving DecidableEq, Repr

/-- A Go `error` value as the package returns it. -/
inductive GoError where
  | api (e : APIError)
  | json (e : JSONError)
  | decodeResponse (e : GoError)
  | net (e : NetError)
deriving DecidableEq, Repr

/-- The type assertion `err.(*APIError)`. -/
def GoError.asAPIError : GoError → Option APIError
  | .api e => some e
  | _ => none

/-! ## Collaborators consumed by the package -/

/-- Text syntax of `encoding/json`: writing a document tree as bytes and
reading bytes back as a tree (`none` on a syntax error). -/
structure JSONCodec where
  encode : JSON → Bytes
  decode : Bytes → Option JSON

/-- The request handed to `http.Client.Do`. -/
structure Request where
  Method : GoString
  URL : GoString
  Header : List (GoString × GoString)
  Body : Option Bytes
deriving DecidableEq, Repr

/-- What the transport gave back: the status code and the outcome of
`io.ReadAll(resp.Body)`. -/
structure Response where
  StatusCode : Int
  Body : Except NetError Bytes

/-- The environment of a call: the JSON text codec, whether
`http.NewRequestWithContext` rejects a method and URL, and the transport
(which stands for the server, the network and the caller's context). -/
structure Env where
  json : JSONCodec
  newRequestError : GoString → GoString → Option NetError
  roundTrip : Request → Except NetError Response

/-! ## `encoding/json` on Go values

How a Go value maps to a document tree is fixed by its type and struct tags
(types.go); how a tree is written as text is the codec's business. -/

/-- The tree `json.Marshal` writes for a value of this type. -/
class GoMarshal (α : Type) where
  toJSON : α → Except JSONError JSON

/-- Decoding a tree into a value of this type that already holds `cur`. -/
class GoUnmarshal (α : Type) where
  fromJSON : JSON → α → Except JSONError α

/-- `json.Marshal(v)`. -/
def jsonMarshal {α : Type} [GoMarshal α] (lib : JSONCodec) (v : α) : Except GoError Bytes :=
  match GoMarshal.toJSON v with
  | .ok j => .ok (lib.encode j)
  | .error e => .error (.json e)

/-- `json.Unmarshal(data, &cur)`. -/
def jsonUnmarshal {α : Type} [GoUnmarshal α] (lib : JSONCodec) (data : Bytes) (cur : α) :
    Except GoError α :=
  match lib.decode data with
  | none => .error (.json .syntaxError)
  | some j =>
    match GoUnmarshal.fromJSON j cur with
    | .ok a => .ok a
    | .error e => .error (.json e)

mutual
/-- What a decoded `interface{}` holds for a document, as the document it
marshals to in turn: a number goes through float64, an object becomes a map
(the last of equal keys wins) and is written sorted by key.  A number out of
the float64 range is a type error. -/
def JSON.generic : JSON → Except JSONError JSON
  | .null => .ok .null
  | .bool b => .ok (.bool b)
  | .num x =>
    match parseFloat x with
    | none => .error (.typeError [])
    | some f => .ok (.num (formatFloat f))
  | .str s => .ok (.str s)
  | .arr xs =>
    match genericElems xs with
    | .error e => .error e
    | .ok l => .ok (.arr l)
  | .obj kvs =>
    match genericMembers kvs with
    | .error e => .error e
    | .ok l => .ok (.obj (sortKeys (l.foldl (fun m kv => setKey m kv.1 kv.2) [])))
/-- The elements of an array, each as `JSON.generic` gives it. -/
def genericElems : List JSON → Except JSONError (List JSON)
  | [] => .ok []
  | x :: xs =>
    match x.generic with
    | .error e => .error e
    | .ok g =>
      match genericElems xs with
      | .error e => .error e
      | .ok gs => .ok (g :: gs)
/-- The members of an object, each value as `JSON.generic` gives it. -/
def genericMembers : List (GoString × JSON) → Except JSONError (List (GoString × JSON))
  | [] => .ok []
  | (k, v) :: kvs =>
    match v.generic with
    | .error e => .error e
    | .ok g =>
      match genericMembers kvs with
      | .error e => .error e
      | .ok gs => .ok ((k, g) :: gs)
end

mutual
/-- The document is within the limits of the generic decoder: arrays and
objects are nested at most `d` deep and every number is in the float64 range. -/
def JSON.fits : Nat → JSON → Bool
  | _, .null => true
  | _, .bool _ => true
  | _, .num x => (parseFloat x).isSome
  | _, .str _ => true
  | 0, .arr _ => false
  | d + 1, .arr xs => fitsElems d xs
  | 0, .obj _ => false
  | d + 1, .obj kvs => fitsMembers d kvs
/-- Every element is within the limits. -/
def fitsElems : Nat → List JSON → Bool
  | _, [] => true
  | d, x :: xs => x.fits d && fitsElems d xs
/-- Every member value is within the limits. -/
def fitsMembers : Nat → List (GoString × JSON) → Bool
  | _, [] => true
  | d, (_, v) :: kvs => v.fits d && fitsMembers d kvs
end

/-- A nil pointer marshals as `null`, any other pointer as its pointee. -/
instance {α : Type} [GoMarshal α] : GoMarshal (Option α) where
  toJSON
    | none => .ok .null
    | some a => GoMarshal.toJSON a

/-- A non-nil `map[string]interface{}` marshals as an object, its keys in
sorted order. -/
instance : GoMarshal Entries where
  toJSON m := .ok (.obj (sortKeys m))

/-- A dynamic value marshals as the document it stands for. -/
instance : GoMarshal JSON where
  toJSON j := .ok j

/-- Decoding into a `map[string]interface{}` variable: `null` makes it nil, an
object fills a (fresh, when nil) map key by key with what `JSON.generic` makes
of each value, anything else is a type error. -/
instance : GoUnmarshal (Option Entries) where
  fromJSON
    | .null, _ => .ok none
    | .obj kvs, cur =>
      match genericMembers kvs with
      | .error e => .error e
      | .ok l => .ok (some (l.foldl (fun m kv => setKey m kv.1 kv.2) (cur.getD [])))
    | _, _ => .error (.typeError [])

/-- `foldName` of the decoder, for comparison with the ASCII names of
types.go: ASCII letters in upper case, and the two letters outside ASCII whose
case folding is an ASCII letter, U+017F for `S` and U+212A for `K`.  It passes
over the rest of such a letter once its first byte is replaced. -/
def foldName : Nat → Bytes → Bytes
  | _, [] => []
  | d + 1, _ :: bs => foldName d bs
  | 0, b :: bs =>
    if b = 0xC5 ∧ bs.take 1 = [0xBF] then 83 :: foldName 1 bs
    else if b = 0xE2 ∧ bs.take 2 = [0x84, 0xAA] then 75 :: foldName 2 bs
    else (if 97 ≤ b ∧ b ≤ 122 then b - 32 else b) :: foldName 0 bs

/-- Field lookup of the decoder: an object key selects the struct field whose
JSON name equals it, or equals it up to letter case. -/
def keyIs (k : GoString) (name : GoString) : Bool :=
  decide (foldName 0 k = foldName 0 name)

/-- Decoding into a `bool`: `null` leaves it, a JSON boolean sets it. -/
def decodeBool (field : GoString) : JSON → Bool → Except JSONError Bool
  | .null, cur => .ok cur
  | .bool b, _ => .ok b
  | _, _ => .error (.typeError field)

/-- Decoding into a `string`: `null` leaves it, a JSON string sets it. -/
def decodeString (field : GoString) : JSON → GoString → Except JSONError GoString
  | .null, cur => .ok cur
  | .str s, _ => .ok s
  | _, _ => .error (.typeError field)

/-- `strconv.ParseInt(s, 10, 64)` on a number literal: its value when it has
neither fraction nor exponent and is in the range of 64 bits. -/
def Number.toInt64 (x : Number) : Option Int :=
  if x.frac.length = 0 ∧ x.exp = none then
    let n : Int := if x.neg then -(x.int : Int) else (x.int : Int)
    if -9223372036854775808 ≤ n ∧ n ≤ 9223372036854775807 then some n else none
  else none

/-- Decoding into an `int` (64 bits): `null` leaves it, an integer literal in
range sets it. -/
def decodeInt (field : GoString) : JSON → Int → Except JSONError Int
  | .null, cur => .ok cur
  | .num x, _ =>
    match x.toInt64 with
    | some n => .ok n
    | none => .error (.typeError field)
  | _, _ => .error (.typeError field)

/-- Decoding into a `*string`: `null` makes it nil, a JSON string is pointed to. -/
def decodeStringPtr (field : GoString) : JSON → Option GoString → Except JSONError (Option GoString)
  | .null, _ => .ok none
  | .str s, _ => .ok (some s)
  | _, _ => .error (.typeError field)

/-- Decoding into a `map[string]bool`: `null` makes it nil, an object sets one
entry per member. -/
def decodeBoolMap (field : GoString) :
    JSON → List (GoString × Bool) → Except JSONError (List (GoString × Bool))
  | .null, _ => .ok []
  | .obj kvs, cur =>
    kvs.foldlM (fun m kv => (decodeBool field kv.2 false).map (fun b => setKey m kv.1 b)) cur
  | _, _ => .error (.typeError field)

/-- Decoding into a struct: `null` leaves it, an object is applied member by
member with `step`, anything else is a type error. -/
def decodeStruct {α : Type} (step : α → GoString → JSON → Except JSONError α) :
    JSON → α → Except JSONError α
  | .null, cur => .ok cur
  | .obj kvs, cur => kvs.foldlM (fun acc kv => step acc kv.1 kv.2) cur
  | _, _ => .error (.typeError [])

/-- Decoding into a slice: `null` makes it nil, an array decodes each element
into a zero value, anything else is a type error. -/
def decodeSlice {α : Type} (zero : α) (elem : JSON → α → Except JSONError α) :
    JSON → Option (List α) → Except JSONError (Option (List α))
  | .null, _ => .ok none
  | .arr xs, _ => (xs.mapM (fun x => elem x zero)).map some
  | _, _ => .error (.typeError [])

/-! ## Request and response shapes (types.go) -/

/-- A `string` field; with `omitempty` it is left out when empty. -/
def strField (name : GoString) (omitempty : Bool) (v : GoString) : Entries :=
  if omitempty ∧ v = [] then [] else [(name, .str v)]

/-- A `*bool` field tagged `omitempty`: left out when nil. -/
def boolPtrField (name : GoString) (v : Option Bool) : Entries :=
  match v with
  | none => []
  | some b => [(name, .bool b)]

/-- A `map[string]bool` field tagged `omitempty`: left out when it has no
entry, else an object with the keys in sorted order. -/
def boolMapField (name : GoString) (v : List (GoString × Bool)) : Entries :=
  if v.length = 0 then []
  else [(name, .obj (sortKeys (v.map (fun kv => (kv.1, JSON.bool kv.2)))))]

/-- A `map[string]interface{}` field tagged `omitempty`: left out when it has
no entry, else an object with the keys in sorted order. -/
def dynMapField (name : GoString) (v : Entries) : Entries :=
  if v.length = 0 then [] else [(name, .obj (sortKeys v))]

/-- `ContactRequest`: body of POST /contacts/create. -/
structure ContactRequest where
  Email : GoString
  FirstName : GoString
  LastName : GoString
  Subscribed : Option Bool
  UserGroup : GoString
  UserID : GoString
  MailingLists : List (GoString × Bool)
  Extra : Entries

instance : GoMarshal ContactRequest where
  toJSON r := .ok (.obj (
    strField (lit "email") false r.Email ++
    strField (lit "firstName") true r.FirstName ++
    strField (lit "lastName") true r.LastName ++
    boolPtrField (lit "subscribed") r.Subscribed ++
    strField (lit "userGroup") true r.UserGroup ++
    strField (lit "userId") true r.UserID ++
    boolMapField (lit "mailingLists") r.MailingLists))

/-- `ContactUpdateRequest`: body of PUT /contacts/update. -/
structure ContactUpdateRequest where
  Email : GoString
  FirstName : GoString
  LastName : GoString
  Subscribed : Option Bool
  UserGroup : GoString
  UserID : GoString
  MailingLists : List (GoString × Bool)
  Extra : Entries

instance : GoMarshal ContactUpdateRequest where
  toJSON r := .ok (.obj (
    strField (lit "email") true r.Email ++
    strField (lit "firstName") true r.FirstName ++
    strField (lit "lastName") true r.LastName ++
    boolPtrField (lit "subscribed") r.Subscribed ++
    strField (lit "userGroup") true r.UserGroup ++
    strField (lit "userId") true r.UserID ++
    boolMapField (lit "mailingLists") r.MailingLists))

/-- `ContactDeleteRequest`: body of POST /contacts/delete. -/
structure ContactDeleteRequest where
  Email : GoString
  UserID : GoString
deriving DecidableEq, Repr

instance : GoMarshal ContactDeleteRequest where
  toJSON r := .ok (.obj (
    strField (lit "email") true r.Email ++
    strField (lit "userId") true r.UserID))

/-- `EventRequest`: body of POST /events/send. -/
structure EventRequest where
  Email : GoString
  UserID : GoString
  EventName : GoString
  EventProperties : Entries
  MailingLists : List (GoString × Bool)
  Extra : Entries

instance : GoMarshal EventRequest where
  toJSON r := .ok (.obj (
    strField (lit "email") true r.Email ++
    strField (lit "userId") true r.UserID ++
    strField (lit "eventName") false r.EventName ++
    dynMapField (lit "eventProperties") r.EventProperties ++
    boolMapField (lit "mailingLists") r.MailingLists))

/-- `TransactionalAttachment`. -/
structure TransactionalAttachment where
  Filename : GoString
  ContentType : GoString
  Data : GoString
deriving DecidableEq, Repr

/-- The object written for one attachment. -/
def TransactionalAttachment.toJSON (a : TransactionalAttachment) : JSON :=
  .obj [(lit "filename", .str a.Filename), (lit "contentType", .str a.ContentType),
    (lit "data", .str a.Data)]

/-- `TransactionalRequest`: body of POST /transactional. -/
structure TransactionalRequest where
  Email : GoString
  TransactionalID : GoString
  AddToAudience : Option Bool
  DataVariables : Entries
  Attachments : List TransactionalAttachment

instance : GoMarshal TransactionalRequest where
  toJSON r := .ok (.obj (
    strField (lit "email") false r.Email ++
    strField (lit "transactionalId") false r.TransactionalID ++
    boolPtrField (lit "addToAudience") r.AddToAudience ++
    dynMapField (lit "dataVariables") r.DataVariables ++
    (if r.Attachments.length = 0 then []
     else [(lit "attachments", .arr (r.Attachments.map TransactionalAttachment.toJSON))])))

/-- `ContactSuccessResponse`. -/
structure ContactSuccessResponse where
  Success : Bool
  ID : GoString
deriving DecidableEq, Repr

instance : GoUnmarshal ContactSuccessResponse where
  fromJSON := decodeStruct (fun cur k v =>
    if keyIs k (lit "success") then
      (decodeBool (lit "success") v cur.Success).map (fun b => { cur with Success := b })
    else if keyIs k (lit "id") then
      (decodeString (lit "id") v cur.ID).map (fun x => { cur with ID := x })
    else .ok cur)

/-- `ContactDeleteResponse`. -/
structure ContactDeleteResponse where
  Success : Bool
  Message : GoString
deriving DecidableEq, Repr

instance : GoUnmarshal ContactDeleteResponse where
  fromJSON := decodeStruct (fun cur k v =>
    if keyIs k (lit "success") then
      (decodeBool (lit "success") v cur.Success).map (fun b => { cur with Success := b })
    else if keyIs k (lit "message") then
      (decodeString (lit "message") v cur.Message).map (fun x => { cur with Message := x })
    else .ok cur)

/-- `EventSuccessResponse`. -/
structure EventSuccessResponse where
  Success : Bool
deriving DecidableEq, Repr

instance : GoUnmarshal EventSuccessResponse where
  fromJSON := decodeStruct (fun cur k v =>
    if keyIs k (lit "success") then
      (decodeBool (lit "success") v cur.Success).map (fun b => { cur with Success := b })
    else .ok cur)

/-- `TransactionalSuccessResponse`. -/
structure TransactionalSuccessResponse where
  Success : Bool
deriving DecidableEq, Repr

instance : GoUnmarshal TransactionalSuccessResponse where
  fromJSON := decodeStruct (fun cur k v =>
    if keyIs k (lit "success") then
      (decodeBool (lit "success") v cur.Success).map (fun b => { cur with Success := b })
    else .ok cur)

/-- `Contact`. -/
structure Contact where
  ID : GoString
  Email : GoString
  FirstName : Option GoString
  LastName : Option GoString
  Source : GoString
  Subscribed : Bool
  UserGroup : GoString
  UserID : Option GoString
  MailingLists : List (GoString × Bool)
  OptInStatus : Option GoString
deriving DecidableEq, Repr

/-- The zero value of `Contact`. -/
def Contact.zero : Contact :=
  { ID := [], Email := [], FirstName := none, LastName := none, Source := [],
    Subscribed := false, UserGroup := [], UserID := none, MailingLists := [],
    OptInStatus := none }

/-- Decoding one object member into a `Contact`. -/
def Contact.step (cur : Contact) (k : GoString) (v : JSON) : Except JSONError Contact :=
  if keyIs k (lit "id") then
    (decodeString (lit "id") v cur.ID).map (fun x => { cur with ID := x })
  else if keyIs k (lit "email") then
    (decodeString (lit "email") v cur.Email).map (fun x => { cur with Email := x })
  else if keyIs k (lit "firstName") then
    (decodeStringPtr (lit "firstName") v cur.FirstName).map (fun x => { cur with FirstName := x })
  else if keyIs k (lit "lastName") then
    (decodeStringPtr (lit "lastName") v cur.LastName).map (fun x => { cur with LastName := x })
  else if keyIs k (lit "source") then
    (decodeString (lit "source") v cur.Source).map (fun x => { cur with Source := x })
  else if keyIs k (lit "subscribed") then
    (decodeBool (lit "subscribed") v cur.Subscribed).map (fun x => { cur with Subscribed := x })
  else if keyIs k (lit "userGroup") then
    (decodeString (lit "userGroup") v cur.UserGroup).map (fun x => { cur with UserGroup := x })
  else if keyIs k (lit "userId") then
    (decodeStringPtr (lit "userId") v cur.UserID).map (fun x => { cur with UserID := x })
  else if keyIs k (lit "mailingLists") then
    (decodeBoolMap (lit "mailingLists") v cur.MailingLists).map
      (fun x => { cur with MailingLists := x })
  else if keyIs k (lit "optInStatus") then
    (decodeStringPtr (lit "optInStatus") v cur.OptInStatus).map
      (fun x => { cur with OptInStatus := x })
  else .ok cur

instance : GoUnmarshal Contact where
  fromJSON := decodeStruct Contact.step

/-- A `[]Contact` variable (`none` is the nil slice). -/
instance : GoUnmarshal (Option (List Contact)) where
  fromJSON := decodeSlice Contact.zero (decodeStruct Contact.step)

/-! ## errors.go -/

/-- The anonymous struct `generic` of `parseErrorBody`. -/
structure FailureShape where
  Success : Bool
  Message : GoString
deriving DecidableEq, Repr

instance : GoUnmarshal FailureShape where
  fromJSON := decodeStruct (fun cur k v =>
    if keyIs k (lit "success") then
      (decodeBool (lit "success") v cur.Success).map (fun b => { cur with Success := b })
    else if keyIs k (lit "message") then
      (decodeString (lit "message") v cur.Message).map (fun x => { cur with Message := x })
    else .ok cur)

/-- `parseErrorBody(resp, body)`; of `resp` only the status code is read. -/
def parseErrorBody (lib : JSONCodec) (statusCode : Int) (body : Bytes) : APIError :=
  let apiErr : APIError := { StatusCode := statusCode, Body := body, Success := false, Message := [] }
  match jsonUnmarshal lib body ({ Success := false, Message := [] } : FailureShape) with
  | .ok generic => { apiErr with Success := generic.Success, Message := generic.Message }
  | .error _ => apiErr

/-! ## client.go -/

/-- `Client`; the `*http.Client` it owns is the transport of the environment. -/
structure Client where
  apiKey : GoString
  baseURL : GoString
deriving DecidableEq, Repr

/-- Outcome of a function that returns `(T, error)` and may panic. -/
inductive Res (α : Type) where
  | ok (a : α)
  | err (e : GoError)
  | panic

/-- A Go `(T, error)` result as a `Res` that did not panic. -/
def Res.ofExcept {α : Type} : Except GoError α → Res α
  | .ok a => .ok a
  | .error e => .err e

/-- The loop `for k, val := range extra { m[k] = val }` on a map variable that
may be nil: `none` when an assignment hits the nil map (a run-time panic). -/
def assignAll : Option Entries → Entries → Option (Option Entries)
  | m, [] => some m
  | none, _ :: _ => none
  | some es, (k, val) :: rest => assignAll (some (setKey es k val)) rest

/-- `mergeBody(v, extra)`. -/
def mergeBody {α : Type} [GoMarshal α] (lib : JSONCodec) (v : α) (extra : Entries) : Res Bytes :=
  if extra.length = 0 then
    Res.ofExcept (jsonMarshal lib v)
  else
    match jsonMarshal lib v with
    | .error e => .err e
    | .ok data =>
      match jsonUnmarshal lib data (none : Option Entries) with
      | .error e => .err e
      | .ok m =>
        match assignAll m extra with
        | none => .panic
        | some m' => Res.ofExcept (jsonMarshal lib m')

/-- `doOpts`. -/
structure doOpts where
  headers : List (GoString × GoString)
  query : List (GoString × GoString)

/-- What `Client.do` leaves behind: the returned error, the value the result
pointer refers to afterwards (`none` for a nil pointer), and the requests
handed to the transport. -/
structure DoResult (α : Type) where
  err : Option GoError
  result : Option α
  sent : List Request

/-- The request `do` builds (client.go lines 71 to 85): no body reader for an
empty body, the `Authorization` and `Content-Type` headers, then the per-call
headers set over them.  Header keys are taken as written; the ones the package
uses are already in canonical form. -/
def Client.buildRequest (c : Client) (method path : GoString) (body : Bytes)
    (opts : Option doOpts) : Request :=
  let bodyReader : Option Bytes := if body.length > 0 then some body else none
  let h0 : List (GoString × GoString) :=
    setKey (setKey [] (lit "Authorization") (lit "Bearer " ++ c.apiKey))
      (lit "Content-Type") (lit "application/json")
  let h := match opts with
    | none => h0
    | some o => o.headers.foldl (fun h kv => setKey h kv.1 kv.2) h0
  { Method := method, URL := c.baseURL ++ path, Header := h, Body := bodyReader }

/-- `(*Client).do`.  On a decode failure the pointee is reported as it was
before the call; no caller reads it then. -/
def Client.do' {α : Type} [GoUnmarshal α] (env : Env) (c : Client) (method path : GoString)
    (body : Bytes) (result : Option α) (opts : Option doOpts) : DoResult α :=
  match env.newRequestError method (c.baseURL ++ path) with
  | some e => { err := some (.net e), result := result, sent := [] }
  | none =>
    let req := c.buildRequest method path body opts
    match env.roundTrip req with
    | .error e => { err := some (.net e), result := result, sent := [req] }
    | .ok resp =>
      match resp.Body with
      | .error e => { err := some (.net e), result := result, sent := [req] }
      | .ok slurp =>
        if resp.StatusCode ≥ 400 then
          { err := some (.api (parseErrorBody env.json resp.StatusCode slurp)),
            result := result, sent := [req] }
        else
          match result with
          | none => { err := none, result := none, sent := [req] }
          | some cur =>
            if slurp.length > 0 then
              match jsonUnmarshal env.json slurp cur with
              | .error e => { err := some (.decodeResponse e), result := result, sent := [req] }
              | .ok a => { err := none, result := some a, sent := [req] }
            else { err := none, result := result, sent := [req] }

/-- Bytes that `url.QueryEscape` leaves as they are. -/
def unreserved (b : Nat) : Bool :=
  (48 ≤ b ∧ b ≤ 57) ∨ (65 ≤ b ∧ b ≤ 90) ∨ (97 ≤ b ∧ b ≤ 122) ∨
    b = 45 ∨ b = 95 ∨ b = 46 ∨ b = 126

/-- Upper-case hexadecimal digit. -/
def hexUpper (n : Nat) : Nat := if n < 10 then 48 + n else 55 + n

/-- `url.QueryEscape`. -/
def queryEscape (s : GoString) : GoString :=
  s.flatMap (fun b =>
    if unreserved b then [b]
    else if b = 32 then [43]
    else [37, hexUpper (b / 16 % 16), hexUpper (b % 16)])

/-- Insertion into a key-sorted parameter list. -/
def insertSorted (kv : GoString × GoString) :
    List (GoString × GoString) → List (GoString × GoString)
  | [] => [kv]
  | x :: rest => if strLE kv.1 x.1 then kv :: x :: rest else x :: insertSorted kv rest

/-- `key=value` pairs joined by `&`. -/
def joinPairs : List (GoString × GoString) → GoString
  | [] => []
  | [kv] => queryEscape kv.1 ++ 61 :: queryEscape kv.2
  | kv :: rest => queryEscape kv.1 ++ 61 :: queryEscape kv.2 ++ 38 :: joinPairs rest

/-- `url.Values.Encode()` for values set with `Set` (one value per key): the
parameters sorted by key. -/
def encodeQuery (q : List (GoString × GoString)) : GoString :=
  joinPairs (q.foldr insertSorted [])

/-- `(*Client).doWithQuery`. -/
def Client.doWithQuery {α : Type} [GoUnmarshal α] (env : Env) (c : Client)
    (method path : GoString) (query : List (GoString × GoString)) (body : Bytes)
    (result : Option α) : DoResult α :=
  let path := if query.length > 0 then path ++ lit "?" ++ encodeQuery query else path
  c.do' env method path body result none

/-- `(*Client).doWithHeaders`. -/
def Client.doWithHeaders {α : Type} [GoUnmarshal α] (env : Env) (c : Client)
    (method path : GoString) (headers : List (GoString × GoString)) (body : Bytes)
    (result : Option α) : DoResult α :=
  c.do' env method path body result (some { headers := headers, query := [] })

/-! ## Endpoint methods -/

/-- What a call of an endpoint method did: it returned `(result, err)` after
handing `sent` to the transport, or it panicked. -/
inductive Call (R : Type) where
  | returned (result : Option R) (err : Option GoError) (sent : List Request)
  | panicked

/-- The requests a call handed to the transport. -/
def Call.sent {R : Type} : Call R → List Request
  | .returned _ _ s => s
  | .panicked => []

/-- The error a call returned. -/
def Call.err {R : Type} : Call R → Option GoError
  | .returned _ e _ => e
  | .panicked => none

/-- The result a call returned. -/
def Call.result {R : Type} : Call R → Option R
  | .returned r _ _ => r
  | .panicked => none

/-- `&APIError{StatusCode: 400, Message: msg}` returned before any request. -/
def validationError {R : Type} (msg : GoString) : Call R :=
  .returned none
    (some (.api { StatusCode := 400, Body := [], Success := false, Message := msg })) []

/-- The call was refused by client-side validation: it returned a nil result
and an `*APIError` with status 400, and handed nothing to the transport. -/
def Call.rejectedLocally {R : Type} (x : Call R) : Prop :=
  x.result = none ∧ x.sent = [] ∧ ∃ e, x.err = some (.api e) ∧ e.StatusCode = 400

/-- The tail `if err != nil { return nil, err }; return &out, nil` of an
endpoint whose result is a pointer to its local `out`. -/
def returnPtr {R : Type} (out : R) (d : DoResult R) : Call R :=
  match d.err with
  | some e => .returned none (some e) d.sent
  | none => .returned (some (d.result.getD out)) none d.sent

/-- The tail `if err != nil { return nil, err }; return out, nil` of an
endpoint whose result is its local slice `out`. -/
def returnSlice {R : Type} (d : DoResult (Option (List R))) : Call (List R) :=
  match d.err with
  | some e => .returned none (some e) d.sent
  | none => .returned (d.result.getD none) none d.sent

/-- `CreateContact` (contacts.go). -/
def Client.CreateContact (env : Env) (c : Client) (req : Option ContactRequest) :
    Call ContactSuccessResponse :=
  match req with
  | none => validationError (lit "email is required")
  | some r =>
    if r.Email = [] then validationError (lit "email is required")
    else
      match mergeBody env.json req r.Extra with
      | .panic => .panicked
      | .err e => .returned none (some e) []
      | .ok body =>
        let out : ContactSuccessResponse := { Success := false, ID := [] }
        returnPtr out (c.do' env (lit "POST") (lit "/contacts/create") body (some out) none)

/-- `UpdateContact` (contacts.go). -/
def Client.UpdateContact (env : Env) (c : Client) (req : Option ContactUpdateRequest) :
    Call ContactSuccessResponse :=
  match req with
  | none => validationError (lit "email or userId is required")
  | some r =>
    if r.Email = [] ∧ r.UserID = [] then validationError (lit "email or userId is required")
    else
      match mergeBody env.json req r.Extra with
      | .panic => .panicked
      | .err e => .returned none (some e) []
      | .ok body =>
        let out : ContactSuccessResponse := { Success := false, ID := [] }
        returnPtr out (c.do' env (lit "PUT") (lit "/contacts/update") body (some out) none)

/-- `FindContact` (contacts.go). -/
def Client.FindContact (env : Env) (c : Client) (email userId : GoString) :
    Call (List Contact) :=
  if (email ≠ [] ∧ userId ≠ []) ∨ (email = [] ∧ userId = []) then
    validationError (lit "exactly one of email or userId is required")
  else
    let q : List (GoString × GoString) :=
      if email ≠ [] then setKey [] (lit "email") email else setKey [] (lit "userId") userId
    returnSlice (c.doWithQuery env (lit "GET") (lit "/contacts/find") q []
      (some (none : Option (List Contact))))

/-- `DeleteContact` (contacts.go). -/
def Client.DeleteContact (env : Env) (c : Client) (req : Option ContactDeleteRequest) :
    Call ContactDeleteResponse :=
  match req with
  | none => validationError (lit "request is required")
  | some r =>
    let hasEmail : Bool := decide (r.Email ≠ [])
    let hasUserID : Bool := decide (r.UserID ≠ [])
    if hasEmail = hasUserID then
      validationError (lit "exactly one of email or userId is required")
    else
      match jsonMarshal env.json req with
      | .error e => .returned none (some e) []
      | .ok body =>
        let out : ContactDeleteResponse := { Success := false, Message := [] }
        returnPtr out (c.do' env (lit "POST") (lit "/contacts/delete") body (some out) none)

/-! ## events.go and transactional.go -/

/-- `idempotencyKeyHeader`. -/
def idempotencyKeyHeader : GoString := lit "Idempotency-Key"

/-- The header map both senders build from the idempotency key:
`headers := make(map[string]string)`, then, for a non-empty key, the key cut
to its first 100 bytes under `idempotencyKeyHeader`. -/
def idempotencyHeaders (idempotencyKey : GoString) : List (GoString × GoString) :=
  let headers : List (GoString × GoString) := []
  if idempotencyKey.length > 0 then
    let idempotencyKey :=
      if idempotencyKey.length > 100 then idempotencyKey.take 100 else idempotencyKey
    setKey headers idempotencyKeyHeader idempotencyKey
  else headers

/-- `SendEvent` (events.go). -/
def Client.SendEvent (env : Env) (c : Client) (req : Option EventRequest)
    (idempotencyKey : GoString) : Call EventSuccessResponse :=
  match req with
  | none => validationError (lit "eventName is required")
  | some r =>
    if r.EventName = [] then validationError (lit "eventName is required")
    else if r.Email = [] ∧ r.UserID = [] then validationError (lit "email or userId is required")
    else
      match mergeBody env.json req r.Extra with
      | .panic => .panicked
      | .err e => .returned none (some e) []
      | .ok body =>
        let headers := idempotencyHeaders idempotencyKey
        let out : EventSuccessResponse := { Success := false }
        returnPtr out
          (c.doWithHeaders env (lit "POST") (lit "/events/send") headers body (some out))

/-- `SendTransactional` (transactional.go). -/
def Client.SendTransactional (env : Env) (c : Client) (req : Option TransactionalRequest)
    (idempotencyKey : GoString) : Call TransactionalSuccessResponse :=
  match req with
  | none => validationError (lit "email and transactionalId are required")
  | some r =>
    if r.Email = [] ∨ r.TransactionalID = [] then
      validationError (lit "email and transactionalId are required")
    else
      match jsonMarshal env.json req with
      | .error e => .returned none (some e) []
      | .ok body =>
        let headers := idempotencyHeaders idempotencyKey
        let out : TransactionalSuccessResponse := { Success := false }
        returnPtr out
          (c.doWithHeaders env (lit "POST") (lit "/transactional") headers body (some out))

/-! ## The codec of `encoding/json`: the text it writes and reads -/

/-- JSON white space: space, tab, line feed, carriage return. -/
def isWs (b : Nat) : Bool := b = 32 ∨ b = 9 ∨ b = 10 ∨ b = 13

/-- Drop leading white space. -/
def skipWs : Bytes → Bytes
  | [] => []
  | b :: bs => if isWs b then skipWs bs else b :: bs

/-- Lower-case hexadecimal digit. -/
def hexLower (n : Nat) : Nat := if n < 10 then 48 + n else 87 + n

/-- The bytes written for one ASCII byte of a string (HTML escaping is on). -/
def escapeByte (b : Nat) : Bytes :=
  if b = 34 then [92, 34]
  else if b = 92 then [92, 92]
  else if b = 8 then [92, 98]
  else if b = 12 then [92, 102]
  else if b = 10 then [92, 110]
  else if b = 13 then [92, 114]
  else if b = 9 then [92, 116]
  else if b < 32 ∨ b = 60 ∨ b = 62 ∨ b = 38 then
    [92, 117, 48, 48, hexLower (b / 16), hexLower (b % 16)]
  else [b]

/-- The bytes written for a string from some byte on: ASCII with its escapes,
a valid sequence as it is, except U+2028 and U+2029 which are escaped, and an
invalid byte as the escape of U+FFFD.  The first argument counts the bytes of
a sequence that was written at its first byte and are still to pass. -/
def escapeFrom : Nat → Bytes → Bytes
  | _, [] => []
  | d + 1, _ :: bs => escapeFrom d bs
  | 0, b :: bs =>
    match utf8Len (b :: bs) with
    | 0 => [92, 117, 102, 102, 102, 100] ++ escapeFrom 0 bs
    | n + 1 =>
      (if n = 0 then escapeByte b
       else if b = 0xE2 ∧ bs.take 2 = [0x80, 0xA8] then [92, 117, 50, 48, 50, 56]
       else if b = 0xE2 ∧ bs.take 2 = [0x80, 0xA9] then [92, 117, 50, 48, 50, 57]
       else b :: bs.take n) ++ escapeFrom n bs

/-- A string literal: quoted, with escapes. -/
def renderStr (s : GoString) : Bytes := 34 :: (escapeFrom 0 s ++ [34])

/-- Value of a hexadecimal digit. -/
def hexVal (b : Nat) : Option Nat :=
  if 48 ≤ b ∧ b ≤ 57 then some (b - 48)
  else if 97 ≤ b ∧ b ≤ 102 then some (b - 87)
  else if 65 ≤ b ∧ b ≤ 70 then some (b - 55)
  else none

/-- Value of four hexadecimal digits. -/
def hex4 (a b c d : Nat) : Option Nat :=
  match hexVal a, hexVal b, hexVal c, hexVal d with
  | some a, some b, some c, some d => some (((a * 16 + b) * 16 + c) * 16 + d)
  | _, _, _, _ => none

/-- The four hexadecimal digits after `\u`, if the bytes start with them. -/
def getu4 : Bytes → Option Nat
  | 92 :: 117 :: h1 :: h2 :: h3 :: h4 :: _ => hex4 h1 h2 h3 h4
  | _ => none

/-- What an escape stands for, given the bytes after the backslash: the bytes
it yields and how many bytes of the input it takes.  A `\u` escape of a high
surrogate followed by one of a low surrogate yields their code point, any
other surrogate U+FFFD. -/
def unescape (bs : Bytes) : Option (Bytes × Nat) :=
  match bs with
  | [] => none
  | e :: rest =>
    if e = 117 then
      match rest with
      | h1 :: h2 :: h3 :: h4 :: rest2 =>
        match hex4 h1 h2 h3 h4 with
        | none => none
        | some n =>
          if 0xD800 ≤ n ∧ n < 0xE000 then
            match getu4 rest2 with
            | some n2 =>
              if n < 0xDC00 ∧ 0xDC00 ≤ n2 ∧ n2 < 0xE000 then
                some (utf8Encode ((n - 0xD800) * 0x400 + (n2 - 0xDC00) + 0x10000), 11)
              else some ([0xEF, 0xBF, 0xBD], 5)
            | none => some ([0xEF, 0xBF, 0xBD], 5)
          else some (utf8Encode n, 5)
      | _ => none
    else if e = 34 then some ([34], 1)
    else if e = 92 then some ([92], 1)
    else if e = 47 then some ([47], 1)
    else if e = 98 then some ([8], 1)
    else if e = 102 then some ([12], 1)
    else if e = 110 then some ([10], 1)
    else if e = 114 then some ([13], 1)
    else if e = 116 then some ([9], 1)
    else none

/-- Read a string literal after its opening quote.  The first argument counts
bytes that were dealt with at an earlier byte (an escape, the first byte of a
sequence) and are still to pass. -/
def parseStr : Nat → Bytes → Option (GoString × Bytes)
  | _, [] => none
  | d + 1, _ :: bs => parseStr d bs
  | 0, b :: bs =>
    if b = 34 then some ([], bs)
    else if b = 92 then
      match unescape bs with
      | none => none
      | some (out, k) => (parseStr k bs).map (fun r => (out ++ r.1, r.2))
    else if b < 32 then none
    else
      match utf8Len (b :: bs) with
      | 0 => (parseStr 0 bs).map (fun r => (0xEF :: 0xBF :: 0xBD :: r.1, r.2))
      | n + 1 => (parseStr n bs).map (fun r => (b :: (bs.take n ++ r.1), r.2))

mutual
/-- Compact JSON text of a document. -/
def JSON.render : JSON → Bytes
  | .null => [110, 117, 108, 108]
  | .bool true => [116, 114, 117, 101]
  | .bool false => [102, 97, 108, 115, 101]
  | .num x => x.render
  | .str s => renderStr s
  | .arr [] => [91, 93]
  | .arr (x :: xs) => 91 :: (x.render ++ renderElems xs)
  | .obj [] => [123, 125]
  | .obj ((k, v) :: kvs) => 123 :: (renderStr k ++ 58 :: (v.render ++ renderMembers kvs))
/-- The rest of an array after an element. -/
def renderElems : List JSON → Bytes
  | [] => [93]
  | x :: xs => 44 :: (x.render ++ renderElems xs)
/-- The rest of an object after a member. -/
def renderMembers : List (GoString × JSON) → Bytes
  | [] => [125]
  | (k, v) :: kvs => 44 :: (renderStr k ++ 58 :: (v.render ++ renderMembers kvs))
end

/-- The deepest nesting of arrays and objects the decoder accepts. -/
def maxNestingDepth : Nat := 10000

mutual
/-- Read one value; `fuel` bounds the number of nested calls, `depth` is the
nesting still allowed. -/
def parseValue : Nat → Nat → Bytes → Option (JSON × Bytes)
  | 0, _, _ => none
  | f + 1, depth, bs =>
    match skipWs bs with
    | [] => none
    | b :: rest =>
      if b = 110 then
        match rest with
        | b1 :: b2 :: b3 :: r => if b1 = 117 ∧ b2 = 108 ∧ b3 = 108 then some (.null, r) else none
        | _ => none
      else if b = 116 then
        match rest with
        | b1 :: b2 :: b3 :: r =>
          if b1 = 114 ∧ b2 = 117 ∧ b3 = 101 then some (.bool true, r) else none
        | _ => none
      else if b = 102 then
        match rest with
        | b1 :: b2 :: b3 :: b4 :: r =>
          if b1 = 97 ∧ b2 = 108 ∧ b3 = 115 ∧ b4 = 101 then some (.bool false, r) else none
        | _ => none
      else if b = 34 then
        match parseStr 0 rest with
        | none => none
        | some (s, r) => some (.str s, r)
      else if b = 91 then
        match depth with
        | 0 => none
        | depth + 1 =>
          match skipWs rest with
          | [] => none
          | c :: r =>
            if c = 93 then some (.arr [], r)
            else
              match parseValue f depth (c :: r) with
              | none => none
              | some (x, r1) =>
                match parseElems f depth r1 with
                | none => none
                | some (xs, r2) => some (.arr (x :: xs), r2)
      else if b = 123 then
        match depth with
        | 0 => none
        | depth + 1 =>
          match skipWs rest with
          | [] => none
          | c :: r =>
            if c = 125 then some (.obj [], r)
            else
              match parseMember f depth (c :: r) with
              | none => none
              | some (kv, r1) =>
                match parseMembers f depth r1 with
                | none => none
                | some (kvs, r2) => some (.obj (kv :: kvs), r2)
      else
        match scanNumber (b :: rest) with
        | none => none
        | some (x, r) => some (.num x, r)
termination_by structural fuel _ _ => fuel
/-- Read the rest of an array after an element. -/
def parseElems : Nat → Nat → Bytes → Option (List JSON × Bytes)
  | 0, _, _ => none
  | f + 1, depth, bs =>
    match skipWs bs with
    | [] => none
    | b :: rest =>
      if b = 93 then some ([], rest)
      else if b = 44 then
        match parseValue f depth rest with
        | none => none
        | some (x, r1) =>
          match parseElems f depth r1 with
          | none => none
          | some (xs, r2) => some (x :: xs, r2)
      else none
termination_by structural fuel _ _ => fuel
/-- Read one `"key": value` member. -/
def parseMember : Nat → Nat → Bytes → Option ((GoString × JSON) × Bytes)
  | 0, _, _ => none
  | f + 1, depth, bs =>
    match skipWs bs with
    | [] => none
    | b :: rest =>
      if b = 34 then
        match parseStr 0 rest with
        | none => none
        | some (k, r1) =>
          match skipWs r1 with
          | [] => none
          | c :: r2 =>
            if c = 58 then
              match parseValue f depth r2 with
              | none => none
              | some (v, r3) => some ((k, v), r3)
            else none
      else none
termination_by structural fuel _ _ => fuel
/-- Read the rest of an object after a member. -/
def parseMembers : Nat → Nat → Bytes → Option (List (GoString × JSON) × Bytes)
  | 0, _, _ => none
  | f + 1, depth, bs =>
    match skipWs bs with
    | [] => none
    | b :: rest =>
      if b = 125 then some ([], rest)
      else if b = 44 then
        match parseMember f depth rest with
        | none => none
        | some (kv, r1) =>
          match parseMembers f depth r1 with
          | none => none
          | some (kvs, r2) => some (kv :: kvs, r2)
      else none
termination_by structural fuel _ _ => fuel
end

/-- Read a whole document: one value, then nothing but white space. -/
def parseDocument (bs : Bytes) : Option JSON :=
  match parseValue (2 * bs.length + 2) maxNestingDepth bs with
  | none => none
  | some (j, r) => if (skipWs r).length = 0 then some j else none

/-- The codec of `encoding/json`: what `json.Marshal` writes for a document
(compact, HTML-escaped, invalid UTF-8 as U+FFFD) and what the decoder reads
from a text (`none` on a syntax error, which nesting beyond 10000 is). -/
def goJSON : JSONCodec := { encode := JSON.render, decode := parseDocument }

/-- The codec reads back what it wrote: the document with its strings coerced
to valid UTF-8, or nothing when it is nested deeper than the decoder reads. -/
def JSONCodec.readsBack (lib : JSONCodec) : Prop :=
  ∀ j, lib.decode (lib.encode j) =
    if j.depth ≤ maxNestingDepth then some j.toValid else none

/-- Whether a number literal goes on with a fraction or an exponent. -/
def startsFraction : Bytes → Bool
  | [] => false
  | b :: _ => b = 46 ∨ b = 101 ∨ b = 69

/-- Read an integer literal; fractions and exponents are not read. -/
def parseNum (bs : Bytes) : Option (Int × Bytes) :=
  match bs with
  | [] => none
  | b :: rest =>
    if b = 45 then
      match parseNat rest with
      | none => none
      | some (n, r) => if startsFraction r then none else some (Int.negOfNat n, r)
    else
      match parseNat (b :: rest) with
      | none => none
      | some (n, r) => if startsFraction r then none else some (Int.ofNat n, r)

/-- What may follow a number literal: nothing, or a byte that is neither a
digit nor the start of a fraction or exponent. -/
def numEnd (rest : Bytes) : Prop :=
  ∀ b tl, rest = b :: tl → isDigit b = false ∧ b ≠ 46 ∧ b ≠ 101 ∧ b ≠ 69

/-! ## Constructors (client.go) -/

/-- `DefaultBaseURL` (types.go). -/
def DefaultBaseURL : GoString := lit "https://app.loops.so/api/v1"

/-- `strings.HasSuffix`. -/
def hasSuffix (s suffix : GoString) : Bool :=
  decide (s.length ≥ suffix.length ∧ s.drop (s.length - suffix.length) = suffix)

/-- `strings.TrimSuffix`. -/
def trimSuffix (s suffix : GoString) : GoString :=
  if hasSuffix s suffix then s.take (s.length - suffix.length) else s

/-- `ClientOption`: a function that configures a client. -/
abbrev ClientOption := Client → Client

/-- `WithBaseURL`. -/
def WithBaseURL (baseURL : GoString) : ClientOption :=
  fun c => { c with baseURL := trimSuffix baseURL (lit "/") }

/-- `NewClient`. -/
def NewClient (apiKey : GoString) (opts : List ClientOption) : Client :=
  opts.foldl (fun c opt => opt c) { apiKey := apiKey, baseURL := DefaultBaseURL }

/-! ## Error text (errors.go) -/

/-- `strconv.Itoa`, also the verb `%d` of `fmt`. -/
def Itoa (n : Int) : GoString := renderInt n

/-- `(*APIError).Error`. -/
def APIError.Error (e : APIError) : GoString :=
  if e.Message ≠ [] then
    lit "loops API error (status " ++ Itoa e.StatusCode ++ lit "): " ++ e.Message
  else
    lit "loops API error (status " ++ Itoa e.StatusCode ++ lit "): " ++ e.Body

/-- The text of an error; the texts of the `encoding/json` and `net/http`
errors are those libraries' business.  `fmt.Errorf("decode response: %w", err)`
puts its words in front of the text of the error it wraps. -/
def GoError.Error (jsonText : JSONError → GoString) (netText : NetError → GoString) :
    GoError → GoString
  | .api e => e.Error
  | .json e => jsonText e
  | .decodeResponse e => lit "decode response: " ++ GoError.Error jsonText netText e
  | .net e => netText e

/-- `errors.Unwrap`. -/
def GoError.Unwrap : GoError → Option GoError
  | .decodeResponse e => some e
  | _ => none

/-! ## api_key.go, contact_properties.go, lists.go, dedicated_ips.go and
`ListTransactionals` -/

/-- `APIKeyResponse`. -/
structure APIKeyResponse where
  Success : Bool
  TeamName : GoString
deriving DecidableEq, Repr

instance : GoUnmarshal APIKeyResponse where
  fromJSON := decodeStruct (fun cur k v =>
    if keyIs k (lit "success") then
      (decodeBool (lit "success") v cur.Success).map (fun b => { cur with Success := b })
    else if keyIs k (lit "teamName") then
      (decodeString (lit "teamName") v cur.TeamName).map (fun x => { cur with TeamName := x })
    else .ok cur)

/-- `ContactPropertyCreateRequest`: body of POST /contacts/properties. -/
structure ContactPropertyCreateRequest where
  Name : GoString
  Type' : GoString
deriving DecidableEq, Repr

instance : GoMarshal ContactPropertyCreateRequest where
  toJSON r := .ok (.obj (
    strField (lit "name") false r.Name ++
    strField (lit "type") false r.Type'))

/-- `ContactPropertySuccessResponse`. -/
structure ContactPropertySuccessResponse where
  Success : Bool
deriving DecidableEq, Repr

instance : GoUnmarshal ContactPropertySuccessResponse where
  fromJSON := decodeStruct (fun cur k v =>
    if keyIs k (lit "success") then
      (decodeBool (lit "success") v cur.Success).map (fun b => { cur with Success := b })
    else .ok cur)

/-- `ContactProperty`. -/
structure ContactProperty where
  Key : GoString
  Label : GoString
  Type' : GoString
deriving DecidableEq, Repr

/-- Decoding one object member into a `ContactProperty`. -/
def ContactProperty.step (cur : ContactProperty) (k : GoString) (v : JSON) :
    Except JSONError ContactProperty :=
  if keyIs k (lit "key") then
    (decodeString (lit "key") v cur.Key).map (fun x => { cur with Key := x })
  else if keyIs k (lit "label") then
    (decodeString (lit "label") v cur.Label).map (fun x => { cur with Label := x })
  else if keyIs k (lit "type") then
    (decodeString (lit "type") v cur.Type').map (fun x => { cur with Type' := x })
  else .ok cur

/-- A `[]ContactProperty` variable. -/
instance : GoUnmarshal (Option (List ContactProperty)) where
  fromJSON := decodeSlice { Key := [], Label := [], Type' := [] }
    (decodeStruct ContactProperty.step)

/-- `MailingList`. -/
structure MailingList where
  ID : GoString
  Name : GoString
  Description : GoString
  IsPublic : Bool
deriving DecidableEq, Repr

/-- Decoding one object member into a `MailingList`. -/
def MailingList.step (cur : MailingList) (k : GoString) (v : JSON) :
    Except JSONError MailingList :=
  if keyIs k (lit "id") then
    (decodeString (lit "id") v cur.ID).map (fun x => { cur with ID := x })
  else if keyIs k (lit "name") then
    (decodeString (lit "name") v cur.Name).map (fun x => { cur with Name := x })
  else if keyIs k (lit "description") then
    (decodeString (lit "description") v cur.Description).map
      (fun x => { cur with Description := x })
  else if keyIs k (lit "isPublic") then
    (decodeBool (lit "isPublic") v cur.IsPublic).map (fun x => { cur with IsPublic := x })
  else .ok cur

/-- A `[]MailingList` variable. -/
instance : GoUnmarshal (Option (List MailingList)) where
  fromJSON := decodeSlice { ID := [], Name := [], Description := [], IsPublic := false }
    (decodeStruct MailingList.step)

/-- A `[]string` variable. -/
instance : GoUnmarshal (Option (List GoString)) where
  fromJSON := decodeSlice [] (decodeString [])

/-- `TransactionalEmail`. -/
structure TransactionalEmail where
  ID : GoString
  Name : GoString
  LastUpdated : GoString
  DataVariables : Option (List GoString)
deriving DecidableEq, Repr

/-- Decoding one object member into a `TransactionalEmail`. -/
def TransactionalEmail.step (cur : TransactionalEmail) (k : GoString) (v : JSON) :
    Except JSONError TransactionalEmail :=
  if keyIs k (lit "id") then
    (decodeString (lit "id") v cur.ID).map (fun x => { cur with ID := x })
  else if keyIs k (lit "name") then
    (decodeString (lit "name") v cur.Name).map (fun x => { cur with Name := x })
  else if keyIs k (lit "lastUpdated") then
    (decodeString (lit "lastUpdated") v cur.LastUpdated).map
      (fun x => { cur with LastUpdated := x })
  else if keyIs k (lit "dataVariables") then
    (decodeSlice [] (decodeString (lit "dataVariables")) v cur.DataVariables).map
      (fun x => { cur with DataVariables := x })
  else .ok cur

/-- `ListTransactionalsPagination`. -/
structure ListTransactionalsPagination where
  TotalResults : Int
  ReturnedResults : Int
  PerPage : Int
  TotalPages : Int
  NextCursor : Option GoString
  NextPage : Option GoString
deriving DecidableEq, Repr

/-- Decoding one object member into a `ListTransactionalsPagination`. -/
def ListTransactionalsPagination.step (cur : ListTransactionalsPagination) (k : GoString)
    (v : JSON) : Except JSONError ListTransactionalsPagination :=
  if keyIs k (lit "totalResults") then
    (decodeInt (lit "totalResults") v cur.TotalResults).map
      (fun x => { cur with TotalResults := x })
  else if keyIs k (lit "returnedResults") then
    (decodeInt (lit "returnedResults") v cur.ReturnedResults).map
      (fun x => { cur with ReturnedResults := x })
  else if keyIs k (lit "perPage") then
    (decodeInt (lit "perPage") v cur.PerPage).map (fun x => { cur with PerPage := x })
  else if keyIs k (lit "totalPages") then
    (decodeInt (lit "totalPages") v cur.TotalPages).map (fun x => { cur with TotalPages := x })
  else if keyIs k (lit "nextCursor") then
    (decodeStringPtr (lit "nextCursor") v cur.NextCursor).map
      (fun x => { cur with NextCursor := x })
  else if keyIs k (lit "nextPage") then
    (decodeStringPtr (lit "nextPage") v cur.NextPage).map (fun x => { cur with NextPage := x })
  else .ok cur

/-- `ListTransactionalsResponse`. -/
structure ListTransactionalsResponse where
  Pagination : ListTransactionalsPagination
  Data : Option (List TransactionalEmail)
deriving DecidableEq, Repr

/-- The zero value of `ListTransactionalsResponse`. -/
def ListTransactionalsResponse.zero : ListTransactionalsResponse :=
  { Pagination :=
      { TotalResults := 0
        ReturnedResults := 0
        PerPage := 0
        TotalPages := 0
        NextCursor := none
        NextPage := none }
    Data := none }

instance : GoUnmarshal ListTransactionalsResponse where
  fromJSON := decodeStruct (fun cur k v =>
    if keyIs k (lit "pagination") then
      (decodeStruct ListTransactionalsPagination.step v cur.Pagination).map
        (fun x => { cur with Pagination := x })
    else if keyIs k (lit "data") then
      (decodeSlice { ID := [], Name := [], LastUpdated := [], DataVariables := none }
        (decodeStruct TransactionalEmail.step) v cur.Data).map (fun x => { cur with Data := x })
    else .ok cur)

/-- `GetAPIKey` (api_key.go). -/
def Client.GetAPIKey (env : Env) (c : Client) : Call APIKeyResponse :=
  let out : APIKeyResponse := { Success := false, TeamName := [] }
  returnPtr out (c.do' env (lit "GET") (lit "/api-key") [] (some out) none)

/-- `CreateContactProperty` (contact_properties.go). -/
def Client.CreateContactProperty (env : Env) (c : Client)
    (req : Option ContactPropertyCreateRequest) : Call ContactPropertySuccessResponse :=
  match req with
  | none => validationError (lit "name and type are required")
  | some r =>
    if r.Name = [] ∨ r.Type' = [] then validationError (lit "name and type are required")
    else
      match jsonMarshal env.json req with
      | .error e => .returned none (some e) []
      | .ok body =>
        let out : ContactPropertySuccessResponse := { Success := false }
        returnPtr out (c.do' env (lit "POST") (lit "/contacts/properties") body (some out) none)

/-- `ListContactProperties` (contact_properties.go). -/
def Client.ListContactProperties (env : Env) (c : Client) (list : GoString) :
    Call (List ContactProperty) :=
  let q : List (GoString × GoString) := if list ≠ [] then setKey [] (lit "list") list else []
  returnSlice (c.doWithQuery env (lit "GET") (lit "/contacts/properties") q []
    (some (none : Option (List ContactProperty))))

/-- `GetLists` (lists.go). -/
def Client.GetLists (env : Env) (c : Client) : Call (List MailingList) :=
  returnSlice (c.do' env (lit "GET") (lit "/lists") []
    (some (none : Option (List MailingList))) none)

/-- `GetDedicatedSendingIPs` (dedicated_ips.go). -/
def Client.GetDedicatedSendingIPs (env : Env) (c : Client) : Call (List GoString) :=
  returnSlice (c.do' env (lit "GET") (lit "/dedicated-sending-ips") []
    (some (none : Option (List GoString))) none)

/-- `ListTransactionals` (transactional.go). -/
def Client.ListTransactionals (env : Env) (c : Client) (perPage : Int) (cursor : GoString) :
    Call ListTransactionalsResponse :=
  let q : List (GoString × GoString) := []
  let q := if perPage > 0 then setKey q (lit "perPage") (Itoa perPage) else q
  let q := if cursor ≠ [] then setKey q (lit "cursor") cursor else q
  let out : ListTransactionalsResponse := ListTransactionalsResponse.zero
  returnPtr out (c.doWithQuery env (lit "GET") (lit "/transactional") q [] (some out))

/-- `expectedEndpoints` (openapi_spec_test.go). -/
def expectedEndpoints : List (GoString × GoString) :=
  [(lit "GET", lit "/api-key"),
   (lit "POST", lit "/contacts/create"),
   (lit "PUT", lit "/contacts/update"),
   (lit "GET", lit "/contacts/find"),
   (lit "POST", lit "/contacts/delete"),
   (lit "POST", lit "/contacts/properties"),
   (lit "GET", lit "/contacts/properties"),
   (lit "GET", lit "/dedicated-sending-ips"),
   (lit "GET", lit "/lists"),
   (lit "POST", lit "/events/send"),
   (lit "POST", lit "/transactional"),
   (lit "GET", lit "/transactional")]

/-- The request is the one `do` builds for `method` and `path`, with or without
a query string after the path, and with no per-call headers or with those of
an idempotency key. -/
def Client.dispatched (c : Client) (method path : GoString) (r : Request) : Prop :=
  ∃ q body opts, r = c.buildRequest method (path ++ q) body opts ∧
    (q = [] ∨ ∃ q', q = 63 :: q') ∧
    (opts = none ∨ ∃ tok, opts = some { headers := idempotencyHeaders tok, query := [] })

/-- The request has the method of the route and a URL made of the base URL,
the path of the route and nothing more, or a query string after `?`. -/
def Client.routed (c : Client) (route : GoString × GoString) (r : Request) : Prop :=
  r.Method = route.1 ∧
    ∃ q, r.URL = c.baseURL ++ route.2 ++ q ∧ (q = [] ∨ ∃ q', q = 63 :: q')

/-- The call returned, and exactly one of its result and its error is non-nil. -/
def Call.exactlyOne {R : Type} (x : Call R) : Prop :=
  ∃ result err sent, x = .returned result err sent ∧ (err = none ↔ result ≠ none)

/-- The call returned, and with a non-nil error its result is nil. -/
def Call.notBoth {R : Type} (x : Call R) : Prop :=
  ∃ result err sent, x = .returned result err sent ∧ (err ≠ none → result = none)

/-- The call answers a response below status 400 with an empty body by
returning no error and `zero`: for an endpoint that returns a pointer, the
pointer to the zero value of its result; for one that returns a slice, the nil
slice, the zero value of a slice type. -/
def Call.zeroOnEmpty {R : Type} (x : Call R) (env : Env) (zero : Option R) : Prop :=
  ∀ r resp, x.sent = [r] → env.roundTrip r = .ok resp → resp.Body = .ok [] →
    resp.StatusCode < 400 → x.err = none ∧ x.result = zero

/-! ## Sample values -/

/-- A server that answers every request with the given status and body, seen
through the reference codec. -/
def serverEnv (status : Int) (body : Bytes) : Env :=
  { json := goJSON
    newRequestError := fun _ _ => none
    roundTrip := fun _ => .ok { StatusCode := status, Body := .ok body } }

/-- The 409 answer to a repeated idempotency key. -/
def idempotencyUsedBody : Bytes :=
  lit "\x7b\"success\":false,\"message\":\"Idempotency key has been used.\"\x7d"

/-- The answer of a successful send. -/
def successBody : Bytes := lit "\x7b\"success\":true\x7d"

/-- The answer of the probe endpoint for team Acme. -/
def apiKeyBody : Bytes := lit "\x7b\"success\":true,\"teamName\":\"Acme\"\x7d"

/-- A create-contact body whose address is `other@x.com`. -/
def otherEmailBody : Bytes := lit "\x7b\"email\":\"other@x.com\"\x7d"

/-- A client with key `key` for `https://app.loops.so/api/v1`. -/
def sampleClient : Client :=
  { apiKey := lit "key", baseURL := lit "https://app.loops.so/api/v1" }

/-- `ContactRequest{Email: email, Extra: extra}`. -/
def contactRequest (email : GoString) (extra : Entries) : ContactRequest :=
  { Email := email
    FirstName := []
    LastName := []
    Subscribed := none
    UserGroup := []
    UserID := []
    MailingLists := []
    Extra := extra }

/-- `ContactUpdateRequest{Email: email, UserID: userId}`. -/
def contactUpdateRequest (email userId : GoString) : ContactUpdateRequest :=
  { Email := email
    FirstName := []
    LastName := []
    Subscribed := none
    UserGroup := []
    UserID := userId
    MailingLists := []
    Extra := [] }

/-- `EventRequest{EventName: name, Email: email, UserID: userId}`. -/
def eventRequest (name email userId : GoString) : EventRequest :=
  { Email := email
    UserID := userId
    EventName := name
    EventProperties := []
    MailingLists := []
    Extra := [] }

/-- `TransactionalRequest{Email: email, TransactionalID: id}`. -/
def transactionalRequest (email id : GoString) : TransactionalRequest :=
  { Email := email
    TransactionalID := id
    AddToAudience := none
    DataVariables := []
    Attachments := [] }

/-- A merged create-contact body with the extra field `n: 9007199254740993`. -/
def bigNumberBody : Bytes := lit "\x7b\"email\":\"a@b.com\",\"n\":9007199254740993\x7d"

theorem skipWs_cons {b : Nat} (bs : Bytes) (h : isWs b = false) : skipWs (b :: bs) = b :: bs := by
  simp [skipWs, h]

theorem natDigits_append (f n : Nat) (acc rest : Bytes) :
    natDigits f n acc ++ rest = natDigits f n (acc ++ rest) := by
  induction f generalizing n acc with
  | zero => rfl
  | succ f ih =>
    simp only [natDigits]
    split_ifs
    · rfl
    · rw [ih]; rfl

theorem readDigits_natDigits (f n : Nat) (sfx : Bytes) (h : n < f) :
    readDigits (natDigits f n sfx) 0 = readDigits sfx n := by
  induction f generalizing n sfx with
  | zero => omega
  | succ f ih =>
    simp only [natDigits]
    split_ifs with h10
    · have hd : isDigit (48 + n) = true := by simp [isDigit]; omega
      simp [readDigits, hd]
    · rw [ih (n / 10) _ (by omega)]
      have hd : isDigit (48 + n % 10) = true := by simp [isDigit]; omega
      simp only [readDigits, hd, if_true]
      congr 1
      omega

theorem natDigits_head (f n : Nat) (acc : Bytes) (h : n < f) (hpos : 0 < n) :
    ∃ d tl, natDigits f n acc = d :: tl ∧ 49 ≤ d ∧ d ≤ 57 := by
  induction f generalizing n acc with
  | zero => omega
  | succ f ih =>
    simp only [natDigits]
    split_ifs with h10
    · exact ⟨48 + n, acc, rfl, by omega, by omega⟩
    · exact ih (n / 10) _ (by omega) (by omega)

theorem readDigits_numEnd (rest : Bytes) (n : Nat) (h : numEnd rest) :
    readDigits rest n = (n, rest) := by
  cases rest with
  | nil => rfl
  | cons b tl => simp [readDigits, (h b tl rfl).1]

theorem startsFraction_numEnd (rest : Bytes) (h : numEnd rest) : startsFraction rest = false := by
  cases rest with
  | nil => rfl
  | cons b tl =>
    obtain ⟨-, h1, h2, h3⟩ := h b tl rfl
    simp [startsFraction, h1, h2, h3]

theorem parseNat_renderNat (n : Nat) (rest : Bytes) (h : numEnd rest) :
    parseNat (renderNat n ++ rest) = some (n, rest) := by
  rcases Nat.eq_zero_or_pos n with h0 | hpos
  · subst h0
    cases rest with
    | nil => rfl
    | cons b tl =>
      have hb := (h b tl rfl).1
      simp [renderNat, natDigits, parseNat, hb]
  · rw [renderNat, natDigits_append, List.nil_append]
    obtain ⟨d, tl, hd, h49, h57⟩ := natDigits_head (n + 1) n rest (by omega) hpos
    have hdig : isDigit d = true := by simp [isDigit]; omega
    have h48 : d ≠ 48 := by omega
    have hr := readDigits_natDigits (n + 1) n rest (by omega)
    rw [hd] at hr ⊢
    simp only [parseNat, if_neg h48, hdig, if_true, hr, readDigits_numEnd rest n h]

theorem renderNat_head (n : Nat) : ∃ d tl, renderNat n = d :: tl ∧ 48 ≤ d ∧ d ≤ 57 := by
  rcases Nat.eq_zero_or_pos n with h0 | hpos
  · subst h0; exact ⟨48, [], rfl, by omega, by omega⟩
  · obtain ⟨d, tl, hd, h49, h57⟩ := natDigits_head (n + 1) n [] (by omega) hpos
    exact ⟨d, tl, hd, by omega, h57⟩

theorem renderInt_head (n : Int) :
    ∃ d tl, renderInt n = d :: tl ∧ (d = 45 ∨ (48 ≤ d ∧ d ≤ 57)) := by
  cases n with
  | ofNat m =>
    obtain ⟨d, tl, hd, h1, h2⟩ := renderNat_head m
    exact ⟨d, tl, hd, Or.inr ⟨h1, h2⟩⟩
  | negSucc m => exact ⟨45, _, rfl, Or.inl rfl⟩

theorem parseNum_renderInt (n : Int) (rest : Bytes) (h : numEnd rest) :
    parseNum (renderInt n ++ rest) = some (n, rest) := by
  cases n with
  | ofNat m =>
    obtain ⟨d, tl, hd, h1, h2⟩ := renderNat_head m
    have hp := parseNat_renderNat m rest h
    simp only [renderInt] at *
    rw [hd] at hp ⊢
    have h45 : d ≠ 45 := by omega
    simp only [List.cons_append] at hp ⊢
    simp only [parseNum, if_neg h45, hp, startsFraction_numEnd rest h]
    rfl
  | negSucc m =>
    have hp := parseNat_renderNat (m + 1) rest h
    simp only [renderInt, List.cons_append, parseNum, if_true, hp, startsFraction_numEnd rest h]
    rfl

theorem parseStr_succ (d b : Nat) (bs : Bytes) : parseStr (d + 1) (b :: bs) = parseStr d bs := by
  rw [parseStr]

theorem parseStr_zero (b : Nat) (bs : Bytes) : parseStr 0 (b :: bs) =
    if b = 34 then some ([], bs)
    else if b = 92 then
      match unescape bs with
      | none => none
      | some (out, k) => (parseStr k bs).map (fun r => (out ++ r.1, r.2))
    else if b < 32 then none
    else
      match utf8Len (b :: bs) with
      | 0 => (parseStr 0 bs).map (fun r => (0xEF :: 0xBF :: 0xBD :: r.1, r.2))
      | n + 1 => (parseStr n bs).map (fun r => (b :: (bs.take n ++ r.1), r.2)) := by
  conv_lhs => rw [parseStr]

theorem parseStr_pass : ∀ (pre tl : Bytes), parseStr pre.length (pre ++ tl) = parseStr 0 tl
  | [], tl => rfl
  | b :: pre, tl => by
    rw [List.length_cons, List.cons_append, parseStr_succ]
    exact parseStr_pass pre tl

theorem escapeFrom_succ (d b : Nat) (bs : Bytes) : escapeFrom (d + 1) (b :: bs) = escapeFrom d bs := by
  rw [escapeFrom]

theorem toValidFrom_succ (d b : Nat) (bs : Bytes) : toValidFrom (d + 1) (b :: bs) = toValidFrom d bs := by
  rw [toValidFrom]

theorem utf8Len_spec (b : Nat) (bs : Bytes) (n : Nat) (h : utf8Len (b :: bs) = n + 1) :
    n ≤ bs.length ∧ (∀ tl, utf8Len (b :: (bs.take n ++ tl)) = n + 1) ∧
      (n = 0 ↔ b < 0x80) ∧ (0 < n → 0xC2 ≤ b) := by
  rcases bs with _ | ⟨b1, _ | ⟨b2, _ | ⟨b3, bs⟩⟩⟩ <;>
    simp only [utf8Len] at h <;> split_ifs at h <;>
    (try (exfalso; omega)) <;>
    (have hn : _ = n := Nat.succ.inj h
     subst hn
     refine ⟨by simp, fun tl => by
        simp only [List.take_succ_cons, List.take_zero, List.nil_append, List.cons_append, utf8Len]
        split_ifs <;> first | rfl | (exfalso; omega) | (exfalso; simp_all), by constructor <;> intro <;> omega,
       by intro; omega⟩)

theorem hex4_escape : ∀ b, b < 64 → hex4 48 48 (hexLower (b / 16)) (hexLower (b % 16)) = some b := by
  decide

theorem parseStr_escapeByte (b : Nat) (tl : Bytes) (hb : b < 0x80) :
    parseStr 0 (escapeByte b ++ tl) = (parseStr 0 tl).map (fun r => (b :: r.1, r.2)) := by
  unfold escapeByte
  split_ifs with h1 h2 h3 h4 h5 h6 h7 h8
  · subst h1; simp [parseStr_zero, unescape, parseStr_succ]
  · subst h2; simp [parseStr_zero, unescape, parseStr_succ]
  · subst h3; simp [parseStr_zero, unescape, parseStr_succ]
  · subst h4; simp [parseStr_zero, unescape, parseStr_succ]
  · subst h5; simp [parseStr_zero, unescape, parseStr_succ]
  · subst h6; simp [parseStr_zero, unescape, parseStr_succ]
  · subst h7; simp [parseStr_zero, unescape, parseStr_succ]
  · have hb : b < 64 := by omega
    have hx := hex4_escape b hb
    have hd : ¬ (0xD800 ≤ b ∧ b < 0xE000) := by omega
    have hu : utf8Encode b = [b] := by
      have h80 : b < 0x80 := by omega
      simp only [utf8Encode, if_pos h80]
    simp [parseStr_zero, unescape, hx, hu, hd, parseStr_succ]
  · have h32 : ¬ b < 32 := by omega
    have hl : utf8Len (b :: tl) = 1 := by simp [utf8Len, hb]
    simp [parseStr_zero, h1, h2, h32, hl]

theorem parseStr_fffd (tl : Bytes) :
    parseStr 0 ([92, 117, 102, 102, 102, 100] ++ tl) =
      (parseStr 0 tl).map (fun r => (0xEF :: 0xBF :: 0xBD :: r.1, r.2)) := by
  have hx : hex4 102 102 102 100 = some 0xFFFD := by decide
  have hu : utf8Encode 0xFFFD = [0xEF, 0xBF, 0xBD] := by decide
  simp [parseStr_zero, unescape, hx, hu, parseStr_succ]

theorem parseStr_2028 (tl : Bytes) :
    parseStr 0 ([92, 117, 50, 48, 50, 56] ++ tl) =
      (parseStr 0 tl).map (fun r => (0xE2 :: 0x80 :: 0xA8 :: r.1, r.2)) := by
  have hx : hex4 50 48 50 56 = some 0x2028 := by decide
  have hu : utf8Encode 0x2028 = [0xE2, 0x80, 0xA8] := by decide
  simp [parseStr_zero, unescape, hx, hu, parseStr_succ]

theorem parseStr_2029 (tl : Bytes) :
    parseStr 0 ([92, 117, 50, 48, 50, 57] ++ tl) =
      (parseStr 0 tl).map (fun r => (0xE2 :: 0x80 :: 0xA9 :: r.1, r.2)) := by
  have hx : hex4 50 48 50 57 = some 0x2029 := by decide
  have hu : utf8Encode 0x2029 = [0xE2, 0x80, 0xA9] := by decide
  simp [parseStr_zero, unescape, hx, hu, parseStr_succ]

theorem escapeFrom_zero (b : Nat) (bs : Bytes) : escapeFrom 0 (b :: bs) =
    match utf8Len (b :: bs) with
    | 0 => [92, 117, 102, 102, 102, 100] ++ escapeFrom 0 bs
    | n + 1 =>
      (if n = 0 then escapeByte b
       else if b = 0xE2 ∧ bs.take 2 = [0x80, 0xA8] then [92, 117, 50, 48, 50, 56]
       else if b = 0xE2 ∧ bs.take 2 = [0x80, 0xA9] then [92, 117, 50, 48, 50, 57]
       else b :: bs.take n) ++ escapeFrom n bs := by
  conv_lhs => rw [escapeFrom]

theorem toValidFrom_zero (b : Nat) (bs : Bytes) : toValidFrom 0 (b :: bs) =
    match utf8Len (b :: bs) with
    | 0 => 0xEF :: 0xBF :: 0xBD :: toValidFrom 0 bs
    | n + 1 => b :: (bs.take n ++ toValidFrom n bs) := by
  conv_lhs => rw [toValidFrom]

/-- Reading a written string gives the string coerced to valid UTF-8. -/
theorem parseStr_escapeFrom : ∀ (s : Bytes) (d : Nat) (rest : Bytes), d ≤ s.length →
    parseStr d (s.take d ++ (escapeFrom d s ++ 34 :: rest)) = some (toValidFrom d s, rest)
  | [], d, rest, hd => by
    have h0 : d = 0 := by simpa using hd
    subst h0
    simp [escapeFrom, toValidFrom, parseStr_zero]
  | b :: bs, d + 1, rest, hd => by
    rw [List.take_succ_cons, List.cons_append, parseStr_succ, escapeFrom_succ, toValidFrom_succ]
    exact parseStr_escapeFrom bs d rest (by simpa using hd)
  | b :: bs, 0, rest, _ => by
    rw [List.take_zero, List.nil_append, escapeFrom_zero, toValidFrom_zero]
    cases hl : utf8Len (b :: bs) with
    | zero =>
      have ih := parseStr_escapeFrom bs 0 rest (Nat.zero_le _)
      rw [List.take_zero, List.nil_append] at ih
      simp only []
      rw [List.append_assoc, parseStr_fffd, ih]
      rfl
    | succ n =>
      obtain ⟨hlen, hpre, hzero, hpos⟩ := utf8Len_spec b bs n hl
      have ih := parseStr_escapeFrom bs n rest hlen
      have hpass : parseStr 0 (escapeFrom n bs ++ 34 :: rest) = some (toValidFrom n bs, rest) := by
        have hp := parseStr_pass (bs.take n) (escapeFrom n bs ++ 34 :: rest)
        rw [List.length_take, Nat.min_eq_left hlen] at hp
        rw [← hp]
        exact ih
      simp only []
      by_cases hn : n = 0
      · subst hn
        have hb : b < 0x80 := hzero.mp rfl
        rw [if_pos rfl, List.append_assoc, parseStr_escapeByte b _ hb, hpass]
        rfl
      · have hb : 0xC2 ≤ b := hpos (Nat.pos_of_ne_zero hn)
        rw [if_neg hn]
        by_cases h28 : b = 0xE2 ∧ bs.take 2 = [0x80, 0xA8]
        · rw [if_pos h28, List.append_assoc, parseStr_2028, hpass]
          obtain ⟨hb2, ht⟩ := h28
          have hn2 : n = 2 := by
            subst hb2
            rcases bs with _ | ⟨b1, _ | ⟨b2, bs⟩⟩
            · simp at ht
            · simp at ht
            · simp only [List.take_succ_cons, List.take_zero, List.cons.injEq, and_true] at ht
              obtain ⟨rfl, rfl⟩ := ht
              have : utf8Len (0xE2 :: 0x80 :: 0xA8 :: bs) = 3 := by simp [utf8Len, isCont]
              rw [this] at hl
              omega
          subst hn2
          subst hb2
          rw [ht]
          rfl
        · rw [if_neg h28]
          by_cases h29 : b = 0xE2 ∧ bs.take 2 = [0x80, 0xA9]
          · rw [if_pos h29, List.append_assoc, parseStr_2029, hpass]
            obtain ⟨hb2, ht⟩ := h29
            have hn2 : n = 2 := by
              subst hb2
              rcases bs with _ | ⟨b1, _ | ⟨b2, bs⟩⟩
              · simp at ht
              · simp at ht
              · simp only [List.take_succ_cons, List.take_zero, List.cons.injEq, and_true] at ht
                obtain ⟨rfl, rfl⟩ := ht
                have : utf8Len (0xE2 :: 0x80 :: 0xA9 :: bs) = 3 := by simp [utf8Len, isCont]
                rw [this] at hl
                omega
            subst hn2
            subst hb2
            rw [ht]
            rfl
          · rw [if_neg h29]
            have h34 : ¬ b = 34 := by omega
            have h92 : ¬ b = 92 := by omega
            have h32 : ¬ b < 32 := by omega
            have hl2 := hpre (escapeFrom n bs ++ 34 :: rest)
            have htake : (bs.take n ++ (escapeFrom n bs ++ 34 :: rest)).take n = bs.take n := by
              rw [List.take_append_of_le_length (by rw [List.length_take]; omega)]
              rw [List.take_take, Nat.min_self]
            simp only [List.cons_append, List.append_assoc]
            rw [parseStr_zero, if_neg h34, if_neg h92, if_neg h32, hl2]
            simp only []
            rw [htake, ih]
            rfl

theorem parseStr_renderStr (s : GoString) (rest : Bytes) :
    parseStr 0 (escapeFrom 0 s ++ 34 :: rest) = some (toValidUTF8 s, rest) := by
  have h := parseStr_escapeFrom s 0 rest (Nat.zero_le _)
  rwa [List.take_zero, List.nil_append] at h

theorem readDigits_stop (rest : Bytes) (n : Nat)
    (h : ∀ b tl, rest = b :: tl → isDigit b = false) : readDigits rest n = (n, rest) := by
  cases rest with
  | nil => rfl
  | cons b tl => simp [readDigits, h b tl rfl]

theorem readDigits_renderNat (n : Nat) (rest : Bytes)
    (h : ∀ b tl, rest = b :: tl → isDigit b = false) :
    readDigits (renderNat n ++ rest) 0 = (n, rest) := by
  rw [renderNat, natDigits_append, List.nil_append, readDigits_natDigits (n + 1) n rest (by omega)]
  exact readDigits_stop rest n h

theorem parseNat_renderNat_stop (n : Nat) (rest : Bytes)
    (h : ∀ b tl, rest = b :: tl → isDigit b = false) :
    parseNat (renderNat n ++ rest) = some (n, rest) := by
  rcases Nat.eq_zero_or_pos n with h0 | hpos
  · subst h0
    cases rest with
    | nil => rfl
    | cons b tl =>
      have hb := h b tl rfl
      simp [renderNat, natDigits, parseNat, hb]
  · have hr := readDigits_renderNat n rest h
    rw [renderNat, natDigits_append, List.nil_append] at hr ⊢
    obtain ⟨d, tl, hd, h49, h57⟩ := natDigits_head (n + 1) n rest (by omega) hpos
    have hdig : isDigit d = true := by simp [isDigit]; omega
    have h48 : d ≠ 48 := by omega
    rw [hd] at hr ⊢
    simp only [parseNat, if_neg h48, hdig, if_true, hr]

theorem readDigitList_cons (b : Nat) (bs : Bytes) : readDigitList (b :: bs) =
    if isDigit b then (Fin.ofNat (b - 48) :: (readDigitList bs).1, (readDigitList bs).2)
    else ([], b :: bs) := by
  conv_lhs => rw [readDigitList]

theorem isDigit_digit (d : Fin 10) : isDigit (48 + d.val) = true := by
  have := d.isLt
  simp only [isDigit, decide_eq_true_eq]
  omega

theorem readDigitList_map (ds : List (Fin 10)) (rest : Bytes)
    (h : ∀ b tl, rest = b :: tl → isDigit b = false) :
    readDigitList (ds.map (fun d => 48 + d.val) ++ rest) = (ds, rest) := by
  induction ds with
  | nil =>
    cases rest with
    | nil => rfl
    | cons b tl => simp [readDigitList, h b tl rfl]
  | cons d ds ih =>
    have hd := isDigit_digit d
    have hf : (Fin.ofNat (48 + d.val - 48) : Fin 10) = d := by
      apply Fin.ext
      have := d.isLt
      simp only [Fin.ofNat, Nat.add_sub_cancel_left]
      omega
    rw [List.map_cons, List.cons_append, readDigitList_cons, if_pos hd, ih, hf]

theorem scanExp_render (e : Option Int) (rest : Bytes) (h : numEnd rest) :
    scanExp (renderExp e ++ rest) = some (e, rest) := by
  have hnd : ∀ b tl, rest = b :: tl → isDigit b = false := fun b tl hb => (h b tl hb).1
  cases e with
  | none =>
    cases rest with
    | nil => rfl
    | cons b tl =>
      obtain ⟨-, -, h2, h3⟩ := h b tl rfl
      simp [renderExp, scanExp, h2, h3]
  | some e =>
    obtain ⟨d, tl, hd, h48, h57⟩ := renderNat_head e.natAbs
    have hdig : isDigit d = true := by simp [isDigit]; omega
    have hr := readDigits_renderNat e.natAbs rest hnd
    rw [hd, List.cons_append] at hr
    by_cases hneg : e < 0
    · have hv : Int.negOfNat e.natAbs = e := by
        cases e with
        | ofNat n => exact absurd hneg (by simp)
        | negSucc n => rfl
      simp only [renderExp, if_pos hneg, List.cons_append, hd, scanExp, hdig, hr, hv]
      simp
    · have hv : Int.ofNat e.natAbs = e := by
        cases e with
        | ofNat n => rfl
        | negSucc n => exact absurd (Int.negSucc_lt_zero n) hneg
      simp only [renderExp, if_neg hneg, List.cons_append, hd, scanExp, hdig, hr, hv]
      simp

theorem scanFrac_render (ds : List (Fin 10)) (rest : Bytes)
    (h : ∀ b tl, rest = b :: tl → isDigit b = false ∧ b ≠ 46) :
    scanFrac (renderFrac ds ++ rest) = some (ds, rest) := by
  cases ds with
  | nil =>
    cases rest with
    | nil => rfl
    | cons b tl =>
      obtain ⟨-, h2⟩ := h b tl rfl
      simp [renderFrac, scanFrac, h2]
  | cons d ds =>
    have hd := isDigit_digit d
    have hr := readDigitList_map (d :: ds) rest (fun b tl hb => (h b tl hb).1)
    simp only [List.map_cons, List.cons_append] at hr
    simp only [renderFrac, List.length_cons, Nat.add_one_ne_zero, if_false, List.map_cons,
      List.cons_append, scanFrac, hd, if_true, hr]

theorem renderExp_head (e : Option Int) (rest : Bytes) (h : numEnd rest) (b : Nat) (tl : Bytes)
    (hb : renderExp e ++ rest = b :: tl) : isDigit b = false ∧ b ≠ 46 := by
  cases e with
  | none =>
    obtain ⟨h1, h2, -, -⟩ := h b tl hb
    exact ⟨h1, h2⟩
  | some e =>
    simp only [renderExp, List.cons_append, List.cons.injEq] at hb
    obtain ⟨rfl, -⟩ := hb
    decide

theorem renderFrac_head (ds : List (Fin 10)) (rest : Bytes)
    (h : ∀ b tl, rest = b :: tl → isDigit b = false ∧ b ≠ 46) (b : Nat) (tl : Bytes)
    (hb : renderFrac ds ++ rest = b :: tl) : isDigit b = false := by
  by_cases hl : ds.length = 0
  · rw [renderFrac, if_pos hl, List.nil_append] at hb
    exact (h b tl hb).1
  · rw [renderFrac, if_neg hl] at hb
    simp only [List.cons_append, List.cons.injEq] at hb
    obtain ⟨rfl, -⟩ := hb
    decide

/-- Reading a written number literal gives the literal. -/
theorem scanNumber_render (x : Number) (rest : Bytes) (h : numEnd rest) :
    scanNumber (x.render ++ rest) = some (x, rest) := by
  obtain ⟨neg, int, frac, exp⟩ := x
  have hexp := scanExp_render exp rest h
  have hE := renderExp_head exp rest h
  have hfrac := scanFrac_render frac _ hE
  have hF := renderFrac_head frac _ hE
  have hint := parseNat_renderNat_stop int _ hF
  obtain ⟨d, tl, hd, h48, h57⟩ := renderNat_head int
  cases neg with
  | true =>
    simp only [Number.render, if_true, List.cons_append, List.nil_append, List.append_assoc,
      scanNumber, hint, hfrac, hexp]
  | false =>
    have h45 : ¬ d = 45 := by omega
    have hint2 := hint
    rw [hd] at hint2
    simp only [List.cons_append] at hint2
    simp only [Number.render, Bool.false_eq_true, if_false, List.nil_append, List.append_assoc,
      hd, List.cons_append, scanNumber, if_neg h45, hint2, hfrac, hexp]

/-- The head of a written number literal: a sign or a digit. -/
theorem renderNumber_head (x : Number) :
    ∃ d tl, x.render = d :: tl ∧ (d = 45 ∨ (48 ≤ d ∧ d ≤ 57)) := by
  obtain ⟨neg, int, frac, exp⟩ := x
  obtain ⟨d, tl, hd, h48, h57⟩ := renderNat_head int
  cases neg with
  | true =>
    exact ⟨45, renderNat int ++ renderFrac frac ++ renderExp exp, by simp [Number.render],
      Or.inl rfl⟩
  | false =>
    exact ⟨d, tl ++ renderFrac frac ++ renderExp exp, by simp [Number.render, hd],
      Or.inr ⟨h48, h57⟩⟩

theorem renderStr_length_pos (s : GoString) : 2 ≤ (renderStr s).length := by
  simp [renderStr]

theorem render_head : ∀ j : JSON, ∃ c tl, j.render = c :: tl ∧ isWs c = false ∧ c ≠ 93
  | .null => ⟨_, _, by rw [JSON.render], by decide, by decide⟩
  | .bool true => ⟨_, _, by rw [JSON.render], by decide, by decide⟩
  | .bool false => ⟨_, _, by rw [JSON.render], by decide, by decide⟩
  | .num x => by
    obtain ⟨d, tl, hd, h⟩ := renderNumber_head x
    refine ⟨d, tl, by rw [JSON.render, hd], ?_, by omega⟩
    simp [isWs]; omega
  | .str s => ⟨34, _, by rw [JSON.render, renderStr], by decide, by decide⟩
  | .arr [] => ⟨_, _, by rw [JSON.render], by decide, by decide⟩
  | .arr (x :: xs) => ⟨91, _, by rw [JSON.render], by decide, by decide⟩
  | .obj [] => ⟨_, _, by rw [JSON.render], by decide, by decide⟩
  | .obj ((k, v) :: kvs) => ⟨123, _, by rw [JSON.render], by decide, by decide⟩

theorem numEnd_renderElems (xs : List JSON) (rest : Bytes) : numEnd (renderElems xs ++ rest) := by
  intro b tl h
  cases xs with
  | nil =>
    simp only [renderElems, List.cons_append, List.cons.injEq] at h
    obtain ⟨rfl, -⟩ := h
    decide
  | cons x xs =>
    simp only [renderElems, List.cons_append, List.cons.injEq] at h
    obtain ⟨rfl, -⟩ := h
    decide

theorem numEnd_renderMembers (kvs : List (GoString × JSON)) (rest : Bytes) :
    numEnd (renderMembers kvs ++ rest) := by
  intro b tl h
  cases kvs with
  | nil =>
    simp only [renderMembers, List.cons_append, List.cons.injEq] at h
    obtain ⟨rfl, -⟩ := h
    decide
  | cons kv kvs =>
    obtain ⟨k, v⟩ := kv
    simp only [renderMembers, List.cons_append, List.cons.injEq] at h
    obtain ⟨rfl, -⟩ := h
    decide

theorem numEnd_nil : numEnd [] := by
  intro b tl h
  cases h

theorem parseMember_render (f d : Nat) (k : GoString) (v : JSON) (tail : Bytes) :
    parseMember (f + 1) d (renderStr k ++ 58 :: (v.render ++ tail)) =
      match parseValue f d (v.render ++ tail) with
      | none => none
      | some (v', r) => some ((toValidUTF8 k, v'), r) := by
  have hs : parseStr 0 (escapeFrom 0 k ++ 34 :: 58 :: (v.render ++ tail)) =
      some (toValidUTF8 k, 58 :: (v.render ++ tail)) := parseStr_renderStr k _
  simp only [parseMember, renderStr, List.cons_append, List.append_assoc, List.nil_append,
    skipWs_cons (b := 34) _ (by decide), if_true, hs, skipWs_cons (b := 58) _ (by decide)]

theorem depth_arr_cons_le (x : JSON) (xs : List JSON) (d : Nat) :
    (JSON.arr (x :: xs)).depth ≤ d + 1 ↔ x.depth ≤ d ∧ depthElems xs ≤ d := by
  simp only [JSON.depth, depthElems, Nat.add_le_add_iff_right, Nat.max_le]

theorem depth_obj_cons_le (k : GoString) (v : JSON) (kvs : List (GoString × JSON)) (d : Nat) :
    (JSON.obj ((k, v) :: kvs)).depth ≤ d + 1 ↔ v.depth ≤ d ∧ depthMembers kvs ≤ d := by
  simp only [JSON.depth, depthMembers, Nat.add_le_add_iff_right, Nat.max_le]

theorem depthElems_cons_le (x : JSON) (xs : List JSON) (d : Nat) :
    depthElems (x :: xs) ≤ d ↔ x.depth ≤ d ∧ depthElems xs ≤ d := by
  simp only [depthElems, Nat.max_le]

theorem depthMembers_cons_le (k : GoString) (v : JSON) (kvs : List (GoString × JSON)) (d : Nat) :
    depthMembers ((k, v) :: kvs) ≤ d ↔ v.depth ≤ d ∧ depthMembers kvs ≤ d := by
  simp only [depthMembers, Nat.max_le]

mutual
theorem parseValue_render : ∀ (j : JSON) (f d : Nat) (rest : Bytes),
    j.render.length ≤ f → numEnd rest →
    parseValue f d (j.render ++ rest) = if j.depth ≤ d then some (j.toValid, rest) else none
  | .null, f, d, rest, hf, _ => by
    obtain ⟨f, rfl⟩ : ∃ g, f = g + 1 := ⟨f - 1, by simp [JSON.render] at hf; omega⟩
    simp [JSON.render, parseValue, skipWs, isWs, JSON.depth, JSON.toValid]
  | .bool true, f, d, rest, hf, _ => by
    obtain ⟨f, rfl⟩ : ∃ g, f = g + 1 := ⟨f - 1, by simp [JSON.render] at hf; omega⟩
    simp [JSON.render, parseValue, skipWs, isWs, JSON.depth, JSON.toValid]
  | .bool false, f, d, rest, hf, _ => by
    obtain ⟨f, rfl⟩ : ∃ g, f = g + 1 := ⟨f - 1, by simp [JSON.render] at hf; omega⟩
    simp [JSON.render, parseValue, skipWs, isWs, JSON.depth, JSON.toValid]
  | .num x, f, d, rest, hf, hrest => by
    obtain ⟨c, tl, hc, hdig⟩ := renderNumber_head x
    have hp := scanNumber_render x rest hrest
    simp only [JSON.render] at hf ⊢
    rw [hc] at hf hp ⊢
    obtain ⟨f, rfl⟩ : ∃ g, f = g + 1 := ⟨f - 1, by simp at hf; omega⟩
    have hws : isWs c = false := by simp [isWs]; omega
    simp only [List.cons_append] at hp ⊢
    simp only [parseValue, skipWs_cons _ hws]
    have h1 : c ≠ 110 := by omega
    have h2 : c ≠ 116 := by omega
    have h3 : c ≠ 102 := by omega
    have h4 : c ≠ 34 := by omega
    have h5 : c ≠ 91 := by omega
    have h6 : c ≠ 123 := by omega
    simp only [if_neg h1, if_neg h2, if_neg h3, if_neg h4, if_neg h5, if_neg h6, hp,
      JSON.depth, JSON.toValid, Nat.zero_le, if_true]
  | .str s, f, d, rest, hf, _ => by
    obtain ⟨f, rfl⟩ : ∃ g, f = g + 1 :=
      ⟨f - 1, by have := renderStr_length_pos s; simp only [JSON.render] at hf; omega⟩
    have hs := parseStr_renderStr s rest
    simp [JSON.render, renderStr, parseValue, skipWs, isWs, hs, JSON.depth, JSON.toValid]
  | .arr [], f, d, rest, hf, _ => by
    obtain ⟨f, rfl⟩ : ∃ g, f = g + 1 := ⟨f - 1, by simp [JSON.render] at hf; omega⟩
    cases d with
    | zero => simp [JSON.render, parseValue, skipWs, isWs, JSON.depth]
    | succ d =>
      simp [JSON.render, parseValue, skipWs, isWs, JSON.depth, JSON.toValid, toValidElems,
        depthElems]
  | .arr (x :: xs), f, d, rest, hf, _ => by
    simp only [JSON.render, List.length_cons, List.length_append] at hf
    obtain ⟨f, rfl⟩ : ∃ g, f = g + 1 := ⟨f - 1, by omega⟩
    cases d with
    | zero =>
      simp only [JSON.render, List.cons_append, parseValue, skipWs_cons (b := 91) _ (by decide)]
      simp [JSON.depth]
    | succ d =>
      have hx := parseValue_render x f d (renderElems xs ++ rest) (by omega)
        (numEnd_renderElems xs rest)
      have hxs := parseElems_render xs f d rest (by omega)
      obtain ⟨c, tl, hc, hws, h93⟩ := render_head x
      rw [hc] at hx
      simp only [List.cons_append] at hx
      simp only [JSON.render, hc, List.cons_append, List.append_assoc, parseValue]
      rw [skipWs_cons (b := 91) _ (by decide)]
      simp only [show ¬ (91 = 110) by decide, show ¬ (91 = 116) by decide,
        show ¬ (91 = 102) by decide, show ¬ (91 = 34) by decide, if_false, if_true]
      rw [skipWs_cons _ hws]
      simp only [if_neg h93, hx]
      by_cases h1 : x.depth ≤ d
      · by_cases h2 : depthElems xs ≤ d
        · have h3 := (depth_arr_cons_le x xs d).mpr ⟨h1, h2⟩
          simp only [if_pos h1, hxs, if_pos h2, if_pos h3, JSON.toValid, toValidElems]
        · have h3 : ¬ (JSON.arr (x :: xs)).depth ≤ d + 1 :=
            fun h => h2 ((depth_arr_cons_le x xs d).mp h).2
          simp only [if_pos h1, hxs, if_neg h2, if_neg h3]
      · have h3 : ¬ (JSON.arr (x :: xs)).depth ≤ d + 1 :=
          fun h => h1 ((depth_arr_cons_le x xs d).mp h).1
        simp only [if_neg h1, if_neg h3]
  | .obj [], f, d, rest, hf, _ => by
    obtain ⟨f, rfl⟩ : ∃ g, f = g + 1 := ⟨f - 1, by simp [JSON.render] at hf; omega⟩
    cases d with
    | zero => simp [JSON.render, parseValue, skipWs, isWs, JSON.depth]
    | succ d =>
      simp [JSON.render, parseValue, skipWs, isWs, JSON.depth, JSON.toValid, toValidMembers,
        depthMembers]
  | .obj ((k, v) :: kvs), f, d, rest, hf, _ => by
    simp only [JSON.render, List.length_cons, List.length_append] at hf
    obtain ⟨f, rfl⟩ : ∃ g, f = g + 1 := ⟨f - 1, by omega⟩
    cases d with
    | zero =>
      simp only [JSON.render, List.cons_append, parseValue, skipWs_cons (b := 123) _ (by decide)]
      simp [JSON.depth]
    | succ d =>
      simp only [JSON.render, List.cons_append, List.append_assoc, parseValue]
      rw [skipWs_cons (b := 123) _ (by decide)]
      simp only [show ¬ (123 = 110) by decide, show ¬ (123 = 116) by decide,
        show ¬ (123 = 102) by decide, show ¬ (123 = 34) by decide,
        show ¬ (123 = 91) by decide, if_false, if_true]
      have hlen := renderStr_length_pos k
      obtain ⟨f, rfl⟩ : ∃ g, f = g + 1 := ⟨f - 1, by omega⟩
      have hv := parseValue_render v f d (renderMembers kvs ++ rest) (by omega)
        (numEnd_renderMembers kvs rest)
      have hm := parseMember_render f d k v (renderMembers kvs ++ rest)
      have hkvs := parseMembers_render kvs (f + 1) d rest (by omega)
      have hq : renderStr k ++ 58 :: (v.render ++ (renderMembers kvs ++ rest)) =
          34 :: (escapeFrom 0 k ++ 34 :: 58 :: (v.render ++ (renderMembers kvs ++ rest))) := by
        simp [renderStr]
      rw [hq] at hm ⊢
      rw [skipWs_cons (b := 34) _ (by decide)]
      simp only [show ¬ (34 = 125) by decide, if_false, hm, hv]
      by_cases h1 : v.depth ≤ d
      · by_cases h2 : depthMembers kvs ≤ d
        · have h3 := (depth_obj_cons_le k v kvs d).mpr ⟨h1, h2⟩
          simp only [if_pos h1, hkvs, if_pos h2, if_pos h3, JSON.toValid, toValidMembers]
        · have h3 : ¬ (JSON.obj ((k, v) :: kvs)).depth ≤ d + 1 :=
            fun h => h2 ((depth_obj_cons_le k v kvs d).mp h).2
          simp only [if_pos h1, hkvs, if_neg h2, if_neg h3]
      · have h3 : ¬ (JSON.obj ((k, v) :: kvs)).depth ≤ d + 1 :=
          fun h => h1 ((depth_obj_cons_le k v kvs d).mp h).1
        simp only [if_neg h1, if_neg h3]
theorem parseElems_render : ∀ (xs : List JSON) (f d : Nat) (rest : Bytes),
    (renderElems xs).length ≤ f →
    parseElems f d (renderElems xs ++ rest) =
      if depthElems xs ≤ d then some (toValidElems xs, rest) else none
  | [], f, d, rest, hf => by
    obtain ⟨f, rfl⟩ : ∃ g, f = g + 1 := ⟨f - 1, by simp [renderElems] at hf; omega⟩
    simp [renderElems, parseElems, skipWs, isWs, depthElems, toValidElems]
  | x :: xs, f, d, rest, hf => by
    simp only [renderElems, List.length_cons, List.length_append] at hf
    obtain ⟨f, rfl⟩ : ∃ g, f = g + 1 := ⟨f - 1, by omega⟩
    have hx := parseValue_render x f d (renderElems xs ++ rest) (by omega)
      (numEnd_renderElems xs rest)
    have hxs := parseElems_render xs f d rest (by omega)
    simp only [renderElems, List.cons_append, List.append_assoc, parseElems]
    rw [skipWs_cons (b := 44) _ (by decide)]
    simp only [show ¬ (44 = 93) by decide, if_false, if_true, hx]
    by_cases h1 : x.depth ≤ d
    · by_cases h2 : depthElems xs ≤ d
      · have h3 := (depthElems_cons_le x xs d).mpr ⟨h1, h2⟩
        simp only [if_pos h1, hxs, if_pos h2, if_pos h3, toValidElems]
      · have h3 : ¬ depthElems (x :: xs) ≤ d := fun h => h2 ((depthElems_cons_le x xs d).mp h).2
        simp only [if_pos h1, hxs, if_neg h2, if_neg h3]
    · have h3 : ¬ depthElems (x :: xs) ≤ d := fun h => h1 ((depthElems_cons_le x xs d).mp h).1
      simp only [if_neg h1, if_neg h3]
theorem parseMembers_render : ∀ (kvs : List (GoString × JSON)) (f d : Nat) (rest : Bytes),
    (renderMembers kvs).length ≤ f →
    parseMembers f d (renderMembers kvs ++ rest) =
      if depthMembers kvs ≤ d then some (toValidMembers kvs, rest) else none
  | [], f, d, rest, hf => by
    obtain ⟨f, rfl⟩ : ∃ g, f = g + 1 := ⟨f - 1, by simp [renderMembers] at hf; omega⟩
    simp [renderMembers, parseMembers, skipWs, isWs, depthMembers, toValidMembers]
  | (k, v) :: kvs, f, d, rest, hf => by
    simp only [renderMembers, List.length_cons, List.length_append] at hf
    obtain ⟨f, rfl⟩ : ∃ g, f = g + 1 := ⟨f - 1, by omega⟩
    simp only [renderMembers, List.cons_append, List.append_assoc, parseMembers]
    rw [skipWs_cons (b := 44) _ (by decide)]
    simp only [show ¬ (44 = 125) by decide, if_false, if_true]
    have hlen := renderStr_length_pos k
    obtain ⟨f, rfl⟩ : ∃ g, f = g + 1 := ⟨f - 1, by omega⟩
    have hv := parseValue_render v f d (renderMembers kvs ++ rest) (by omega)
      (numEnd_renderMembers kvs rest)
    have hm := parseMember_render f d k v (renderMembers kvs ++ rest)
    have hkvs := parseMembers_render kvs (f + 1) d rest (by omega)
    simp only [hm, hv]
    by_cases h1 : v.depth ≤ d
    · by_cases h2 : depthMembers kvs ≤ d
      · have h3 := (depthMembers_cons_le k v kvs d).mpr ⟨h1, h2⟩
        simp only [if_pos h1, hkvs, if_pos h2, if_pos h3, toValidMembers]
      · have h3 : ¬ depthMembers ((k, v) :: kvs) ≤ d :=
          fun h => h2 ((depthMembers_cons_le k v kvs d).mp h).2
        simp only [if_pos h1, hkvs, if_neg h2, if_neg h3]
    · have h3 : ¬ depthMembers ((k, v) :: kvs) ≤ d :=
        fun h => h1 ((depthMembers_cons_le k v kvs d).mp h).1
      simp only [if_neg h1, if_neg h3]
end

/-- The codec of `encoding/json` reads back what it wrote. -/
theorem goJSON_readsBack : goJSON.readsBack := by
  intro j
  have h := parseValue_render j (2 * j.render.length + 2) maxNestingDepth [] (by omega) numEnd_nil
  rw [List.append_nil] at h
  show parseDocument j.render = _
  by_cases hd : j.depth ≤ maxNestingDepth
  · simp [parseDocument, h, hd, skipWs]
  · simp [parseDocument, h, hd]

/-! ## Maps -/

theorem lookupKey_setKey_self {β : Type} (m : List (GoString × β)) (k : GoString) (v : β) :
    lookupKey (setKey m k v) k = some v := by
  induction m with
  | nil => simp [setKey, lookupKey]
  | cons hd tl ih =>
    obtain ⟨k', v'⟩ := hd
    by_cases h : k' = k
    · simp [setKey, lookupKey, h]
    · simp [setKey, lookupKey, h, ih]

theorem lookupKey_setKey_other {β : Type} (m : List (GoString × β)) (k k2 : GoString) (v : β)
    (h : k ≠ k2) : lookupKey (setKey m k v) k2 = lookupKey m k2 := by
  induction m with
  | nil => simp [setKey, lookupKey, h]
  | cons hd tl ih =>
    obtain ⟨k', v'⟩ := hd
    by_cases h1 : k' = k
    · subst h1
      simp [setKey, lookupKey, h]
    · by_cases h2 : k' = k2
      · subst h2
        simp [setKey, lookupKey, h1]
      · simp [setKey, lookupKey, h1, h2, ih]

theorem lookupKey_mem {β : Type} (m : List (GoString × β)) (k : GoString) (v : β)
    (h : lookupKey m k = some v) : (k, v) ∈ m := by
  induction m with
  | nil => simp [lookupKey] at h
  | cons hd tl ih =>
    obtain ⟨k', v'⟩ := hd
    by_cases h1 : k' = k
    · subst h1
      simp only [lookupKey, if_true, Option.some.injEq] at h
      subst h
      exact List.mem_cons_self _ _
    · simp only [lookupKey, if_neg h1] at h
      exact List.mem_cons_of_mem _ (ih h)

theorem keysOf_setKey {β : Type} (m : List (GoString × β)) (k : GoString) (v : β) :
    keysOf (setKey m k v) = if k ∈ keysOf m then keysOf m else keysOf m ++ [k] := by
  induction m with
  | nil => simp [setKey, keysOf]
  | cons hd tl ih =>
    obtain ⟨k', v'⟩ := hd
    by_cases h1 : k' = k
    · subst h1
      simp [setKey, keysOf]
    · have h2 : ¬ k = k' := fun h => h1 h.symm
      simp only [keysOf] at ih
      simp only [setKey, if_neg h1, keysOf, List.map_cons, List.mem_cons, h2, false_or, ih]
      split_ifs <;> simp

theorem nodup_setKey {β : Type} (m : List (GoString × β)) (k : GoString) (v : β)
    (h : (keysOf m).Nodup) : (keysOf (setKey m k v)).Nodup := by
  rw [keysOf_setKey]
  split_ifs with hk
  · exact h
  · exact List.Nodup.append h (List.nodup_singleton k) (by simpa using hk)

theorem nodup_foldl_setKey {β : Type} (l m : List (GoString × β)) (h : (keysOf m).Nodup) :
    (keysOf (l.foldl (fun m kv => setKey m kv.1 kv.2) m)).Nodup := by
  induction l generalizing m with
  | nil => exact h
  | cons hd tl ih => exact ih _ (nodup_setKey m hd.1 hd.2 h)

/-- Assignments to other keys leave the entry for `k` alone. -/
theorem lookupKey_foldl_other {β : Type} (l m : List (GoString × β)) (k : GoString)
    (h : k ∉ keysOf l) :
    lookupKey (l.foldl (fun m kv => setKey m kv.1 kv.2) m) k = lookupKey m k := by
  induction l generalizing m with
  | nil => rfl
  | cons hd tl ih =>
    simp only [keysOf, List.map_cons, List.mem_cons, not_or] at h
    rw [List.foldl_cons, ih _ (by simpa [keysOf] using h.2)]
    exact lookupKey_setKey_other m hd.1 k hd.2 (fun e => h.1 e.symm)

/-- After assigning every entry of a map with distinct keys, each of its
entries is what the target holds. -/
theorem lookupKey_foldl_mem {β : Type} (l m : List (GoString × β)) (k : GoString) (v : β)
    (hnd : (keysOf l).Nodup) (h : (k, v) ∈ l) :
    lookupKey (l.foldl (fun m kv => setKey m kv.1 kv.2) m) k = some v := by
  induction l generalizing m with
  | nil => cases h
  | cons hd tl ih =>
    simp only [keysOf, List.map_cons, List.nodup_cons] at hnd
    rw [List.foldl_cons]
    rcases List.mem_cons.mp h with heq | hin
    · subst heq
      rw [lookupKey_foldl_other tl _ k (by simpa [keysOf] using hnd.1)]
      exact lookupKey_setKey_self m k v
    · exact ih _ (by simpa [keysOf] using hnd.2) hin

theorem nodup_keysOf_nil {β : Type} : (keysOf ([] : List (GoString × β))).Nodup := by
  simp [keysOf]

/-- The loop over `extra` on a non-nil map never panics and is a fold. -/
theorem assignAll_some (es extra : Entries) :
    assignAll (some es) extra = some (some (extra.foldl (fun m kv => setKey m kv.1 kv.2) es)) := by
  induction extra generalizing es with
  | nil => rfl
  | cons hd tl ih =>
    obtain ⟨k, v⟩ := hd
    simp only [assignAll, List.foldl_cons]
    exact ih _

/-- On a nil map the loop panics as soon as there is an entry to assign. -/
theorem assignAll_none (extra : Entries) (h : extra ≠ []) : assignAll none extra = none := by
  cases extra with
  | nil => exact absurd rfl h
  | cons hd tl => rfl

theorem lookupKey_none_of_not_mem {β : Type} (m : List (GoString × β)) (k : GoString)
    (h : k ∉ keysOf m) : lookupKey m k = none := by
  induction m with
  | nil => rfl
  | cons hd tl ih =>
    obtain ⟨k', v'⟩ := hd
    simp only [keysOf, List.map_cons, List.mem_cons, not_or] at h
    have h1 : ¬ k' = k := fun e => h.1 e.symm
    simp only [lookupKey, if_neg h1]
    exact ih (by simpa [keysOf] using h.2)

theorem mem_keysOf_foldl {β : Type} (l m : List (GoString × β)) (k : GoString) :
    k ∈ keysOf (l.foldl (fun m kv => setKey m kv.1 kv.2) m) ↔ k ∈ keysOf m ∨ k ∈ keysOf l := by
  induction l generalizing m with
  | nil => simp [keysOf]
  | cons hd tl ih =>
    rw [List.foldl_cons, ih, keysOf_setKey]
    have hk : keysOf (hd :: tl) = hd.1 :: keysOf tl := rfl
    rw [hk]
    split_ifs with hin
    · constructor
      · rintro (h | h)
        · exact Or.inl h
        · exact Or.inr (List.mem_cons_of_mem _ h)
      · rintro (h | h)
        · exact Or.inl h
        · rcases List.mem_cons.mp h with rfl | h
          · exact Or.inl hin
          · exact Or.inr h
    · simp only [List.mem_append, List.mem_singleton, List.mem_cons]
      tauto

/-- Filling a fresh map from entries with distinct keys keeps every lookup. -/
theorem lookupKey_foldl_nodup {β : Type} (l : List (GoString × β)) (k : GoString)
    (hnd : (keysOf l).Nodup) :
    lookupKey (l.foldl (fun m kv => setKey m kv.1 kv.2) []) k = lookupKey l k := by
  cases h : lookupKey l k with
  | some v => exact lookupKey_foldl_mem l [] k v hnd (lookupKey_mem l k v h)
  | none =>
    have hk : k ∉ keysOf l := by
      intro hin
      obtain ⟨⟨k', v⟩, hmem, hkey⟩ := List.mem_map.mp hin
      simp only at hkey
      subst hkey
      have := lookupKey_foldl_mem l [] k' v hnd hmem
      have h2 : lookupKey l k' = some v := by
        clear this h
        induction l with
        | nil => cases hmem
        | cons hd tl ih =>
          obtain ⟨a, b⟩ := hd
          simp only [keysOf, List.map_cons, List.nodup_cons] at hnd
          rcases List.mem_cons.mp hmem with heq | hin'
          · cases heq
            simp [lookupKey]
          · have hne : ¬ a = k' := by
              intro e
              subst e
              exact hnd.1 (List.mem_map.mpr ⟨(a, v), hin', rfl⟩)
            simp only [lookupKey, if_neg hne]
            exact ih (by simpa [keysOf] using hnd.2) hin' (List.mem_map.mpr ⟨(k', v), hin', rfl⟩)
      rw [h2] at h
      cases h
    rw [lookupKey_foldl_other l [] k hk]
    rfl

/-! ## Maps in sorted order -/

theorem perm_insertByKey {β : Type} (kv : GoString × β) (l : List (GoString × β)) :
    (insertByKey kv l).Perm (kv :: l) := by
  induction l with
  | nil => exact List.Perm.refl _
  | cons x rest ih =>
    simp only [insertByKey]
    split_ifs
    · exact List.Perm.refl _
    · exact (List.Perm.cons x ih).trans (List.Perm.swap kv x rest)

theorem perm_sortKeys {β : Type} (m : List (GoString × β)) : (sortKeys m).Perm m := by
  induction m with
  | nil => exact List.Perm.refl _
  | cons x rest ih =>
    exact (perm_insertByKey x _).trans (List.Perm.cons x ih)

theorem mem_sortKeys {β : Type} (m : List (GoString × β)) (x : GoString × β) :
    x ∈ sortKeys m ↔ x ∈ m := (perm_sortKeys m).mem_iff

theorem keysOf_sortKeys_perm {β : Type} (m : List (GoString × β)) :
    (keysOf (sortKeys m)).Perm (keysOf m) := (perm_sortKeys m).map _

theorem mem_keysOf_sortKeys {β : Type} (m : List (GoString × β)) (k : GoString) :
    k ∈ keysOf (sortKeys m) ↔ k ∈ keysOf m := (keysOf_sortKeys_perm m).mem_iff

theorem nodup_sortKeys {β : Type} (m : List (GoString × β)) (h : (keysOf m).Nodup) :
    (keysOf (sortKeys m)).Nodup := (keysOf_sortKeys_perm m).nodup_iff.mpr h

/-- In a map with distinct keys, looking a key up finds the entry with it. -/
theorem lookupKey_eq_some_iff {β : Type} (m : List (GoString × β)) (hnd : (keysOf m).Nodup)
    (k : GoString) (v : β) : lookupKey m k = some v ↔ (k, v) ∈ m := by
  constructor
  · exact lookupKey_mem m k v
  · intro hmem
    induction m with
    | nil => cases hmem
    | cons hd tl ih =>
      obtain ⟨a, b⟩ := hd
      simp only [keysOf, List.map_cons, List.nodup_cons] at hnd
      rcases List.mem_cons.mp hmem with heq | hin
      · cases heq
        simp [lookupKey]
      · have hne : ¬ a = k := by
          intro e
          subst e
          exact hnd.1 (List.mem_map.mpr ⟨(a, v), hin, rfl⟩)
        simp only [lookupKey, if_neg hne]
        exact ih (by simpa [keysOf] using hnd.2) hin

theorem lookupKey_perm {β : Type} (m m' : List (GoString × β)) (hp : m.Perm m')
    (hnd : (keysOf m).Nodup) (k : GoString) : lookupKey m k = lookupKey m' k := by
  have hnd' : (keysOf m').Nodup := (hp.map Prod.fst).nodup_iff.mp hnd
  apply Option.ext
  intro v
  simp only [Option.mem_def]
  rw [lookupKey_eq_some_iff m hnd, lookupKey_eq_some_iff m' hnd', hp.mem_iff]

/-- Sorting a map by key changes no lookup. -/
theorem lookupKey_sortKeys {β : Type} (m : List (GoString × β)) (hnd : (keysOf m).Nodup)
    (k : GoString) : lookupKey (sortKeys m) k = lookupKey m k :=
  lookupKey_perm _ _ (perm_sortKeys m) (nodup_sortKeys m hnd) k

theorem mem_setKey {β : Type} (m : List (GoString × β)) (k : GoString) (v : β)
    (x : GoString × β) (h : x ∈ setKey m k v) : x = (k, v) ∨ x ∈ m := by
  induction m with
  | nil =>
    simp only [setKey, List.mem_singleton] at h
    exact Or.inl h
  | cons hd tl ih =>
    obtain ⟨k', v'⟩ := hd
    simp only [setKey] at h
    split_ifs at h with hk
    · rcases List.mem_cons.mp h with h | h
      · exact Or.inl h
      · exact Or.inr (List.mem_cons_of_mem _ h)
    · rcases List.mem_cons.mp h with h | h
      · exact Or.inr (h ▸ List.mem_cons_self _ _)
      · rcases ih h with h | h
        · exact Or.inl h
        · exact Or.inr (List.mem_cons_of_mem _ h)

theorem mem_foldl_setKey {β : Type} (l m : List (GoString × β)) (x : GoString × β)
    (h : x ∈ l.foldl (fun m kv => setKey m kv.1 kv.2) m) : x ∈ m ∨ x ∈ l := by
  induction l generalizing m with
  | nil => exact Or.inl h
  | cons hd tl ih =>
    rcases ih _ h with h | h
    · rcases mem_setKey m hd.1 hd.2 x h with h | h
      · exact Or.inr (h ▸ List.mem_cons_self _ _)
      · exact Or.inl h
    · exact Or.inr (List.mem_cons_of_mem _ h)

/-! ## The generic decoder -/

theorem genericMembers_cons (k : GoString) (v : JSON) (kvs : List (GoString × JSON)) :
    genericMembers ((k, v) :: kvs) =
      match v.generic with
      | .error e => .error e
      | .ok g =>
        match genericMembers kvs with
        | .error e => .error e
        | .ok gs => .ok ((k, g) :: gs) := by
  conv_lhs => rw [genericMembers]

theorem genericElems_cons (x : JSON) (xs : List JSON) :
    genericElems (x :: xs) =
      match x.generic with
      | .error e => .error e
      | .ok g =>
        match genericElems xs with
        | .error e => .error e
        | .ok gs => .ok (g :: gs) := by
  conv_lhs => rw [genericElems]

/-- What the decoded members hold: the keys as they were, each value as the
generic decoder reads it. -/
theorem genericMembers_spec : ∀ (kvs l : List (GoString × JSON)), genericMembers kvs = .ok l →
    keysOf l = keysOf kvs ∧
    (∀ k g, lookupKey l k = some g ↔ ∃ v, lookupKey kvs k = some v ∧ v.generic = .ok g) ∧
    (∀ x ∈ l, ∃ v, (x.1, v) ∈ kvs ∧ v.generic = .ok x.2)
  | [], l, h => by
    simp only [genericMembers, Except.ok.injEq] at h
    subst h
    simp [keysOf, lookupKey]
  | (k, v) :: kvs, l, h => by
    rw [genericMembers_cons] at h
    cases hv : v.generic with
    | error e => rw [hv] at h; cases h
    | ok g =>
      rw [hv] at h
      simp only [] at h
      cases hr : genericMembers kvs with
      | error e => rw [hr] at h; cases h
      | ok gs =>
        rw [hr] at h
        simp only [Except.ok.injEq] at h
        subst h
        obtain ⟨ih1, ih2, ih3⟩ := genericMembers_spec kvs gs hr
        refine ⟨by simp [keysOf] at ih1 ⊢; exact ih1, ?_, ?_⟩
        · intro k' g'
          by_cases hk : k = k'
          · subst hk
            simp only [lookupKey, if_true, Option.some.injEq]
            constructor
            · rintro rfl
              exact ⟨v, rfl, hv⟩
            · rintro ⟨v', rfl, hv'⟩
              rw [hv] at hv'
              cases hv'
              rfl
          · simp only [lookupKey, if_neg hk]
            exact ih2 k' g'
        · intro x hx
          rcases List.mem_cons.mp hx with rfl | hx
          · exact ⟨v, List.mem_cons_self _ _, hv⟩
          · obtain ⟨v', hm, hg⟩ := ih3 x hx
            exact ⟨v', List.mem_cons_of_mem _ hm, hg⟩

theorem genericMembers_ok : ∀ (kvs : List (GoString × JSON)),
    (∀ x ∈ kvs, ∃ g, x.2.generic = .ok g) → ∃ l, genericMembers kvs = .ok l
  | [], _ => ⟨[], rfl⟩
  | (k, v) :: kvs, h => by
    obtain ⟨g, hg⟩ := h (k, v) (List.mem_cons_self _ _)
    obtain ⟨gs, hgs⟩ := genericMembers_ok kvs (fun x hx => h x (List.mem_cons_of_mem _ hx))
    exact ⟨(k, g) :: gs, by rw [genericMembers_cons, hg]; simp only []; rw [hgs]⟩

theorem generic_str (s : GoString) : (JSON.str s).generic = .ok (.str s) := by
  rw [JSON.generic]

theorem generic_bool (b : Bool) : (JSON.bool b).generic = .ok (.bool b) := by
  rw [JSON.generic]

theorem generic_null : JSON.null.generic = .ok .null := by
  rw [JSON.generic]

/-! ## Member names that are valid UTF-8 -/

theorem toValidMembers_spec : ∀ (kvs : List (GoString × JSON)),
    (∀ k ∈ keysOf kvs, toValidUTF8 k = k) →
    keysOf (toValidMembers kvs) = keysOf kvs ∧
    (∀ k, lookupKey (toValidMembers kvs) k = (lookupKey kvs k).map JSON.toValid) ∧
    (∀ x ∈ toValidMembers kvs, ∃ v, (x.1, v) ∈ kvs ∧ x.2 = v.toValid)
  | [], _ => by simp [toValidMembers, keysOf, lookupKey]
  | (k, v) :: kvs, h => by
    have hk : toValidUTF8 k = k := h k (by simp [keysOf])
    obtain ⟨ih1, ih2, ih3⟩ := toValidMembers_spec kvs
      (fun k' hk' => h k' (by simp only [keysOf, List.map_cons, List.mem_cons]; exact Or.inr hk'))
    refine ⟨by simp only [keysOf, toValidMembers, List.map_cons, hk] at ih1 ⊢; rw [ih1], ?_, ?_⟩
    · intro k'
      simp only [toValidMembers, lookupKey, hk]
      split_ifs
      · rfl
      · exact ih2 k'
    · intro x hx
      simp only [toValidMembers, List.mem_cons] at hx
      rcases hx with rfl | hx
      · exact ⟨v, by simp [hk], rfl⟩
      · obtain ⟨v', hm, hv'⟩ := ih3 x hx
        exact ⟨v', List.mem_cons_of_mem _ hm, hv'⟩

/-! ## Documents within the limits of the decoder -/

theorem fitsMembers_iff : ∀ (d : Nat) (kvs : List (GoString × JSON)),
    fitsMembers d kvs = true ↔ ∀ x ∈ kvs, x.2.fits d = true
  | d, [] => by simp [fitsMembers]
  | d, (k, v) :: kvs => by
    simp only [fitsMembers, Bool.and_eq_true, List.mem_cons, forall_eq_or_imp,
      fitsMembers_iff d kvs]

theorem fitsElems_iff : ∀ (d : Nat) (xs : List JSON),
    fitsElems d xs = true ↔ ∀ x ∈ xs, x.fits d = true
  | d, [] => by simp [fitsElems]
  | d, x :: xs => by
    simp only [fitsElems, Bool.and_eq_true, List.mem_cons, forall_eq_or_imp, fitsElems_iff d xs]

mutual
theorem fits_depth : ∀ (j : JSON) (d : Nat), j.fits d = true → j.depth ≤ d
  | .null, d, _ => by simp [JSON.depth]
  | .bool _, d, _ => by simp [JSON.depth]
  | .num _, d, _ => by simp [JSON.depth]
  | .str _, d, _ => by simp [JSON.depth]
  | .arr xs, 0, h => by simp [JSON.fits] at h
  | .arr xs, d + 1, h => by
    simp only [JSON.fits] at h
    simp only [JSON.depth, Nat.add_le_add_iff_right]
    exact fitsElems_depth xs d h
  | .obj kvs, 0, h => by simp [JSON.fits] at h
  | .obj kvs, d + 1, h => by
    simp only [JSON.fits] at h
    simp only [JSON.depth, Nat.add_le_add_iff_right]
    exact fitsMembers_depth kvs d h
theorem fitsElems_depth : ∀ (xs : List JSON) (d : Nat), fitsElems d xs = true → depthElems xs ≤ d
  | [], d, _ => by simp [depthElems]
  | x :: xs, d, h => by
    simp only [fitsElems, Bool.and_eq_true] at h
    simp only [depthElems, Nat.max_le]
    exact ⟨fits_depth x d h.1, fitsElems_depth xs d h.2⟩
theorem fitsMembers_depth : ∀ (kvs : List (GoString × JSON)) (d : Nat),
    fitsMembers d kvs = true → depthMembers kvs ≤ d
  | [], d, _ => by simp [depthMembers]
  | (k, v) :: kvs, d, h => by
    simp only [fitsMembers, Bool.and_eq_true] at h
    simp only [depthMembers, Nat.max_le]
    exact ⟨fits_depth v d h.1, fitsMembers_depth kvs d h.2⟩
end

theorem toValid_str (s : GoString) : (JSON.str s).toValid = .str (toValidUTF8 s) := by
  rw [JSON.toValid]

theorem toValid_arr (xs : List JSON) : (JSON.arr xs).toValid = .arr (toValidElems xs) := by
  rw [JSON.toValid]

theorem toValid_obj (kvs : List (GoString × JSON)) :
    (JSON.obj kvs).toValid = .obj (toValidMembers kvs) := by
  rw [JSON.toValid]

theorem fits_str (d : Nat) (s : GoString) : (JSON.str s).fits d = true := by
  rw [JSON.fits]

theorem fits_arr_zero (xs : List JSON) : (JSON.arr xs).fits 0 = false := by
  rw [JSON.fits]

theorem fits_arr_succ (d : Nat) (xs : List JSON) :
    (JSON.arr xs).fits (d + 1) = fitsElems d xs := by
  rw [JSON.fits]

theorem fits_obj_zero (kvs : List (GoString × JSON)) : (JSON.obj kvs).fits 0 = false := by
  rw [JSON.fits]

theorem fits_obj_succ (d : Nat) (kvs : List (GoString × JSON)) :
    (JSON.obj kvs).fits (d + 1) = fitsMembers d kvs := by
  rw [JSON.fits]

theorem fitsElems_cons (d : Nat) (x : JSON) (xs : List JSON) :
    fitsElems d (x :: xs) = (x.fits d && fitsElems d xs) := by
  rw [fitsElems]

theorem fitsMembers_cons (d : Nat) (k : GoString) (v : JSON) (kvs : List (GoString × JSON)) :
    fitsMembers d ((k, v) :: kvs) = (v.fits d && fitsMembers d kvs) := by
  rw [fitsMembers]

mutual
theorem fits_toValid : ∀ (j : JSON) (d : Nat), j.toValid.fits d = j.fits d
  | .null => fun _ => rfl
  | .bool _ => fun _ => rfl
  | .num _ => fun _ => rfl
  | .str s => fun d => (congrArg (JSON.fits d) (toValid_str s)).trans
      ((fits_str d _).trans (fits_str d s).symm)
  | .arr xs => fun d => by
    cases d with
    | zero => rw [toValid_arr, fits_arr_zero, fits_arr_zero]
    | succ d =>
      rw [toValid_arr, fits_arr_succ, fits_arr_succ]
      exact fitsElems_toValid xs d
  | .obj kvs => fun d => by
    cases d with
    | zero => rw [toValid_obj, fits_obj_zero, fits_obj_zero]
    | succ d =>
      rw [toValid_obj, fits_obj_succ, fits_obj_succ]
      exact fitsMembers_toValid kvs d
theorem fitsElems_toValid : ∀ (xs : List JSON) (d : Nat),
    fitsElems d (toValidElems xs) = fitsElems d xs
  | [] => fun _ => rfl
  | x :: xs => fun d => by
    rw [toValidElems, fitsElems_cons, fitsElems_cons, fits_toValid x d, fitsElems_toValid xs d]
theorem fitsMembers_toValid : ∀ (kvs : List (GoString × JSON)) (d : Nat),
    fitsMembers d (toValidMembers kvs) = fitsMembers d kvs
  | [] => fun _ => rfl
  | (k, v) :: kvs => fun d => by
    rw [toValidMembers, fitsMembers_cons, fitsMembers_cons, fits_toValid v d,
      fitsMembers_toValid kvs d]
end

/-! ## Numbers through float64 -/

/-- The literal found by the search for the shortest digits reads back as the
float it was searched for. -/
theorem shortest_reads_back (f : F64) (expForm : Bool) (p q : Nat) (dexp : Int) :
    ∀ (fuel n : Nat) (y : Number), shortest f expForm p q dexp fuel n = some y →
      parseFloat y = some f
  | 0, _, _, h => by
    simp only [shortest] at h
    cases h
  | fuel + 1, n, y, h => by
    simp only [shortest] at h
    split_ifs at h with h1 h2 h3 h4 h5 h6 h7 h8 h9 <;>
      first
      | exact shortest_reads_back f expForm p q dexp fuel (n + 1) y h
      | (cases h; assumption)
      | (cases h; exact And.left (by assumption))
      | (cases h; exact And.right (by assumption))

theorem parseFloat_shortest (f : F64) (expForm : Bool) (p q : Nat) (dexp : Int) :
    (parseFloat (match shortest f expForm p q dexp 17 1 with
      | none => { neg := false, int := 0, frac := [], exp := none }
      | some y => y)).isSome = true := by
  cases h : shortest f expForm p q dexp 17 1 with
  | none => decide
  | some y =>
    simp only []
    rw [shortest_reads_back f expForm p q dexp 17 1 y h]
    rfl

/-- What is written for a float64 is a literal in the float64 range. -/
theorem parseFloat_formatFloat (f : F64) : (parseFloat (formatFloat f)).isSome = true := by
  unfold formatFloat
  split_ifs with h0
  · simp [parseFloat, digitsValue]
  · exact parseFloat_shortest _ _ _ _ _
  · exact parseFloat_shortest _ _ _ _ _

theorem generic_num (x : Number) : (JSON.num x).generic =
    match parseFloat x with
    | none => .error (.typeError [])
    | some f => .ok (.num (formatFloat f)) := by
  rw [JSON.generic]

theorem generic_arr (xs : List JSON) : (JSON.arr xs).generic =
    match genericElems xs with
    | .error e => .error e
    | .ok l => .ok (.arr l) := by
  rw [JSON.generic]

theorem generic_obj (kvs : List (GoString × JSON)) : (JSON.obj kvs).generic =
    match genericMembers kvs with
    | .error e => .error e
    | .ok l => .ok (.obj (sortKeys (l.foldl (fun m kv => setKey m kv.1 kv.2) []))) := by
  rw [JSON.generic]

theorem fits_num (d : Nat) (x : Number) : (JSON.num x).fits d = (parseFloat x).isSome := by
  rw [JSON.fits]

theorem fitsMembers_foldl_sort (d : Nat) (l : List (GoString × JSON))
    (h : fitsMembers d l = true) :
    fitsMembers d (sortKeys (l.foldl (fun m kv => setKey m kv.1 kv.2) [])) = true := by
  rw [fitsMembers_iff] at h ⊢
  intro x hx
  rcases mem_foldl_setKey l [] x ((mem_sortKeys _ x).mp hx) with h0 | h1
  · cases h0
  · exact h x h1

mutual
/-- A document within the limits is read by the generic decoder, and what it
reads is within the limits again. -/
theorem generic_fits : ∀ (j : JSON) (d : Nat), j.fits d = true →
    ∃ g, j.generic = .ok g ∧ g.fits d = true
  | .null => fun d _ => ⟨.null, generic_null, by rw [JSON.fits]⟩
  | .bool b => fun d _ => ⟨.bool b, generic_bool b, by rw [JSON.fits]⟩
  | .str s => fun d _ => ⟨.str s, generic_str s, fits_str d s⟩
  | .num x => fun d h => by
    rw [fits_num] at h
    obtain ⟨f, hf⟩ := Option.isSome_iff_exists.mp h
    refine ⟨.num (formatFloat f), by rw [generic_num, hf], ?_⟩
    rw [fits_num]
    exact parseFloat_formatFloat f
  | .arr xs => fun d h => by
    cases d with
    | zero => rw [fits_arr_zero] at h; cases h
    | succ d =>
      rw [fits_arr_succ] at h
      obtain ⟨l, hl, hfl⟩ := genericElems_fits xs d h
      exact ⟨.arr l, by rw [generic_arr, hl], by rw [fits_arr_succ]; exact hfl⟩
  | .obj kvs => fun d h => by
    cases d with
    | zero => rw [fits_obj_zero] at h; cases h
    | succ d =>
      rw [fits_obj_succ] at h
      obtain ⟨l, hl, hfl⟩ := genericMembers_fits kvs d h
      exact ⟨_, by rw [generic_obj, hl], by
        rw [fits_obj_succ]; exact fitsMembers_foldl_sort d l hfl⟩
theorem genericElems_fits : ∀ (xs : List JSON) (d : Nat), fitsElems d xs = true →
    ∃ l, genericElems xs = .ok l ∧ fitsElems d l = true
  | [] => fun _ _ => ⟨[], rfl, rfl⟩
  | x :: xs => fun d h => by
    rw [fitsElems_cons, Bool.and_eq_true] at h
    obtain ⟨g, hg, hfg⟩ := generic_fits x d h.1
    obtain ⟨l, hl, hfl⟩ := genericElems_fits xs d h.2
    exact ⟨g :: l, by rw [genericElems_cons, hg]; simp only []; rw [hl],
      by rw [fitsElems_cons, hfg, hfl]; rfl⟩
theorem genericMembers_fits : ∀ (kvs : List (GoString × JSON)) (d : Nat),
    fitsMembers d kvs = true → ∃ l, genericMembers kvs = .ok l ∧ fitsMembers d l = true
  | [] => fun _ _ => ⟨[], rfl, rfl⟩
  | (k, v) :: kvs => fun d h => by
    rw [fitsMembers_cons, Bool.and_eq_true] at h
    obtain ⟨g, hg, hfg⟩ := generic_fits v d h.1
    obtain ⟨l, hl, hfl⟩ := genericMembers_fits kvs d h.2
    exact ⟨(k, g) :: l, by rw [genericMembers_cons, hg]; simp only []; rw [hl],
      by rw [fitsMembers_cons, hfg, hfl]; rfl⟩
end

/-! ## Coercion to valid UTF-8 -/

theorem toValidFrom_nil (d : Nat) : toValidFrom d [] = [] := by
  cases d <;> rfl

theorem toValidFrom_pass : ∀ (pre tl : Bytes),
    toValidFrom pre.length (pre ++ tl) = toValidFrom 0 tl
  | [], tl => rfl
  | b :: pre, tl => by
    rw [List.length_cons, List.cons_append, toValidFrom_succ]
    exact toValidFrom_pass pre tl

theorem utf8Len_fffd (rest : Bytes) : utf8Len (0xEF :: 0xBF :: 0xBD :: rest) = 3 := by
  simp [utf8Len, isCont]

/-- Coercing twice is coercing once. -/
theorem toValidFrom_idem : ∀ (s : Bytes) (d : Nat),
    toValidFrom 0 (toValidFrom d s) = toValidFrom d s
  | [], d => by rw [toValidFrom_nil]; rfl
  | b :: bs, d + 1 => by
    rw [toValidFrom_succ]
    exact toValidFrom_idem bs d
  | b :: bs, 0 => by
    rw [toValidFrom_zero]
    cases h : utf8Len (b :: bs) with
    | zero =>
      simp only []
      rw [toValidFrom_zero, utf8Len_fffd]
      simp only [List.take_succ_cons, List.take_zero, List.cons_append, List.nil_append,
        toValidFrom_succ]
      rw [toValidFrom_idem bs 0]
    | succ n =>
      simp only []
      obtain ⟨hn, hu, -, -⟩ := utf8Len_spec b bs n h
      have hlen : (bs.take n).length = n := by rw [List.length_take]; omega
      rw [toValidFrom_zero, hu]
      simp only []
      have hpass := toValidFrom_pass (bs.take n) (toValidFrom n bs)
      rw [hlen] at hpass
      rw [hpass, toValidFrom_idem bs n, List.take_left' hlen]

theorem toValidUTF8_idem (s : GoString) : toValidUTF8 (toValidUTF8 s) = toValidUTF8 s :=
  toValidFrom_idem s 0

/-- A string of ASCII bytes is valid UTF-8. -/
theorem toValidUTF8_ascii : ∀ (a : GoString), (∀ x ∈ a, x < 128) → toValidUTF8 a = a
  | [], _ => rfl
  | b :: bs, h => by
    have hb : b < 128 := h b (List.mem_cons_self _ _)
    have hu : utf8Len (b :: bs) = 1 := by simp [utf8Len, hb]
    show toValidFrom 0 (b :: bs) = b :: bs
    rw [toValidFrom_zero, hu]
    simp only [List.take_zero, List.nil_append]
    exact congrArg _ (toValidUTF8_ascii bs (fun x hx => h x (List.mem_cons_of_mem _ hx)))

/-- Only a string of ASCII bytes itself is coerced to it. -/
theorem eq_of_toValidUTF8_ascii : ∀ (s a : GoString), (∀ x ∈ a, x < 128) →
    toValidUTF8 s = a → s = a
  | [], a, _, h => h
  | b :: bs, a, ha, h => by
    change toValidFrom 0 (b :: bs) = a at h
    rw [toValidFrom_zero] at h
    cases hu : utf8Len (b :: bs) with
    | zero =>
      rw [hu] at h
      simp only [] at h
      subst h
      have := ha 0xEF (List.mem_cons_self _ _)
      omega
    | succ n =>
      rw [hu] at h
      simp only [] at h
      subst h
      obtain ⟨-, -, h0, -⟩ := utf8Len_spec b bs n hu
      have hb := ha b (List.mem_cons_self _ _)
      have hn : n = 0 := h0.mpr hb
      subst hn
      simp only [List.take_zero, List.nil_append] at ha ⊢
      exact congrArg _ (eq_of_toValidUTF8_ascii bs _
        (fun x hx => ha x (List.mem_cons_of_mem _ hx)) rfl)

/-! ## Characters and bytes -/

theorem toValid_null : JSON.null.toValid = .null := by rw [JSON.toValid]

theorem toValid_bool (b : Bool) : (JSON.bool b).toValid = .bool b := by rw [JSON.toValid]

theorem toValid_num (x : Number) : (JSON.num x).toValid = .num x := by rw [JSON.toValid]

/-- What `mergeBody` does with a non-empty extra map, for a codec that reads
back what it wrote as `encoding/json` does: a value nested too deep is refused
by the decoder; an object is read into a generic map (an error when a number
is out of the float64 range), overlaid and written with its keys sorted;
`null` leaves the map variable nil and the first assignment panics; anything
else is refused by the decoder. -/
theorem mergeBody_spec {α : Type} [GoMarshal α] (lib : JSONCodec) (hlib : lib.readsBack)
    (v : α) (j : JSON) (extra : Entries) (hne : extra ≠ []) :
    GoMarshal.toJSON v = .ok j → mergeBody lib v extra =
      if j.depth ≤ maxNestingDepth then
        match j with
        | .obj fields =>
          match genericMembers (toValidMembers fields) with
          | .error e => .err (.json e)
          | .ok l =>
            .ok (lib.encode (.obj (sortKeys (extra.foldl (fun m kv => setKey m kv.1 kv.2)
              (l.foldl (fun m kv => setKey m kv.1 kv.2) [])))))
        | .null => .panic
        | _ => .err (.json (.typeError []))
      else .err (.json .syntaxError) := by
  intro hv
  have hlen : ¬ extra.length = 0 := fun h => hne (List.length_eq_zero.mp h)
  have hd := hlib j
  by_cases hdep : j.depth ≤ maxNestingDepth
  · rw [if_pos hdep] at hd ⊢
    cases j with
    | obj fields =>
      rw [toValid_obj] at hd
      simp only [mergeBody, if_neg hlen, jsonMarshal, hv, jsonUnmarshal, hd,
        GoUnmarshal.fromJSON]
      cases hg : genericMembers (toValidMembers fields) with
      | error e => simp only []
      | ok l =>
        simp only [Option.getD_none, assignAll_some, GoMarshal.toJSON, Res.ofExcept]
    | null =>
      rw [toValid_null] at hd
      simp only [mergeBody, if_neg hlen, jsonMarshal, hv, jsonUnmarshal, hd,
        GoUnmarshal.fromJSON, assignAll_none extra hne]
    | bool b =>
      rw [toValid_bool] at hd
      simp only [mergeBody, if_neg hlen, jsonMarshal, hv, jsonUnmarshal, hd,
        GoUnmarshal.fromJSON]
    | num n =>
      rw [toValid_num] at hd
      simp only [mergeBody, if_neg hlen, jsonMarshal, hv, jsonUnmarshal, hd,
        GoUnmarshal.fromJSON]
    | str x =>
      rw [toValid_str] at hd
      simp only [mergeBody, if_neg hlen, jsonMarshal, hv, jsonUnmarshal, hd,
        GoUnmarshal.fromJSON]
    | arr xs =>
      rw [toValid_arr] at hd
      simp only [mergeBody, if_neg hlen, jsonMarshal, hv, jsonUnmarshal, hd,
        GoUnmarshal.fromJSON]
  · rw [if_neg hdep] at hd ⊢
    simp only [mergeBody, if_neg hlen, jsonMarshal, hv, jsonUnmarshal, hd]

theorem lookupKey_of_mem_keysOf {β : Type} (m : List (GoString × β)) (k : GoString)
    (h : k ∈ keysOf m) : ∃ v, lookupKey m k = some v := by
  cases hl : lookupKey m k with
  | some v => exact ⟨v, rfl⟩
  | none =>
    exfalso
    induction m with
    | nil => cases h
    | cons hd tl ih =>
      obtain ⟨k', v'⟩ := hd
      simp only [lookupKey] at hl
      split_ifs at hl with hk
      simp only [keysOf, List.map_cons, List.mem_cons] at h
      rcases h with h | h
      · exact hk h.symm
      · exact ih (by simpa [keysOf] using h) hl

theorem mem_keysOf_of_lookupKey {β : Type} (m : List (GoString × β)) (k : GoString) (v : β)
    (h : lookupKey m k = some v) : k ∈ keysOf m :=
  List.mem_map.mpr ⟨(k, v), lookupKey_mem m k v h, rfl⟩

theorem keysOf_toValidMembers : ∀ (kvs : List (GoString × JSON)),
    keysOf (toValidMembers kvs) = (keysOf kvs).map toValidUTF8
  | [] => rfl
  | (k, v) :: kvs => by
    have ih := keysOf_toValidMembers kvs
    simp only [keysOf, toValidMembers, List.map_cons] at ih ⊢
    rw [ih]

/-- The member names of a decoded document are valid UTF-8. -/
theorem valid_keysOf_toValidMembers (kvs : List (GoString × JSON)) (k : GoString)
    (h : k ∈ keysOf (toValidMembers kvs)) : toValidUTF8 k = k := by
  rw [keysOf_toValidMembers] at h
  obtain ⟨k0, -, rfl⟩ := List.mem_map.mp h
  exact toValidUTF8_idem k0

theorem mergeBody_empty {α : Type} [GoMarshal α] (lib : JSONCodec) (v : α) (j : JSON)
    (hv : GoMarshal.toJSON v = .ok j) : mergeBody lib v [] = .ok (lib.encode j) := by
  simp only [mergeBody, List.length_nil, if_true, jsonMarshal, hv, Res.ofExcept]

/-- With a codec that reads back as `encoding/json` does, a value that marshals
to an object within the limits of the decoder, and a non-empty extra map:
`mergeBody` returns the text of the overlaid generic map, written with its
keys sorted. -/
theorem mergeBody_object {α : Type} [GoMarshal α] (lib : JSONCodec) (hlib : lib.readsBack)
    (v : α) (fields extra : Entries) (hv : GoMarshal.toJSON v = .ok (.obj fields))
    (hne : extra ≠ []) (d : Nat) (hd : d + 1 ≤ maxNestingDepth)
    (hfit : fitsMembers d fields = true) :
    ∃ l, genericMembers (toValidMembers fields) = .ok l ∧ fitsMembers d l = true ∧
      mergeBody lib v extra =
        .ok (lib.encode (.obj (sortKeys (extra.foldl (fun m kv => setKey m kv.1 kv.2)
          (l.foldl (fun m kv => setKey m kv.1 kv.2) []))))) := by
  have hdep : (JSON.obj fields).depth ≤ maxNestingDepth :=
    Nat.le_trans (fits_depth _ (d + 1) (by rw [fits_obj_succ]; exact hfit)) hd
  obtain ⟨l, hl, hfl⟩ := genericMembers_fits (toValidMembers fields) d
    (by rw [fitsMembers_toValid]; exact hfit)
  refine ⟨l, hl, hfl, ?_⟩
  rw [mergeBody_spec lib hlib v _ extra hne hv, if_pos hdep]
  simp only [hl]

/-- With a codec that reads back as `encoding/json` does, `mergeBody` on a
value that marshals to an object returns bytes or a JSON error. -/
theorem mergeBody_object_returns {α : Type} [GoMarshal α] (lib : JSONCodec)
    (hlib : lib.readsBack) (v : α) (fields extra : Entries)
    (hv : GoMarshal.toJSON v = .ok (.obj fields)) :
    (∃ out, mergeBody lib v extra = .ok out) ∨ (∃ e, mergeBody lib v extra = .err (.json e)) := by
  by_cases hne : extra = []
  · subst hne
    exact Or.inl ⟨_, mergeBody_empty lib v _ hv⟩
  · rw [mergeBody_spec lib hlib v _ extra hne hv]
    split_ifs
    · simp only []
      cases genericMembers (toValidMembers fields) with
      | error e => exact Or.inr ⟨e, rfl⟩
      | ok l => exact Or.inl ⟨_, rfl⟩
    · exact Or.inr ⟨_, rfl⟩

/-- With a codec that reads back as `encoding/json` does, `mergeBody` on a
value that marshals to an object does not panic. -/
theorem mergeBody_no_panic {α : Type} [GoMarshal α] (lib : JSONCodec)
    (hlib : lib.readsBack) (v : α) (fields extra : Entries)
    (hv : GoMarshal.toJSON v = .ok (.obj fields)) : mergeBody lib v extra ≠ .panic := by
  rcases mergeBody_object_returns lib hlib v fields extra hv with ⟨out, h⟩ | ⟨e, h⟩ <;>
    rw [h] <;> simp

/-- The overlaid map: distinct keys, the keys of the decoded object and of the
extra map, the values of the extra map under its keys and those of the decoded
object under the others. -/
theorem overlay_spec (l extra : Entries) :
    (keysOf (sortKeys (extra.foldl (fun m kv => setKey m kv.1 kv.2)
      (l.foldl (fun m kv => setKey m kv.1 kv.2) [])))).Nodup ∧
    (∀ k, k ∈ keysOf (sortKeys (extra.foldl (fun m kv => setKey m kv.1 kv.2)
        (l.foldl (fun m kv => setKey m kv.1 kv.2) []))) ↔ k ∈ keysOf l ∨ k ∈ keysOf extra) ∧
    (∀ x ∈ sortKeys (extra.foldl (fun m kv => setKey m kv.1 kv.2)
        (l.foldl (fun m kv => setKey m kv.1 kv.2) [])), x ∈ l ∨ x ∈ extra) ∧
    ((keysOf extra).Nodup → ∀ k val, lookupKey extra k = some val →
      lookupKey (sortKeys (extra.foldl (fun m kv => setKey m kv.1 kv.2)
        (l.foldl (fun m kv => setKey m kv.1 kv.2) []))) k = some val) ∧
    ((keysOf l).Nodup → ∀ k, k ∉ keysOf extra →
      lookupKey (sortKeys (extra.foldl (fun m kv => setKey m kv.1 kv.2)
        (l.foldl (fun m kv => setKey m kv.1 kv.2) []))) k = lookupKey l k) := by
  have hnd : (keysOf (extra.foldl (fun m kv => setKey m kv.1 kv.2)
      (l.foldl (fun m kv => setKey m kv.1 kv.2) []))).Nodup :=
    nodup_foldl_setKey extra _ (nodup_foldl_setKey l [] nodup_keysOf_nil)
  refine ⟨nodup_sortKeys _ hnd, ?_, ?_, ?_, ?_⟩
  · intro k
    rw [mem_keysOf_sortKeys, mem_keysOf_foldl, mem_keysOf_foldl]
    simp [keysOf]
  · intro x hx
    rcases mem_foldl_setKey extra _ x ((mem_sortKeys _ x).mp hx) with h | h
    · rcases mem_foldl_setKey l [] x h with h | h
      · cases h
      · exact Or.inl h
    · exact Or.inr h
  · intro hndE k val hval
    rw [lookupKey_sortKeys _ hnd]
    exact lookupKey_foldl_mem extra _ k val hndE (lookupKey_mem _ _ _ hval)
  · intro hndL k hk
    rw [lookupKey_sortKeys _ hnd, lookupKey_foldl_other extra _ k hk]
    exact lookupKey_foldl_nodup l k hndL

/-! ## What `do` sends and returns -/

/-- `do` either fails before the transport is reached, with a net error, or
hands exactly one request to the transport, the one `buildRequest` describes. -/
theorem do_shape {α : Type} [GoUnmarshal α] (env : Env) (c : Client) (method path : GoString)
    (body : Bytes) (result : Option α) (opts : Option doOpts) :
    ((c.do' env method path body result opts).sent = [] ∧
      env.newRequestError method (c.baseURL ++ path) ≠ none ∧
      ∃ e, (c.do' env method path body result opts).err = some (.net e)) ∨
    ((c.do' env method path body result opts).sent = [c.buildRequest method path body opts] ∧
      env.newRequestError method (c.baseURL ++ path) = none) := by
  unfold Client.do'
  cases hnr : env.newRequestError method (c.baseURL ++ path) with
  | some e => left; exact ⟨rfl, by simp, e, rfl⟩
  | none =>
    right
    refine ⟨?_, rfl⟩
    simp only []
    split
    · rfl
    · split
      · rfl
      · split
        · rfl
        · split
          · rfl
          · split
            · split
              · rfl
              · rfl
            · rfl

/-- The idempotency entry among the headers of a built request. -/
theorem buildRequest_header (c : Client) (method path : GoString) (body : Bytes)
    (headers : List (GoString × GoString)) :
    (c.buildRequest method path body (some { headers := headers, query := [] })).Header =
      headers.foldl (fun h kv => setKey h kv.1 kv.2)
        (setKey (setKey [] (lit "Authorization") (lit "Bearer " ++ c.apiKey))
          (lit "Content-Type") (lit "application/json")) := rfl

/-! ## The body composer -/

/-- What a generic decode of the text `mergeBody` returned finds: for a value
that marshals to an object within the limits of the decoder and an extra map
within them whose keys are valid UTF-8, the decoded map holds, under every key
of the overlaid map, the value there as the decoder reads it. -/
theorem mergeBody_read_back {α : Type} [GoMarshal α] (lib : JSONCodec) (hlib : lib.readsBack)
    (v : α) (fields extra : Entries) (hv : GoMarshal.toJSON v = .ok (.obj fields))
    (hne : extra ≠ []) (hfitF : (JSON.obj fields).fits maxNestingDepth = true)
    (hfitE : (JSON.obj extra).fits maxNestingDepth = true)
    (hkeys : ∀ k ∈ keysOf extra, toValidUTF8 k = k) :
    ∃ l m, genericMembers (toValidMembers fields) = .ok l ∧
      mergeBody lib v extra =
        .ok (lib.encode (.obj (sortKeys (extra.foldl (fun m kv => setKey m kv.1 kv.2)
          (l.foldl (fun m kv => setKey m kv.1 kv.2) []))))) ∧
      jsonUnmarshal lib (lib.encode (.obj (sortKeys (extra.foldl
        (fun m kv => setKey m kv.1 kv.2) (l.foldl (fun m kv => setKey m kv.1 kv.2) [])))))
        (none : Option Entries) = .ok (some m) ∧
      ∀ k val, lookupKey (sortKeys (extra.foldl (fun m kv => setKey m kv.1 kv.2)
          (l.foldl (fun m kv => setKey m kv.1 kv.2) []))) k = some val →
        ∃ g, val.toValid.generic = .ok g ∧ lookupKey m k = some g := by
  have hF : fitsMembers 9999 fields = true := by
    rw [← fits_obj_succ]; exact hfitF
  have hE : fitsMembers 9999 extra = true := by
    rw [← fits_obj_succ]; exact hfitE
  obtain ⟨l, hl, hfl, hmb⟩ := mergeBody_object lib hlib v fields extra hv hne 9999
    (Nat.le_refl _) hF
  obtain ⟨hnd, hkeysM, hmem, -, -⟩ := overlay_spec l extra
  suffices h : ∃ m, jsonUnmarshal lib (lib.encode (.obj (sortKeys (extra.foldl
      (fun m kv => setKey m kv.1 kv.2) (l.foldl (fun m kv => setKey m kv.1 kv.2) [])))))
      (none : Option Entries) = .ok (some m) ∧
      ∀ k val, lookupKey (sortKeys (extra.foldl (fun m kv => setKey m kv.1 kv.2)
          (l.foldl (fun m kv => setKey m kv.1 kv.2) []))) k = some val →
        ∃ g, val.toValid.generic = .ok g ∧ lookupKey m k = some g by
    obtain ⟨m, h1, h2⟩ := h
    exact ⟨l, m, hl, hmb, h1, h2⟩
  clear hmb
  generalize sortKeys (extra.foldl (fun m kv => setKey m kv.1 kv.2)
    (l.foldl (fun m kv => setKey m kv.1 kv.2) [])) = M at hnd hkeysM hmem ⊢
  have hfM : fitsMembers 9999 M = true := by
    rw [fitsMembers_iff]
    intro x hx
    rcases hmem x hx with h | h
    · exact (fitsMembers_iff _ _).mp hfl x h
    · exact (fitsMembers_iff _ _).mp hE x h
  have hdep : (JSON.obj M).depth ≤ maxNestingDepth :=
    fits_depth _ (9999 + 1) (by rw [fits_obj_succ]; exact hfM)
  have hdec : lib.decode (lib.encode (.obj M)) = some (.obj (toValidMembers M)) := by
    rw [hlib (.obj M), if_pos hdep, toValid_obj]
  have hvalid : ∀ k ∈ keysOf M, toValidUTF8 k = k := by
    intro k hk
    rcases (hkeysM k).mp hk with h | h
    · rw [(genericMembers_spec _ l hl).1] at h
      exact valid_keysOf_toValidMembers fields k h
    · exact hkeys k h
  obtain ⟨hk1, hlk1, -⟩ := toValidMembers_spec M hvalid
  obtain ⟨l2, hl2, -⟩ := genericMembers_fits (toValidMembers M) 9999
    (by rw [fitsMembers_toValid]; exact hfM)
  obtain ⟨hk2, hlk2, -⟩ := genericMembers_spec _ l2 hl2
  have hnd2 : (keysOf l2).Nodup := by rw [hk2, hk1]; exact hnd
  refine ⟨l2.foldl (fun m kv => setKey m kv.1 kv.2) [], ?_, ?_⟩
  · simp only [jsonUnmarshal, hdec, GoUnmarshal.fromJSON, hl2, Option.getD_none]
  · intro k val hval
    have hkin : k ∈ keysOf l2 := by
      rw [hk2, hk1]
      exact mem_keysOf_of_lookupKey M k val hval
    obtain ⟨g, hg⟩ := lookupKey_of_mem_keysOf l2 k hkin
    obtain ⟨w, hw, hgw⟩ := (hlk2 k g).mp hg
    rw [hlk1 k, hval] at hw
    cases hw
    exact ⟨g, hgw, by rw [lookupKey_foldl_nodup l2 k hnd2]; exact hg⟩

theorem generic_int_2_53_1 :
    (JSON.int 9007199254740993).generic = .ok (JSON.int 9007199254740992) := by
  have h1 : parseFloat (Number.ofInt 9007199254740993) = some ⟨false, 2 ^ 52, 1⟩ := by decide
  have h2 : formatFloat ⟨false, 2 ^ 52, 1⟩ = Number.ofInt 9007199254740992 := by decide
  rw [JSON.int, generic_num, h1]
  simp only [h2]
  rfl

/-- C1, as stated, fails for a number that float64 does not hold: with the
extra map `n: 9007199254740993` the text `mergeBody` returns holds that number,
and a generic decode of it finds 9007199254740992 under `n`. -/
theorem mergeBody_extra_number_changed :
    mergeBody goJSON (some (contactRequest (lit "a@b.com") []))
        [(lit "n", JSON.int 9007199254740993)] = .ok bigNumberBody ∧
    jsonUnmarshal goJSON bigNumberBody (none : Option Entries) =
      .ok (some [(lit "email", .str (lit "a@b.com")), (lit "n", JSON.int 9007199254740992)]) ∧
    JSON.int 9007199254740992 ≠ JSON.int 9007199254740993 := by
  have hdoc : bigNumberBody = goJSON.encode (.obj [(lit "email", .str (lit "a@b.com")),
      (lit "n", JSON.int 9007199254740993)]) := by decide
  refine ⟨?_, ?_, ?_⟩
  · rw [mergeBody_spec goJSON goJSON_readsBack _ _ _ (by simp) rfl, hdoc]
    rfl
  · rw [hdoc]
    have hd : goJSON.decode (goJSON.encode (.obj [(lit "email", .str (lit "a@b.com")),
        (lit "n", JSON.int 9007199254740993)])) = some (.obj [(lit "email", .str (lit "a@b.com")),
        (lit "n", JSON.int 9007199254740993)]) := by
      rw [goJSON_readsBack _, if_pos (by decide)]
      rfl
    simp only [jsonUnmarshal, hd, GoUnmarshal.fromJSON, genericMembers_cons, generic_str,
      generic_int_2_53_1, genericMembers]
    rfl
  · intro h
    simp only [JSON.int, JSON.num.injEq] at h
    revert h
    decide

/-- C1, amended. With a codec that reads back as `encoding/json` does, a value
that marshals to an object, and a non-empty extra map with valid UTF-8 keys
(distinct, as the keys of a map are), both within the limits of the decoder
(nesting at most 10000, numbers in the float64 range): `mergeBody` returns
bytes, they decode to a generic object, and under every key of the extra map
that object holds the value of the extra map as a generic decode reads it,
also when a field of the value has the same key.
A string is read with its invalid bytes replaced by U+FFFD, `null` and booleans
as they are, a number as the float64 nearest to it. -/
theorem mergeBody_extra_round_trip {α : Type} [GoMarshal α] (lib : JSONCodec)
    (hlib : lib.readsBack) (v : α) (fields extra : Entries)
    (hv : GoMarshal.toJSON v = .ok (.obj fields)) (hne : extra ≠ [])
    (hfitF : (JSON.obj fields).fits maxNestingDepth = true)
    (hfitE : (JSON.obj extra).fits maxNestingDepth = true)
    (hkeys : ∀ k ∈ keysOf extra, toValidUTF8 k = k) (hnd : (keysOf extra).Nodup) :
    ∃ out m,
      mergeBody lib v extra = .ok out ∧
      jsonUnmarshal lib out (none : Option Entries) = .ok (some m) ∧
      (∀ k val, lookupKey extra k = some val →
        ∃ g, val.toValid.generic = .ok g ∧ lookupKey m k = some g) ∧
      (∀ k s, lookupKey extra k = some (.str s) →
        lookupKey m k = some (.str (toValidUTF8 s))) ∧
      (∀ k b, lookupKey extra k = some (.bool b) → lookupKey m k = some (.bool b)) ∧
      (∀ k, lookupKey extra k = some .null → lookupKey m k = some .null) ∧
      (∀ k x, lookupKey extra k = some (.num x) →
        ∃ f, parseFloat x = some f ∧ lookupKey m k = some (.num (formatFloat f))) := by
  obtain ⟨l, m, -, hmb, hun, hread⟩ :=
    mergeBody_read_back lib hlib v fields extra hv hne hfitF hfitE hkeys
  obtain ⟨-, -, -, hex, -⟩ := overlay_spec l extra
  have key : ∀ k val, lookupKey extra k = some val →
      ∃ g, val.toValid.generic = .ok g ∧ lookupKey m k = some g :=
    fun k val h => hread k val (hex hnd k val h)
  refine ⟨_, m, hmb, hun, key, ?_, ?_, ?_, ?_⟩
  · intro k s h
    obtain ⟨g, hg, hm⟩ := key k _ h
    rw [toValid_str, generic_str] at hg
    cases hg
    exact hm
  · intro k b h
    obtain ⟨g, hg, hm⟩ := key k _ h
    rw [toValid_bool, generic_bool] at hg
    cases hg
    exact hm
  · intro k h
    obtain ⟨g, hg, hm⟩ := key k _ h
    rw [toValid_null, generic_null] at hg
    cases hg
    exact hm
  · intro k x h
    obtain ⟨g, hg, hm⟩ := key k _ h
    rw [toValid_num, generic_num] at hg
    cases hf : parseFloat x with
    | none => rw [hf] at hg; cases hg
    | some f =>
      rw [hf] at hg
      cases hg
      exact ⟨f, rfl, hm⟩

/-- C1, amended, at a contact request with address `a@b.com` and an extra map
that sets `plan` and overrides `email`, with the reference codec. -/
theorem mergeBody_extra_round_trip_witness :
    ∃ out m,
      mergeBody goJSON (some (contactRequest (lit "a@b.com") []))
        [(lit "email", .str (lit "other@x.com")), (lit "plan", JSON.int 2)] = .ok out ∧
      jsonUnmarshal goJSON out (none : Option Entries) = .ok (some m) ∧
      (∀ k val, lookupKey [(lit "email", JSON.str (lit "other@x.com")),
          (lit "plan", JSON.int 2)] k = some val →
        ∃ g, val.toValid.generic = .ok g ∧ lookupKey m k = some g) ∧
      (∀ k s, lookupKey [(lit "email", JSON.str (lit "other@x.com")),
          (lit "plan", JSON.int 2)] k = some (.str s) →
        lookupKey m k = some (.str (toValidUTF8 s))) ∧
      (∀ k b, lookupKey [(lit "email", JSON.str (lit "other@x.com")),
          (lit "plan", JSON.int 2)] k = some (.bool b) → lookupKey m k = some (.bool b)) ∧
      (∀ k, lookupKey [(lit "email", JSON.str (lit "other@x.com")),
          (lit "plan", JSON.int 2)] k = some .null → lookupKey m k = some .null) ∧
      (∀ k x, lookupKey [(lit "email", JSON.str (lit "other@x.com")),
          (lit "plan", JSON.int 2)] k = some (.num x) →
        ∃ f, parseFloat x = some f ∧ lookupKey m k = some (.num (formatFloat f))) :=
  mergeBody_extra_round_trip goJSON goJSON_readsBack
    (some (contactRequest (lit "a@b.com") []))
    [(lit "email", .str (lit "a@b.com"))]
    [(lit "email", .str (lit "other@x.com")), (lit "plan", JSON.int 2)] rfl (by simp)
    (by decide) (by decide) (by decide) (by decide)

/-! ## Error responses -/

theorem parseErrorBody_statusCode (lib : JSONCodec) (status : Int) (body : Bytes) :
    (parseErrorBody lib status body).StatusCode = status := by
  unfold parseErrorBody
  split <;> rfl

theorem parseErrorBody_body (lib : JSONCodec) (status : Int) (body : Bytes) :
    (parseErrorBody lib status body).Body = body := by
  unfold parseErrorBody
  split <;> rfl

/-- C2. A response with status 400 or more is classified without a secondary
failure, whatever bytes its body holds and whatever the JSON decoder makes of
them: when the transport answers the request `do` handed to it with such a
status and a body that could be read, `do` returns an `*APIError` whose
`StatusCode` is the response status and whose `Body` is the received bytes,
namely the error `parseErrorBody` builds. -/
theorem error_response_classified {α : Type} [GoUnmarshal α] (env : Env) (c : Client)
    (method path : GoString) (body : Bytes) (result : Option α) (opts : Option doOpts)
    (r : Request) (resp : Response) (slurp : Bytes)
    (hsent : (c.do' env method path body result opts).sent = [r])
    (hresp : env.roundTrip r = .ok resp) (hbody : resp.Body = .ok slurp)
    (hstatus : 400 ≤ resp.StatusCode) :
    ∃ e, (c.do' env method path body result opts).err = some (.api e) ∧
      e.StatusCode = resp.StatusCode ∧ e.Body = slurp ∧
      e = parseErrorBody env.json resp.StatusCode slurp := by
  refine ⟨parseErrorBody env.json resp.StatusCode slurp, ?_, parseErrorBody_statusCode _ _ _,
    parseErrorBody_body _ _ _, rfl⟩
  rcases do_shape env c method path body result opts with ⟨h0, -, -⟩ | ⟨h1, hnr⟩
  · rw [h0] at hsent
    cases hsent
  · rw [h1] at hsent
    cases hsent
    simp only [Client.do', hnr, hresp, hbody, ge_iff_le, hstatus, if_true]

/-- C2, at a 401 response whose body is an HTML page. -/
theorem error_response_classified_witness :
    ∃ e, (sampleClient.do' (serverEnv 401 (lit "<html>Unauthorized</html>")) (lit "GET")
        (lit "/api-key") [] (none : Option FailureShape) none).err = some (.api e) ∧
      e.StatusCode = 401 ∧ e.Body = lit "<html>Unauthorized</html>" ∧
      e = parseErrorBody goJSON 401 (lit "<html>Unauthorized</html>") :=
  error_response_classified (serverEnv 401 (lit "<html>Unauthorized</html>")) sampleClient
    (lit "GET") (lit "/api-key") [] none none _
    { StatusCode := 401, Body := .ok (lit "<html>Unauthorized</html>") }
    (lit "<html>Unauthorized</html>") rfl rfl rfl (by decide)

theorem keyIs_success_success : keyIs (lit "success") (lit "success") = true := by decide

theorem keyIs_message_success : keyIs (lit "message") (lit "success") = false := by decide

theorem keyIs_message_message : keyIs (lit "message") (lit "message") = true := by decide

/-- C3. The parsed fields of the error: when the body decodes as the failure
shape the error carries the decoded `success` and `message`, when it does not
decode they stay `false` and empty.  A decoded object with both members gives
their values, one without them gives `false` and the empty string.  A 409
answer `{"success":false,"message":"Idempotency key has been used."}` to a
send-event call gives status 409 and exactly that message. -/
theorem error_fields_from_body (lib : JSONCodec) (status : Int) (body : Bytes) :
    (∀ g, jsonUnmarshal lib body ({ Success := false, Message := [] } : FailureShape) = .ok g →
      (parseErrorBody lib status body).Success = g.Success ∧
      (parseErrorBody lib status body).Message = g.Message) ∧
    (∀ e, jsonUnmarshal lib body ({ Success := false, Message := [] } : FailureShape) = .error e →
      (parseErrorBody lib status body).Success = false ∧
      (parseErrorBody lib status body).Message = []) ∧
    (∀ b msg, lib.decode body = some (.obj [(lit "success", .bool b), (lit "message", .str msg)]) →
      (parseErrorBody lib status body).Success = b ∧
      (parseErrorBody lib status body).Message = msg) ∧
    (∀ msg, lib.decode body = some (.obj [(lit "message", .str msg)]) →
      (parseErrorBody lib status body).Success = false ∧
      (parseErrorBody lib status body).Message = msg) ∧
    (∀ b, lib.decode body = some (.obj [(lit "success", .bool b)]) →
      (parseErrorBody lib status body).Success = b ∧
      (parseErrorBody lib status body).Message = []) ∧
    (lib.decode body = some (.obj []) →
      (parseErrorBody lib status body).Success = false ∧
      (parseErrorBody lib status body).Message = []) ∧
    (lib.decode body = none →
      (parseErrorBody lib status body).Success = false ∧
      (parseErrorBody lib status body).Message = []) ∧
    parseErrorBody goJSON 409
      idempotencyUsedBody =
      { StatusCode := 409
        Body := idempotencyUsedBody
        Success := false
        Message := lit "Idempotency key has been used." } ∧
    (sampleClient.SendEvent
      (serverEnv 409 idempotencyUsedBody)
      (some (eventRequest (lit "e") (lit "a@b.com") [])) (lit "dup-key")).err =
      some (.api
        { StatusCode := 409
          Body := idempotencyUsedBody
          Success := false
          Message := lit "Idempotency key has been used." }) := by
  refine ⟨?_, ?_, ?_, ?_, ?_, ?_, ?_, by decide, by decide⟩
  · intro g hg
    simp only [parseErrorBody, hg, and_self]
  · intro e he
    simp only [parseErrorBody, he, and_self]
  · intro b msg h
    simp [parseErrorBody, jsonUnmarshal, h, GoUnmarshal.fromJSON, decodeStruct,
      keyIs_success_success, keyIs_message_success, keyIs_message_message, decodeBool,
      decodeString, Except.map, bind, Except.bind, pure, Except.pure]
  · intro msg h
    simp [parseErrorBody, jsonUnmarshal, h, GoUnmarshal.fromJSON, decodeStruct,
      keyIs_message_success, keyIs_message_message, decodeString, Except.map, bind, Except.bind, pure, Except.pure]
  · intro b h
    simp [parseErrorBody, jsonUnmarshal, h, GoUnmarshal.fromJSON, decodeStruct,
      keyIs_success_success, decodeBool, Except.map, bind, Except.bind, pure, Except.pure]
  · intro h
    simp [parseErrorBody, jsonUnmarshal, h, GoUnmarshal.fromJSON, decodeStruct, pure, Except.pure]
  · intro h
    simp [parseErrorBody, jsonUnmarshal, h]

/-! ## Endpoint calls: what they send and return -/

theorem returnPtr_sent {R : Type} (out : R) (d : DoResult R) : (returnPtr out d).sent = d.sent := by
  unfold returnPtr
  split <;> rfl

theorem returnPtr_err {R : Type} (out : R) (d : DoResult R) : (returnPtr out d).err = d.err := by
  unfold returnPtr
  split <;> simp [Call.err, *]

theorem returnSlice_sent {R : Type} (d : DoResult (Option (List R))) :
    (returnSlice d).sent = d.sent := by
  unfold returnSlice
  split <;> rfl

theorem returnSlice_err {R : Type} (d : DoResult (Option (List R))) :
    (returnSlice d).err = d.err := by
  unfold returnSlice
  split <;> simp [Call.err, *]

/-- An `*APIError` out of `do` means a request went to the transport. -/
theorem do_api_error_sent {α : Type} [GoUnmarshal α] (env : Env) (c : Client)
    (method path : GoString) (body : Bytes) (result : Option α) (opts : Option doOpts)
    (e : APIError) (h : (c.do' env method path body result opts).err = some (.api e)) :
    (c.do' env method path body result opts).sent ≠ [] := by
  rcases do_shape env c method path body result opts with ⟨-, -, ne, hne⟩ | ⟨hr, -⟩
  · rw [hne] at h
    cases h
  · rw [hr]
    exact List.cons_ne_nil _ _

/-- `json.Marshal` failures are JSON errors, not API errors. -/
theorem jsonMarshal_error {α : Type} [GoMarshal α] (lib : JSONCodec) (v : α) (e : GoError)
    (h : jsonMarshal lib v = .error e) : ∃ je, e = .json je := by
  unfold jsonMarshal at h
  split at h
  · cases h
  · cases h
    exact ⟨_, rfl⟩

/-- `json.Unmarshal` failures are JSON errors, not API errors. -/
theorem jsonUnmarshal_error {α : Type} [GoUnmarshal α] (lib : JSONCodec) (data : Bytes) (cur : α)
    (e : GoError) (h : jsonUnmarshal lib data cur = .error e) : ∃ je, e = .json je := by
  unfold jsonUnmarshal at h
  split at h
  · cases h
    exact ⟨_, rfl⟩
  · split at h
    · cases h
    · cases h
      exact ⟨_, rfl⟩

/-- An error out of `mergeBody` is a JSON error. -/
theorem mergeBody_error {α : Type} [GoMarshal α] (lib : JSONCodec) (v : α) (extra : Entries)
    (e : GoError) (h : mergeBody lib v extra = .err e) : ∃ je, e = .json je := by
  unfold mergeBody at h
  split at h
  · cases hm : jsonMarshal lib v with
    | ok a => rw [hm] at h; cases h
    | error e' =>
      rw [hm] at h
      cases h
      exact jsonMarshal_error lib v _ hm
  · split at h
    · cases h
      exact jsonMarshal_error lib v _ (by assumption)
    · split at h
      · cases h
        exact jsonUnmarshal_error lib _ _ _ (by assumption)
      · split at h
        · cases h
        · rename_i m' _
          cases hm : jsonMarshal lib m' with
          | ok a => rw [hm] at h; cases h
          | error e' =>
            rw [hm] at h
            cases h
            exact jsonMarshal_error lib m' _ hm

/-- The validation error is a local rejection. -/
theorem validationError_rejected {R : Type} (msg : GoString) :
    (validationError msg : Call R).rejectedLocally :=
  ⟨rfl, rfl, _, rfl, rfl⟩

/-- A call that ends in `do` is never a local rejection. -/
theorem returnPtr_not_rejected {R : Type} [GoUnmarshal R] (env : Env) (c : Client)
    (method path : GoString) (body : Bytes) (out : R) (opts : Option doOpts) :
    ¬ (returnPtr out (c.do' env method path body (some out) opts)).rejectedLocally := by
  rintro ⟨-, hsent, e, he, -⟩
  rw [returnPtr_sent] at hsent
  rw [returnPtr_err] at he
  exact do_api_error_sent env c method path body (some out) opts e he hsent

/-- A call that ends in `do` is never a local rejection (slice result). -/
theorem returnSlice_not_rejected {R : Type} [GoUnmarshal (Option (List R))] (env : Env)
    (c : Client) (method path : GoString) (body : Bytes) (opts : Option doOpts) :
    ¬ (returnSlice (c.do' env method path body (some (none : Option (List R))) opts)).rejectedLocally := by
  rintro ⟨-, hsent, e, he, -⟩
  rw [returnSlice_sent] at hsent
  rw [returnSlice_err] at he
  exact do_api_error_sent env c method path body _ opts e he hsent

/-! ## The idempotency header -/

theorem idempotencyHeaders_empty : idempotencyHeaders [] = [] := rfl

theorem idempotencyHeaders_shape (tok : GoString) :
    idempotencyHeaders tok = [] ∨ ∃ x, idempotencyHeaders tok = [(idempotencyKeyHeader, x)] := by
  unfold idempotencyHeaders
  split
  · right
    exact ⟨_, rfl⟩
  · left
    rfl

/-- C6. `FindContact` is refused locally (nil result, `*APIError` with status
400, nothing handed to the transport) exactly when both arguments are
non-empty or both are empty, and then with the message of the source.  With
exactly one of them non-empty the call goes on to `doWithQuery` with that one
parameter. -/
theorem FindContact_exactly_one (env : Env) (c : Client) (email userId : GoString) :
    ((c.FindContact env email userId).rejectedLocally ↔
      ((email ≠ [] ∧ userId ≠ []) ∨ (email = [] ∧ userId = []))) ∧
    (((email ≠ [] ∧ userId ≠ []) ∨ (email = [] ∧ userId = [])) →
      c.FindContact env email userId =
        validationError (lit "exactly one of email or userId is required")) ∧
    (email ≠ [] → userId = [] →
      c.FindContact env email userId =
        returnSlice (c.doWithQuery env (lit "GET") (lit "/contacts/find")
          [(lit "email", email)] [] (some (none : Option (List Contact))))) ∧
    (email = [] → userId ≠ [] →
      c.FindContact env email userId =
        returnSlice (c.doWithQuery env (lit "GET") (lit "/contacts/find")
          [(lit "userId", userId)] [] (some (none : Option (List Contact))))) := by
  refine ⟨?_, ?_, ?_, ?_⟩
  · by_cases h : (email ≠ [] ∧ userId ≠ []) ∨ (email = [] ∧ userId = [])
    · simp only [Client.FindContact, if_pos h, h, iff_true]
      exact validationError_rejected _
    · simp only [Client.FindContact, if_neg h, h, iff_false, Client.doWithQuery]
      exact returnSlice_not_rejected env c _ _ _ _
  · intro h
    simp only [Client.FindContact, if_pos h]
  · intro he hu
    have h : ¬ ((email ≠ [] ∧ userId ≠ []) ∨ (email = [] ∧ userId = [])) := by
      rintro (⟨-, h2⟩ | ⟨h1, -⟩)
      · exact h2 hu
      · exact he h1
    simp only [Client.FindContact, if_neg h, if_pos he, setKey]
  · intro he hu
    have h : ¬ ((email ≠ [] ∧ userId ≠ []) ∨ (email = [] ∧ userId = [])) := by
      rintro (⟨h1, -⟩ | ⟨-, h2⟩)
      · exact h1 he
      · exact hu h2
    have he' : ¬ email ≠ [] := fun h1 => h1 he
    simp only [Client.FindContact, if_neg h, if_neg he', setKey]

/-- C7. `DeleteContact` is refused locally (nil result, `*APIError` with
status 400, nothing handed to the transport) exactly when the request is nil,
or `Email` and `UserID` are both non-empty, or both are empty.  A request with
exactly one of the two set goes on to `do` with its marshalled body. -/
theorem DeleteContact_exactly_one (env : Env) (c : Client) (req : Option ContactDeleteRequest) :
    ((c.DeleteContact env req).rejectedLocally ↔
      (req = none ∨ ∃ r, req = some r ∧
        ((r.Email ≠ [] ∧ r.UserID ≠ []) ∨ (r.Email = [] ∧ r.UserID = [])))) ∧
    (∀ r, req = some r → ¬ ((r.Email ≠ [] ∧ r.UserID ≠ []) ∨ (r.Email = [] ∧ r.UserID = [])) →
      c.DeleteContact env req =
        returnPtr ({ Success := false, Message := [] } : ContactDeleteResponse)
          (c.do' env (lit "POST") (lit "/contacts/delete")
            (env.json.encode (.obj (strField (lit "email") true r.Email ++
              strField (lit "userId") true r.UserID)))
            (some ({ Success := false, Message := [] } : ContactDeleteResponse)) none)) := by
  have key : ∀ r : ContactDeleteRequest,
      (decide (r.Email ≠ []) = decide (r.UserID ≠ [])) ↔
        ((r.Email ≠ [] ∧ r.UserID ≠ []) ∨ (r.Email = [] ∧ r.UserID = [])) := by
    intro r
    by_cases h1 : r.Email = [] <;> by_cases h2 : r.UserID = [] <;> simp [h1, h2]
  refine ⟨?_, ?_⟩
  · cases req with
    | none =>
      simp only [Client.DeleteContact, true_or, iff_true]
      exact validationError_rejected _
    | some r =>
      by_cases h : (r.Email ≠ [] ∧ r.UserID ≠ []) ∨ (r.Email = [] ∧ r.UserID = [])
      · have hk := (key r).mpr h
        have hr : (none = some r ∨ ∃ r', some r = some r' ∧
            ((r'.Email ≠ [] ∧ r'.UserID ≠ []) ∨ (r'.Email = [] ∧ r'.UserID = []))) :=
          Or.inr ⟨r, rfl, h⟩
        simp only [Client.DeleteContact, if_pos hk]
        constructor
        · intro _
          exact Or.inr ⟨r, rfl, h⟩
        · intro _
          exact validationError_rejected _
      · have hk : ¬ (decide (r.Email ≠ []) = decide (r.UserID ≠ [])) := fun e => h ((key r).mp e)
        simp only [Client.DeleteContact, if_neg hk, jsonMarshal, GoMarshal.toJSON]
        constructor
        · intro hrej
          exact absurd hrej (returnPtr_not_rejected env c _ _ _ _ _)
        · rintro (h0 | ⟨r', hr', hb⟩)
          · cases h0
          · cases hr'
            exact absurd hb h
  · intro r hr h
    subst hr
    have hk : ¬ (decide (r.Email ≠ []) = decide (r.UserID ≠ [])) := fun e => h ((key r).mp e)
    simp only [Client.DeleteContact, if_neg hk, jsonMarshal, GoMarshal.toJSON]

/-- A panicked call is not a local rejection. -/
theorem panicked_not_rejected {R : Type} : ¬ (Call.panicked : Call R).rejectedLocally := by
  rintro ⟨-, -, e, he, -⟩
  cases he

/-- Returning a JSON error is not a local rejection. -/
theorem json_error_not_rejected {R : Type} (e : GoError) (h : ∃ je, e = .json je) :
    ¬ (Call.returned none (some e) [] : Call R).rejectedLocally := by
  rintro ⟨-, -, e', he, -⟩
  obtain ⟨je, rfl⟩ := h
  cases he

/-- C8. `CreateContact` with a nil request or an empty `Email`, whatever the
other fields and the `Extra` map hold, returns a nil result and the
`*APIError` with status 400 and message "email is required" and hands nothing
to the transport.  A request with a non-empty `Email` is never refused
locally: the call goes on to `mergeBody` and `do`. -/
theorem CreateContact_email_required (env : Env) (c : Client) (req : Option ContactRequest) :
    ((req = none ∨ ∃ r, req = some r ∧ r.Email = []) →
      c.CreateContact env req = .returned none
        (some (.api { StatusCode := 400, Body := [], Success := false,
                      Message := lit "email is required" })) []) ∧
    ((c.CreateContact env req).rejectedLocally ↔
      (req = none ∨ ∃ r, req = some r ∧ r.Email = [])) ∧
    (∀ r, req = some r → r.Email ≠ [] →
      c.CreateContact env req =
        match mergeBody env.json req r.Extra with
        | .panic => .panicked
        | .err e => .returned none (some e) []
        | .ok body =>
          returnPtr ({ Success := false, ID := [] } : ContactSuccessResponse)
            (c.do' env (lit "POST") (lit "/contacts/create") body
              (some ({ Success := false, ID := [] } : ContactSuccessResponse)) none)) := by
  cases req with
  | none =>
    refine ⟨fun _ => rfl, ?_, fun r hr => by cases hr⟩
    simp only [Client.CreateContact, true_or, iff_true]
    exact validationError_rejected _
  | some r =>
    by_cases h : r.Email = []
    · refine ⟨fun _ => by simp only [Client.CreateContact, if_pos h, validationError], ?_,
        fun r' hr' hne => ?_⟩
      · simp only [Client.CreateContact, if_pos h]
        constructor
        · intro _
          exact Or.inr ⟨r, rfl, h⟩
        · intro _
          exact validationError_rejected _
      · cases hr'
        exact absurd h hne
    · refine ⟨?_, ?_, fun r' hr' _ => ?_⟩
      · rintro (h0 | ⟨r', hr', he⟩)
        · cases h0
        · cases hr'
          exact absurd he h
      · simp only [Client.CreateContact, if_neg h]
        constructor
        · intro hrej
          exfalso
          revert hrej
          cases hm : mergeBody env.json (some r) r.Extra with
          | ok body => exact returnPtr_not_rejected env c _ _ _ _ _
          | err e => exact json_error_not_rejected e (mergeBody_error _ _ _ e hm)
          | panic => exact panicked_not_rejected
        · rintro (h0 | ⟨r', hr', he⟩)
          · cases h0
          · cases hr'
            exact absurd he h
      · cases hr'
        simp only [Client.CreateContact, if_neg h]

/-- C9. `UpdateContact` is refused locally (nil result, `*APIError` with
status 400, nothing handed to the transport) exactly when the request is nil
or both `Email` and `UserID` are empty; with only `Email`, only `UserID`, or
both set, the call goes on to `mergeBody` and `do`. -/
theorem UpdateContact_at_least_one (env : Env) (c : Client) (req : Option ContactUpdateRequest) :
    ((c.UpdateContact env req).rejectedLocally ↔
      (req = none ∨ ∃ r, req = some r ∧ r.Email = [] ∧ r.UserID = [])) ∧
    ((req = none ∨ ∃ r, req = some r ∧ r.Email = [] ∧ r.UserID = []) →
      c.UpdateContact env req = validationError (lit "email or userId is required")) ∧
    (∀ r, req = some r → ¬ (r.Email = [] ∧ r.UserID = []) →
      c.UpdateContact env req =
        match mergeBody env.json req r.Extra with
        | .panic => .panicked
        | .err e => .returned none (some e) []
        | .ok body =>
          returnPtr ({ Success := false, ID := [] } : ContactSuccessResponse)
            (c.do' env (lit "PUT") (lit "/contacts/update") body
              (some ({ Success := false, ID := [] } : ContactSuccessResponse)) none)) := by
  cases req with
  | none =>
    refine ⟨?_, fun _ => rfl, fun r hr => by cases hr⟩
    simp only [Client.UpdateContact, true_or, iff_true]
    exact validationError_rejected _
  | some r =>
    by_cases h : r.Email = [] ∧ r.UserID = []
    · refine ⟨?_, fun _ => by simp only [Client.UpdateContact, if_pos h], fun r' hr' hne => ?_⟩
      · simp only [Client.UpdateContact, if_pos h]
        constructor
        · intro _
          exact Or.inr ⟨r, rfl, h⟩
        · intro _
          exact validationError_rejected _
      · cases hr'
        exact absurd h hne
    · refine ⟨?_, ?_, fun r' hr' _ => ?_⟩
      · simp only [Client.UpdateContact, if_neg h]
        constructor
        · intro hrej
          exfalso
          revert hrej
          cases hm : mergeBody env.json (some r) r.Extra with
          | ok body => exact returnPtr_not_rejected env c _ _ _ _ _
          | err e => exact json_error_not_rejected e (mergeBody_error _ _ _ e hm)
          | panic => exact panicked_not_rejected
        · rintro (h0 | ⟨r', hr', he⟩)
          · cases h0
          · cases hr'
            exact absurd he h
      · rintro (h0 | ⟨r', hr', he⟩)
        · cases h0
        · cases hr'
          exact absurd he h
      · cases hr'
        simp only [Client.UpdateContact, if_neg h]

/-- C10. `SendEvent` is refused locally (nil result, `*APIError` with status
400, nothing handed to the transport) exactly when the request is nil, or
`EventName` is empty, or both `Email` and `UserID` are empty.  With a nil
request or an empty `EventName` the message is "eventName is required"
whatever the identifiers are; otherwise it is "email or userId is required".
The idempotency key plays no part: the condition does not mention it and a
refused call returns the same for every key. -/
theorem SendEvent_validation (env : Env) (c : Client) (req : Option EventRequest)
    (tok : GoString) :
    ((c.SendEvent env req tok).rejectedLocally ↔
      (req = none ∨ ∃ r, req = some r ∧
        (r.EventName = [] ∨ (r.Email = [] ∧ r.UserID = [])))) ∧
    ((req = none ∨ ∃ r, req = some r ∧ r.EventName = []) →
      c.SendEvent env req tok = validationError (lit "eventName is required")) ∧
    (∀ r, req = some r → r.EventName ≠ [] → r.Email = [] → r.UserID = [] →
      c.SendEvent env req tok = validationError (lit "email or userId is required")) ∧
    (∀ tok2, (c.SendEvent env req tok).rejectedLocally →
      c.SendEvent env req tok2 = c.SendEvent env req tok) := by
  have main : ∀ t : GoString, ((c.SendEvent env req t).rejectedLocally ↔
      (req = none ∨ ∃ r, req = some r ∧
        (r.EventName = [] ∨ (r.Email = [] ∧ r.UserID = [])))) := by
    intro t
    cases req with
    | none =>
      simp only [Client.SendEvent, true_or, iff_true]
      exact validationError_rejected _
    | some r =>
      by_cases hn : r.EventName = []
      · simp only [Client.SendEvent, if_pos hn]
        constructor
        · intro _
          exact Or.inr ⟨r, rfl, Or.inl hn⟩
        · intro _
          exact validationError_rejected _
      · by_cases hi : r.Email = [] ∧ r.UserID = []
        · simp only [Client.SendEvent, if_neg hn, if_pos hi]
          constructor
          · intro _
            exact Or.inr ⟨r, rfl, Or.inr hi⟩
          · intro _
            exact validationError_rejected _
        · simp only [Client.SendEvent, if_neg hn, if_neg hi, Client.doWithHeaders]
          constructor
          · intro hrej
            exfalso
            revert hrej
            cases hm : mergeBody env.json (some r) r.Extra with
            | ok body => exact returnPtr_not_rejected env c _ _ _ _ _
            | err e => exact json_error_not_rejected e (mergeBody_error _ _ _ e hm)
            | panic => exact panicked_not_rejected
          · rintro (h0 | ⟨r', hr', he | he⟩)
            · cases h0
            · cases hr'
              exact absurd he hn
            · cases hr'
              exact absurd he hi
  refine ⟨main tok, ?_, ?_, ?_⟩
  · rintro (rfl | ⟨r, rfl, hn⟩)
    · rfl
    · simp only [Client.SendEvent, if_pos hn]
  · intro r hr hn he hu
    subst hr
    simp only [Client.SendEvent, if_neg hn, if_pos (And.intro he hu)]
  · intro tok2 hrej
    rcases (main tok).mp hrej with rfl | ⟨r, rfl, hn | hi⟩
    · rfl
    · simp only [Client.SendEvent, if_pos hn]
    · by_cases hn : r.EventName = []
      · simp only [Client.SendEvent, if_pos hn]
      · simp only [Client.SendEvent, if_neg hn, if_pos hi]

/-- C11. `SendTransactional` is refused locally (nil result, `*APIError` with
status 400, nothing handed to the transport) exactly when the request is nil,
`Email` is empty or `TransactionalID` is empty, and then with the message
"email and transactionalId are required".  Otherwise the call goes on to `do`
with the marshalled request.  The condition reads neither the attachments, nor
the data variables, nor `AddToAudience`, nor the idempotency key: changing
them does not change whether the call is refused. -/
theorem SendTransactional_validation (env : Env) (c : Client)
    (req : Option TransactionalRequest) (tok : GoString) :
    ((c.SendTransactional env req tok).rejectedLocally ↔
      (req = none ∨ ∃ r, req = some r ∧ (r.Email = [] ∨ r.TransactionalID = []))) ∧
    ((req = none ∨ ∃ r, req = some r ∧ (r.Email = [] ∨ r.TransactionalID = [])) →
      c.SendTransactional env req tok = .returned none
        (some (.api { StatusCode := 400, Body := [], Success := false,
                      Message := lit "email and transactionalId are required" })) []) ∧
    (∀ r, req = some r → r.Email ≠ [] → r.TransactionalID ≠ [] →
      ∃ body, jsonMarshal env.json req = .ok body ∧
        c.SendTransactional env req tok =
          returnPtr ({ Success := false } : TransactionalSuccessResponse)
            (c.doWithHeaders env (lit "POST") (lit "/transactional") (idempotencyHeaders tok)
              body (some ({ Success := false } : TransactionalSuccessResponse)))) ∧
    (∀ r aud vars atts tok2, req = some r →
      ((c.SendTransactional env req tok).rejectedLocally ↔
        (c.SendTransactional env
          (some { r with AddToAudience := aud, DataVariables := vars, Attachments := atts })
          tok2).rejectedLocally)) := by
  have main : ∀ (q : Option TransactionalRequest) (t : GoString),
      ((c.SendTransactional env q t).rejectedLocally ↔
        (q = none ∨ ∃ r, q = some r ∧ (r.Email = [] ∨ r.TransactionalID = []))) := by
    intro q t
    cases q with
    | none =>
      simp only [Client.SendTransactional, true_or, iff_true]
      exact validationError_rejected _
    | some r =>
      by_cases h : r.Email = [] ∨ r.TransactionalID = []
      · simp only [Client.SendTransactional, if_pos h]
        constructor
        · intro _
          exact Or.inr ⟨r, rfl, h⟩
        · intro _
          exact validationError_rejected _
      · simp only [Client.SendTransactional, if_neg h, jsonMarshal, GoMarshal.toJSON,
          Client.doWithHeaders]
        constructor
        · intro hrej
          exact absurd hrej (returnPtr_not_rejected env c _ _ _ _ _)
        · rintro (h0 | ⟨r', hr', he⟩)
          · cases h0
          · cases hr'
            exact absurd he h
  refine ⟨main req tok, ?_, ?_, ?_⟩
  · rintro (rfl | ⟨r, rfl, h⟩)
    · rfl
    · simp only [Client.SendTransactional, if_pos h, validationError]
  · intro r hr he ht
    subst hr
    have h : ¬ (r.Email = [] ∨ r.TransactionalID = []) := by
      rintro (h | h)
      · exact he h
      · exact ht h
    refine ⟨_, rfl, ?_⟩
    simp only [Client.SendTransactional, if_neg h, jsonMarshal, GoMarshal.toJSON]
  · intro r aud vars atts tok2 hr
    subst hr
    rw [main (some r) tok, main _ tok2]
    constructor
    · rintro (h0 | ⟨r', hr', he⟩)
      · cases h0
      · cases hr'
        exact Or.inr ⟨_, rfl, he⟩
    · rintro (h0 | ⟨r', hr', he⟩)
      · cases h0
      · cases hr'
        exact Or.inr ⟨_, rfl, he⟩

/-! ## The body composer without extra fields -/

/-- C15. With an extra map that is nil or empty `mergeBody` returns what
`json.Marshal(v)` returns, the same bytes or the same error, and it never
panics.  No decoding takes place: the outcome is the same whatever the
decoder of the codec does. -/
theorem mergeBody_no_extra {α : Type} [GoMarshal α] (lib : JSONCodec) (v : α) :
    mergeBody lib v [] = Res.ofExcept (jsonMarshal lib v) ∧
    (∀ extra : Entries, extra.length = 0 →
      mergeBody lib v extra = Res.ofExcept (jsonMarshal lib v)) ∧
    (∀ j, GoMarshal.toJSON v = .ok j → mergeBody lib v [] = .ok (lib.encode j)) ∧
    (∀ e, GoMarshal.toJSON v = .error e → mergeBody lib v [] = .err (.json e)) ∧
    (∀ dec : Bytes → Option JSON,
      mergeBody { encode := lib.encode, decode := dec } v [] = mergeBody lib v []) := by
  refine ⟨rfl, ?_, ?_, ?_, ?_⟩
  · intro extra h
    simp only [mergeBody, if_pos h]
  · intro j hj
    simp only [mergeBody, List.length_nil, if_true, jsonMarshal, hj, Res.ofExcept]
  · intro e he
    simp only [mergeBody, List.length_nil, if_true, jsonMarshal, he, Res.ofExcept]
  · intro dec
    simp only [mergeBody, List.length_nil, if_true, jsonMarshal]

/-! ## The base URL -/

theorem lit_slash : lit "/" = [47] := by decide

theorem trimSuffix_slash_append (t : GoString) : trimSuffix (t ++ [47]) [47] = t := by
  have h : hasSuffix (t ++ [47]) [47] = true := by
    simp [hasSuffix]
  simp [trimSuffix, h]

theorem trimSuffix_slash_other (s : GoString) (h : ∀ t, s ≠ t ++ [47]) :
    trimSuffix s [47] = s := by
  have hs : hasSuffix s [47] = false := by
    by_contra hc
    have ht : hasSuffix s [47] = true := by
      cases hx : hasSuffix s [47] with
      | true => rfl
      | false => exact absurd hx hc
    simp only [hasSuffix, List.length_singleton, ge_iff_le, decide_eq_true_eq] at ht
    apply h (s.take (s.length - 1))
    have := List.take_append_drop (s.length - 1) s
    rw [ht.2] at this
    exact this.symm
  simp [trimSuffix, hs]

/-- C16. `WithBaseURL(s)` sets the base URL to `s` without its last byte when
`s` ends in "/", and to `s` itself otherwise.  So exactly one trailing slash
goes: a base ending in "//" keeps one, ".../v1/" becomes ".../v1", and a base
without trailing slash is kept.  A client built with the option has that base
URL and its key untouched. -/
theorem WithBaseURL_trims_one_slash (s : GoString) (c : Client) :
    (∀ t, s = t ++ lit "/" → (WithBaseURL s c).baseURL = t) ∧
    ((∀ t, s ≠ t ++ lit "/") → (WithBaseURL s c).baseURL = s) ∧
    (∀ t, s = t ++ lit "//" → (WithBaseURL s c).baseURL = t ++ lit "/") ∧
    (WithBaseURL s c).apiKey = c.apiKey ∧
    (∀ k, (NewClient k [WithBaseURL s]).baseURL = (WithBaseURL s c).baseURL ∧
      (NewClient k [WithBaseURL s]).apiKey = k) ∧
    (∀ k, (NewClient k []).baseURL = DefaultBaseURL) ∧
    (WithBaseURL (lit "https://app.loops.so/api/v1/") c).baseURL =
      lit "https://app.loops.so/api/v1" ∧
    (WithBaseURL (lit "https://custom.example.com/api/v1") c).baseURL =
      lit "https://custom.example.com/api/v1" ∧
    (WithBaseURL (lit "https://example.com//") c).baseURL = lit "https://example.com/" := by
  have ex : ∀ a b : GoString, trimSuffix a (lit "/") = b → (WithBaseURL a c).baseURL = b :=
    fun a b h => h
  refine ⟨?_, ?_, ?_, rfl, fun k => ⟨rfl, rfl⟩, fun k => rfl, ex _ _ (by decide),
    ex _ _ (by decide), ex _ _ (by decide)⟩
  · intro t ht
    subst ht
    simp only [WithBaseURL, lit_slash]
    exact trimSuffix_slash_append t
  · intro h
    simp only [WithBaseURL, lit_slash]
    exact trimSuffix_slash_other s (by simpa only [lit_slash] using h)
  · intro t ht
    subst ht
    have h2 : lit "//" = [47] ++ [47] := by decide
    simp only [WithBaseURL, lit_slash, h2, ← List.append_assoc]
    exact trimSuffix_slash_append (t ++ [47])

/-! ## The text of an API error -/

/-- Reading the decimal text of a number gives the number back. -/
theorem parseNum_Itoa (n : Int) : parseNum (Itoa n) = some (n, []) := by
  have h := parseNum_renderInt n [] numEnd_nil
  rw [List.append_nil] at h
  exact h

theorem Itoa_ne_nil (n : Int) : Itoa n ≠ [] := by
  obtain ⟨d, tl, h, -⟩ := renderInt_head n
  simp [Itoa, h]

/-- C19. `Error()` of an `APIError` is "loops API error (status N): " followed
by `Message` when that is non-empty and by the bytes of `Body` otherwise, with
N the decimal text of `StatusCode` (reading it back gives `StatusCode`).  The
text therefore contains the status code, contains the message, is never
empty, and for a nil body and no message it is just the lead-in. -/
theorem APIError_Error_text (e : APIError) :
    (e.Message ≠ [] →
      e.Error = lit "loops API error (status " ++ Itoa e.StatusCode ++ lit "): " ++ e.Message) ∧
    (e.Message = [] →
      e.Error = lit "loops API error (status " ++ Itoa e.StatusCode ++ lit "): " ++ e.Body) ∧
    parseNum (Itoa e.StatusCode) = some (e.StatusCode, []) ∧
    Itoa e.StatusCode <:+: e.Error ∧
    e.Message <:+: e.Error ∧
    lit "loops API error (status " <+: e.Error ∧
    e.Error ≠ [] ∧
    (e.Message = [] → e.Body = [] →
      e.Error = lit "loops API error (status " ++ Itoa e.StatusCode ++ lit "): ") ∧
    ({ StatusCode := 500, Body := [], Success := false, Message := [] } : APIError).Error =
      lit "loops API error (status 500): " ∧
    ({ StatusCode := 401, Body := lit "raw", Success := false,
       Message := lit "Invalid API key" } : APIError).Error =
      lit "loops API error (status 401): Invalid API key" ∧
    ({ StatusCode := 502, Body := lit "<html>Bad Gateway</html>", Success := false,
       Message := [] } : APIError).Error =
      lit "loops API error (status 502): <html>Bad Gateway</html>" := by
  have hcases : ∃ tail, e.Error =
      lit "loops API error (status " ++ Itoa e.StatusCode ++ lit "): " ++ tail ∧
      (e.Message ≠ [] → tail = e.Message) ∧ (e.Message = [] → tail = e.Body) := by
    by_cases h : e.Message = []
    · exact ⟨e.Body, by simp only [APIError.Error, h, ne_eq, not_true_eq_false, if_false],
        fun h' => absurd h h', fun _ => rfl⟩
    · exact ⟨e.Message, by simp only [APIError.Error, ne_eq, h, not_false_eq_true, if_true],
        fun _ => rfl, fun h' => absurd h' h⟩
  obtain ⟨tail, ht, hm, hb⟩ := hcases
  refine ⟨?_, ?_, parseNum_Itoa _, ?_, ?_, ?_, ?_, ?_, by decide, by decide, by decide⟩
  · intro h
    rw [ht, hm h]
  · intro h
    rw [ht, hb h]
  · exact ⟨lit "loops API error (status ", lit "): " ++ tail, by
      rw [ht]; simp only [List.append_assoc]⟩
  · by_cases h : e.Message = []
    · rw [h]
      exact ⟨[], e.Error, rfl⟩
    · exact ⟨lit "loops API error (status " ++ Itoa e.StatusCode ++ lit "): ", [], by
        rw [ht, hm h]; simp only [List.append_nil]⟩
  · exact ⟨Itoa e.StatusCode ++ lit "): " ++ tail, by rw [ht]; simp only [List.append_assoc]⟩
  · rw [ht]
    intro h
    have h1 := (List.append_eq_nil.mp h).1
    have h2 := (List.append_eq_nil.mp h1).1
    have h3 := (List.append_eq_nil.mp h2).1
    revert h3
    decide
  · intro h1 h2
    rw [ht, hb h1, h2, List.append_nil]

/-! ## Responses below status 400 -/

/-- C13. A response with status below 400, also below 200, whose body is
empty or for which no result target was given: `do` returns no error and
leaves the result as it was (the zero value its caller put there), whatever
bytes the body holds in the second case.  Nothing is decoded: the outcome is
the same for every decoder. -/
theorem success_without_decode {α : Type} [GoUnmarshal α] (env : Env) (c : Client)
    (method path : GoString) (body : Bytes) (result : Option α) (opts : Option doOpts)
    (r : Request) (resp : Response) (slurp : Bytes)
    (hsent : (c.do' env method path body result opts).sent = [r])
    (hresp : env.roundTrip r = .ok resp) (hbody : resp.Body = .ok slurp)
    (hstatus : resp.StatusCode < 400) (hskip : slurp = [] ∨ result = none) :
    (c.do' env method path body result opts).err = none ∧
    (c.do' env method path body result opts).result = result ∧
    (∀ lib : JSONCodec,
      (c.do' { env with json := lib } method path body result opts).err = none ∧
      (c.do' { env with json := lib } method path body result opts).result = result) := by
  have hns : ¬ resp.StatusCode ≥ 400 := by omega
  rcases do_shape env c method path body result opts with ⟨h0, -, -⟩ | ⟨h1, hnr⟩
  · rw [h0] at hsent
    cases hsent
  · rw [h1] at hsent
    cases hsent
    have key : ∀ lib : JSONCodec,
        (c.do' { env with json := lib } method path body result opts).err = none ∧
        (c.do' { env with json := lib } method path body result opts).result = result := by
      intro lib
      rcases hskip with hs | hr
      · subst hs
        cases result with
        | none => simp only [Client.do', hnr, hresp, hbody, hns, if_false, and_self]
        | some cur =>
          simp only [Client.do', hnr, hresp, hbody, hns, if_false, List.length_nil,
            gt_iff_lt, lt_self_iff_false, and_self]
      · subst hr
        simp only [Client.do', hnr, hresp, hbody, hns, if_false, and_self]
    exact ⟨(key env.json).1, (key env.json).2, key⟩

/-- C13, at a 200 answer with an empty body to the probe, whose result stays
the zero value, and at a 100 answer with a non-JSON body to a call without
result target. -/
theorem success_without_decode_witness :
    ((sampleClient.do' (serverEnv 200 []) (lit "GET") (lit "/api-key") []
        (some ({ Success := false, TeamName := [] } : APIKeyResponse)) none).err = none ∧
      (sampleClient.do' (serverEnv 200 []) (lit "GET") (lit "/api-key") []
        (some ({ Success := false, TeamName := [] } : APIKeyResponse)) none).result =
        some { Success := false, TeamName := [] } ∧
      (sampleClient.GetAPIKey (serverEnv 200 [])).err = none ∧
      (sampleClient.GetAPIKey (serverEnv 200 [])).result =
        some { Success := false, TeamName := [] }) ∧
    ((sampleClient.do' (serverEnv 100 (lit "<html>Continue</html>")) (lit "POST")
        (lit "/events/send") [] (none : Option EventSuccessResponse) none).err = none ∧
      (sampleClient.do' (serverEnv 100 (lit "<html>Continue</html>")) (lit "POST")
        (lit "/events/send") [] (none : Option EventSuccessResponse) none).result = none) :=
  ⟨⟨(success_without_decode (serverEnv 200 []) sampleClient (lit "GET") (lit "/api-key") []
        (some ({ Success := false, TeamName := [] } : APIKeyResponse)) none _
        { StatusCode := 200, Body := .ok [] } [] rfl rfl rfl (by decide) (Or.inl rfl)).1,
      (success_without_decode (serverEnv 200 []) sampleClient (lit "GET") (lit "/api-key") []
        (some ({ Success := false, TeamName := [] } : APIKeyResponse)) none _
        { StatusCode := 200, Body := .ok [] } [] rfl rfl rfl (by decide) (Or.inl rfl)).2.1,
      by decide, by decide⟩,
    (success_without_decode (serverEnv 100 (lit "<html>Continue</html>")) sampleClient
        (lit "POST") (lit "/events/send") [] (none : Option EventSuccessResponse) none _
        { StatusCode := 100, Body := .ok (lit "<html>Continue</html>") }
        (lit "<html>Continue</html>") rfl rfl rfl (by decide) (Or.inr rfl)).1,
    (success_without_decode (serverEnv 100 (lit "<html>Continue</html>")) sampleClient
        (lit "POST") (lit "/events/send") [] (none : Option EventSuccessResponse) none _
        { StatusCode := 100, Body := .ok (lit "<html>Continue</html>") }
        (lit "<html>Continue</html>") rfl rfl rfl (by decide) (Or.inr rfl)).2.1⟩

/-- C14. A response with status below 400, a result target and a non-empty
body that does not decode into the target: `do` returns the decoder's error
wrapped by "decode response: ", which is not an `*APIError` (the decoder's
error is a JSON error, unwrapping gives it back), and an endpoint that ends in
`do` returns that error with a nil result. -/
theorem decode_failure_is_generic_error {α : Type} [GoUnmarshal α] (env : Env) (c : Client)
    (method path : GoString) (body : Bytes) (cur : α) (opts : Option doOpts)
    (r : Request) (resp : Response) (slurp : Bytes) (e : GoError)
    (hsent : (c.do' env method path body (some cur) opts).sent = [r])
    (hresp : env.roundTrip r = .ok resp) (hbody : resp.Body = .ok slurp)
    (hstatus : resp.StatusCode < 400) (hne : slurp ≠ [])
    (hdec : jsonUnmarshal env.json slurp cur = .error e) :
    (c.do' env method path body (some cur) opts).err = some (.decodeResponse e) ∧
    (GoError.decodeResponse e).asAPIError = none ∧
    (∃ je, e = .json je) ∧
    (GoError.decodeResponse e).Unwrap = some e ∧
    (∀ jsonText netText, (GoError.decodeResponse e).Error jsonText netText =
      lit "decode response: " ++ e.Error jsonText netText) ∧
    (∀ out : α, returnPtr out (c.do' env method path body (some cur) opts) =
      .returned none (some (.decodeResponse e)) [r]) := by
  have hns : ¬ resp.StatusCode ≥ 400 := by omega
  have hlen : slurp.length > 0 := List.length_pos.mpr hne
  rcases do_shape env c method path body (some cur) opts with ⟨h0, -, -⟩ | ⟨h1, hnr⟩
  · rw [h0] at hsent
    cases hsent
  · have herr : (c.do' env method path body (some cur) opts).err = some (.decodeResponse e) := by
      rw [h1] at hsent
      cases hsent
      simp only [Client.do', hnr, hresp, hbody, hns, if_false, hlen, if_true, hdec]
    refine ⟨herr, rfl, jsonUnmarshal_error _ _ _ _ hdec, rfl, fun _ _ => rfl, ?_⟩
    intro out
    simp only [returnPtr, herr, hsent]

/-- C14, at the probe answered with status 200 and the body `not valid json`. -/
theorem decode_failure_is_generic_error_witness :
    (sampleClient.do' (serverEnv 200 (lit "not valid json")) (lit "GET") (lit "/api-key") []
      (some ({ Success := false, TeamName := [] } : APIKeyResponse)) none).err =
      some (.decodeResponse (.json .syntaxError)) ∧
    (GoError.decodeResponse (.json .syntaxError)).asAPIError = none ∧
    (∃ je, GoError.json .syntaxError = .json je) ∧
    (GoError.decodeResponse (.json .syntaxError)).Unwrap = some (.json .syntaxError) ∧
    (∀ jsonText netText,
      (GoError.decodeResponse (.json .syntaxError)).Error jsonText netText =
        lit "decode response: " ++ (GoError.json .syntaxError).Error jsonText netText) ∧
    (∀ out : APIKeyResponse,
      returnPtr out (sampleClient.do' (serverEnv 200 (lit "not valid json")) (lit "GET")
        (lit "/api-key") [] (some ({ Success := false, TeamName := [] } : APIKeyResponse))
        none) =
      .returned none (some (.decodeResponse (.json .syntaxError)))
        [sampleClient.buildRequest (lit "GET") (lit "/api-key") [] none]) :=
  decode_failure_is_generic_error (serverEnv 200 (lit "not valid json")) sampleClient
    (lit "GET") (lit "/api-key") [] ({ Success := false, TeamName := [] } : APIKeyResponse)
    none _ { StatusCode := 200, Body := .ok (lit "not valid json") } (lit "not valid json")
    (.json .syntaxError) rfl rfl rfl (by decide) (by decide) rfl

/-! ## Requests of every endpoint -/

theorem mem_sent_do {α : Type} [GoUnmarshal α] (env : Env) (c : Client) (method path : GoString)
    (body : Bytes) (result : Option α) (opts : Option doOpts) (r : Request)
    (hr : r ∈ (c.do' env method path body result opts).sent) :
    r = c.buildRequest method path body opts := by
  rcases do_shape env c method path body result opts with ⟨h0, -, -⟩ | ⟨h1, -⟩
  · rw [h0] at hr
    cases hr
  · rw [h1] at hr
    exact List.mem_singleton.mp hr

theorem dispatched_of_do {α : Type} [GoUnmarshal α] (env : Env) (c : Client)
    (method path : GoString) (body : Bytes) (result : Option α) (r : Request)
    (hr : r ∈ (c.do' env method path body result none).sent) : c.dispatched method path r :=
  ⟨[], body, none, by rw [List.append_nil]; exact mem_sent_do env c _ _ _ _ _ r hr,
    Or.inl rfl, Or.inl rfl⟩

theorem dispatched_of_doWithQuery {α : Type} [GoUnmarshal α] (env : Env) (c : Client)
    (method path : GoString) (query : List (GoString × GoString)) (body : Bytes)
    (result : Option α) (r : Request)
    (hr : r ∈ (c.doWithQuery env method path query body result).sent) :
    c.dispatched method path r := by
  unfold Client.doWithQuery at hr
  have h := mem_sent_do env c _ _ _ _ _ r hr
  by_cases hq : query.length > 0
  · simp only [hq, if_true] at h
    refine ⟨63 :: encodeQuery query, body, none, ?_, Or.inr ⟨_, rfl⟩, Or.inl rfl⟩
    rw [h]
    have h63 : lit "?" = [63] := by decide
    simp only [h63, List.append_assoc, List.singleton_append]
  · simp only [hq, if_false] at h
    exact ⟨[], body, none, by rw [List.append_nil]; exact h, Or.inl rfl, Or.inl rfl⟩

theorem dispatched_of_doWithHeaders {α : Type} [GoUnmarshal α] (env : Env) (c : Client)
    (method path : GoString) (tok : GoString) (body : Bytes) (result : Option α) (r : Request)
    (hr : r ∈ (c.doWithHeaders env method path (idempotencyHeaders tok) body result).sent) :
    c.dispatched method path r :=
  ⟨[], body, some { headers := idempotencyHeaders tok, query := [] },
    by rw [List.append_nil]; exact mem_sent_do env c _ _ _ _ _ r hr, Or.inl rfl,
    Or.inr ⟨tok, rfl⟩⟩

theorem dispatched_routed (c : Client) (method path : GoString) (r : Request)
    (h : c.dispatched method path r) : c.routed (method, path) r := by
  obtain ⟨q, body, opts, rfl, hq, -⟩ := h
  exact ⟨rfl, q, by simp only [Client.buildRequest, List.append_assoc], hq⟩

/-- A dispatched request carries the bearer credential of the client. -/
theorem dispatched_authorization (c : Client) (method path : GoString) (r : Request)
    (h : c.dispatched method path r) :
    lookupKey r.Header (lit "Authorization") = some (lit "Bearer " ++ c.apiKey) := by
  obtain ⟨q, body, opts, rfl, -, hopts⟩ := h
  rcases hopts with rfl | ⟨tok, rfl⟩
  · simp only [Client.buildRequest]
    rw [lookupKey_setKey_other _ _ _ _ (by decide), lookupKey_setKey_self]
  · rw [buildRequest_header]
    rw [lookupKey_foldl_other]
    · rw [lookupKey_setKey_other _ _ _ _ (by decide), lookupKey_setKey_self]
    · rcases idempotencyHeaders_shape tok with h | ⟨x, h⟩
      · rw [h]
        simp [keysOf]
      · rw [h]
        simp only [keysOf, List.map_cons, List.map_nil, List.mem_singleton]
        decide

theorem GetAPIKey_dispatched (env : Env) (c : Client) (r : Request)
    (hr : r ∈ (c.GetAPIKey env).sent) : c.dispatched (lit "GET") (lit "/api-key") r := by
  simp only [Client.GetAPIKey, returnPtr_sent] at hr
  exact dispatched_of_do env c _ _ _ _ r hr

theorem CreateContact_dispatched (env : Env) (c : Client) (req : Option ContactRequest)
    (r : Request) (hr : r ∈ (c.CreateContact env req).sent) :
    c.dispatched (lit "POST") (lit "/contacts/create") r := by
  unfold Client.CreateContact at hr
  split at hr
  · cases hr
  · split at hr
    · cases hr
    · split at hr
      · cases hr
      · cases hr
      · rw [returnPtr_sent] at hr
        exact dispatched_of_do env c _ _ _ _ r hr

theorem UpdateContact_dispatched (env : Env) (c : Client) (req : Option ContactUpdateRequest)
    (r : Request) (hr : r ∈ (c.UpdateContact env req).sent) :
    c.dispatched (lit "PUT") (lit "/contacts/update") r := by
  unfold Client.UpdateContact at hr
  split at hr
  · cases hr
  · split at hr
    · cases hr
    · split at hr
      · cases hr
      · cases hr
      · rw [returnPtr_sent] at hr
        exact dispatched_of_do env c _ _ _ _ r hr

theorem FindContact_dispatched (env : Env) (c : Client) (email userId : GoString)
    (r : Request) (hr : r ∈ (c.FindContact env email userId).sent) :
    c.dispatched (lit "GET") (lit "/contacts/find") r := by
  unfold Client.FindContact at hr
  split at hr
  · cases hr
  · rw [returnSlice_sent] at hr
    exact dispatched_of_doWithQuery env c _ _ _ _ _ r hr

theorem DeleteContact_dispatched (env : Env) (c : Client) (req : Option ContactDeleteRequest)
    (r : Request) (hr : r ∈ (c.DeleteContact env req).sent) :
    c.dispatched (lit "POST") (lit "/contacts/delete") r := by
  cases req with
  | none => cases hr
  | some q =>
    by_cases h : decide (q.Email ≠ []) = decide (q.UserID ≠ [])
    · simp only [Client.DeleteContact, if_pos h] at hr
      cases hr
    · simp only [Client.DeleteContact, if_neg h, jsonMarshal, GoMarshal.toJSON,
        returnPtr_sent] at hr
      exact dispatched_of_do env c _ _ _ _ r hr

theorem CreateContactProperty_dispatched (env : Env) (c : Client)
    (req : Option ContactPropertyCreateRequest) (r : Request)
    (hr : r ∈ (c.CreateContactProperty env req).sent) :
    c.dispatched (lit "POST") (lit "/contacts/properties") r := by
  unfold Client.CreateContactProperty at hr
  split at hr
  · cases hr
  · split at hr
    · cases hr
    · split at hr
      · cases hr
      · rw [returnPtr_sent] at hr
        exact dispatched_of_do env c _ _ _ _ r hr

theorem ListContactProperties_dispatched (env : Env) (c : Client) (list : GoString)
    (r : Request) (hr : r ∈ (c.ListContactProperties env list).sent) :
    c.dispatched (lit "GET") (lit "/contacts/properties") r := by
  simp only [Client.ListContactProperties, returnSlice_sent] at hr
  exact dispatched_of_doWithQuery env c _ _ _ _ _ r hr

theorem GetDedicatedSendingIPs_dispatched (env : Env) (c : Client) (r : Request)
    (hr : r ∈ (c.GetDedicatedSendingIPs env).sent) :
    c.dispatched (lit "GET") (lit "/dedicated-sending-ips") r := by
  simp only [Client.GetDedicatedSendingIPs, returnSlice_sent] at hr
  exact dispatched_of_do env c _ _ _ _ r hr

theorem GetLists_dispatched (env : Env) (c : Client) (r : Request)
    (hr : r ∈ (c.GetLists env).sent) : c.dispatched (lit "GET") (lit "/lists") r := by
  simp only [Client.GetLists, returnSlice_sent] at hr
  exact dispatched_of_do env c _ _ _ _ r hr

theorem SendEvent_dispatched (env : Env) (c : Client) (req : Option EventRequest)
    (tok : GoString) (r : Request) (hr : r ∈ (c.SendEvent env req tok).sent) :
    c.dispatched (lit "POST") (lit "/events/send") r := by
  unfold Client.SendEvent at hr
  split at hr
  · cases hr
  · split at hr
    · cases hr
    · split at hr
      · cases hr
      · split at hr
        · cases hr
        · cases hr
        · rw [returnPtr_sent] at hr
          exact dispatched_of_doWithHeaders env c _ _ _ _ _ r hr

theorem SendTransactional_dispatched (env : Env) (c : Client)
    (req : Option TransactionalRequest) (tok : GoString) (r : Request)
    (hr : r ∈ (c.SendTransactional env req tok).sent) :
    c.dispatched (lit "POST") (lit "/transactional") r := by
  unfold Client.SendTransactional at hr
  split at hr
  · cases hr
  · split at hr
    · cases hr
    · split at hr
      · cases hr
      · rw [returnPtr_sent] at hr
        exact dispatched_of_doWithHeaders env c _ _ _ _ _ r hr

theorem ListTransactionals_dispatched (env : Env) (c : Client) (perPage : Int)
    (cursor : GoString) (r : Request) (hr : r ∈ (c.ListTransactionals env perPage cursor).sent) :
    c.dispatched (lit "GET") (lit "/transactional") r := by
  simp only [Client.ListTransactionals, returnPtr_sent] at hr
  exact dispatched_of_doWithQuery env c _ _ _ _ _ r hr

theorem NewClient_apiKey (k : GoString) (urls : List GoString) :
    (NewClient k (urls.map WithBaseURL)).apiKey = k := by
  have h : ∀ (us : List GoString) (c0 : Client),
      ((us.map WithBaseURL).foldl (fun c opt => opt c) c0).apiKey = c0.apiKey := by
    intro us
    induction us with
    | nil => intro c0; rfl
    | cons u tl ih =>
      intro c0
      rw [List.map_cons, List.foldl_cons, ih]
      rfl
  exact h urls _

/-- C17. Every request an endpoint hands to the transport carries
`Authorization: Bearer ` followed by the client's key, also the two senders
with any idempotency key: the per-call headers of an idempotency key never
hold the key `Authorization`, and per-call headers without it leave the entry
alone.  A client built by `NewClient(k, WithBaseURL(..)...)` has key `k`.  The
probe uses method GET and the URL base plus `/api-key`; against a server
answering 200 with `{"success":true,"teamName":"Acme"}` it returns success
and team Acme after exactly that request. -/
theorem authorization_on_every_request (env : Env) (c : Client)
    (reqC : Option ContactRequest) (reqU : Option ContactUpdateRequest)
    (email userId : GoString) (reqD : Option ContactDeleteRequest)
    (reqP : Option ContactPropertyCreateRequest) (list : GoString)
    (reqE : Option EventRequest) (tokE : GoString) (reqT : Option TransactionalRequest)
    (tokT : GoString) (perPage : Int) (cursor : GoString) :
    (∀ r ∈ (c.GetAPIKey env).sent,
      lookupKey r.Header (lit "Authorization") = some (lit "Bearer " ++ c.apiKey) ∧
      r.Method = lit "GET" ∧ r.URL = c.baseURL ++ lit "/api-key") ∧
    (∀ r ∈ (c.CreateContact env reqC).sent,
      lookupKey r.Header (lit "Authorization") = some (lit "Bearer " ++ c.apiKey)) ∧
    (∀ r ∈ (c.UpdateContact env reqU).sent,
      lookupKey r.Header (lit "Authorization") = some (lit "Bearer " ++ c.apiKey)) ∧
    (∀ r ∈ (c.FindContact env email userId).sent,
      lookupKey r.Header (lit "Authorization") = some (lit "Bearer " ++ c.apiKey)) ∧
    (∀ r ∈ (c.DeleteContact env reqD).sent,
      lookupKey r.Header (lit "Authorization") = some (lit "Bearer " ++ c.apiKey)) ∧
    (∀ r ∈ (c.CreateContactProperty env reqP).sent,
      lookupKey r.Header (lit "Authorization") = some (lit "Bearer " ++ c.apiKey)) ∧
    (∀ r ∈ (c.ListContactProperties env list).sent,
      lookupKey r.Header (lit "Authorization") = some (lit "Bearer " ++ c.apiKey)) ∧
    (∀ r ∈ (c.GetDedicatedSendingIPs env).sent,
      lookupKey r.Header (lit "Authorization") = some (lit "Bearer " ++ c.apiKey)) ∧
    (∀ r ∈ (c.GetLists env).sent,
      lookupKey r.Header (lit "Authorization") = some (lit "Bearer " ++ c.apiKey)) ∧
    (∀ r ∈ (c.SendEvent env reqE tokE).sent,
      lookupKey r.Header (lit "Authorization") = some (lit "Bearer " ++ c.apiKey)) ∧
    (∀ r ∈ (c.SendTransactional env reqT tokT).sent,
      lookupKey r.Header (lit "Authorization") = some (lit "Bearer " ++ c.apiKey)) ∧
    (∀ r ∈ (c.ListTransactionals env perPage cursor).sent,
      lookupKey r.Header (lit "Authorization") = some (lit "Bearer " ++ c.apiKey)) ∧
    (∀ tok, lit "Authorization" ∉ keysOf (idempotencyHeaders tok)) ∧
    (∀ method path body headers, lit "Authorization" ∉ keysOf headers →
      lookupKey (c.buildRequest method path body
        (some { headers := headers, query := [] })).Header (lit "Authorization") =
        some (lit "Bearer " ++ c.apiKey)) ∧
    (∀ (k : GoString) (urls : List GoString),
      (NewClient k (urls.map WithBaseURL)).apiKey = k) ∧
    ((NewClient (lit "secret") [WithBaseURL (lit "https://example.com/")]).GetAPIKey
        (serverEnv 200 apiKeyBody) =
      .returned (some { Success := true, TeamName := lit "Acme" }) none
        [{ Method := lit "GET"
           URL := lit "https://example.com/api-key"
           Header := [(lit "Authorization", lit "Bearer secret"),
             (lit "Content-Type", lit "application/json")]
           Body := none }]) := by
  refine ⟨?_, ?_, ?_, ?_, ?_, ?_, ?_, ?_, ?_, ?_, ?_, ?_, ?_, ?_, NewClient_apiKey, ?_⟩
  · intro r hr
    refine ⟨dispatched_authorization c _ _ r (GetAPIKey_dispatched env c r hr), ?_⟩
    simp only [Client.GetAPIKey, returnPtr_sent] at hr
    rw [mem_sent_do env c _ _ _ _ _ r hr]
    exact ⟨rfl, rfl⟩
  · exact fun r hr => dispatched_authorization c _ _ r (CreateContact_dispatched env c _ r hr)
  · exact fun r hr => dispatched_authorization c _ _ r (UpdateContact_dispatched env c _ r hr)
  · exact fun r hr => dispatched_authorization c _ _ r (FindContact_dispatched env c _ _ r hr)
  · exact fun r hr => dispatched_authorization c _ _ r (DeleteContact_dispatched env c _ r hr)
  · exact fun r hr =>
      dispatched_authorization c _ _ r (CreateContactProperty_dispatched env c _ r hr)
  · exact fun r hr =>
      dispatched_authorization c _ _ r (ListContactProperties_dispatched env c _ r hr)
  · exact fun r hr =>
      dispatched_authorization c _ _ r (GetDedicatedSendingIPs_dispatched env c r hr)
  · exact fun r hr => dispatched_authorization c _ _ r (GetLists_dispatched env c r hr)
  · exact fun r hr => dispatched_authorization c _ _ r (SendEvent_dispatched env c _ _ r hr)
  · exact fun r hr =>
      dispatched_authorization c _ _ r (SendTransactional_dispatched env c _ _ r hr)
  · exact fun r hr =>
      dispatched_authorization c _ _ r (ListTransactionals_dispatched env c _ _ r hr)
  · intro tok
    rcases idempotencyHeaders_shape tok with h | ⟨x, h⟩
    · rw [h]
      simp [keysOf]
    · rw [h]
      simp only [keysOf, List.map_cons, List.map_nil, List.mem_singleton]
      decide
  · intro method path body headers hk
    rw [buildRequest_header, lookupKey_foldl_other _ _ _ hk,
      lookupKey_setKey_other _ _ _ _ (by decide), lookupKey_setKey_self]
  · rfl

/-- C20. Each endpoint method sends with one method and one path, whatever its
arguments: every request it hands to the transport has that method and the
URL base plus that path, followed by nothing or by `?` and a query string.
Listed in the order of `expectedEndpoints` these twelve pairs are that table,
and each of them is in use: against a server answering 200 every endpoint
sends one request. -/
theorem endpoints_use_expected_routes (env : Env) (c : Client)
    (reqC : Option ContactRequest) (reqU : Option ContactUpdateRequest)
    (email userId : GoString) (reqD : Option ContactDeleteRequest)
    (reqP : Option ContactPropertyCreateRequest) (list : GoString)
    (reqE : Option EventRequest) (tokE : GoString) (reqT : Option TransactionalRequest)
    (tokT : GoString) (perPage : Int) (cursor : GoString) :
    ((∀ r ∈ (c.GetAPIKey env).sent, c.routed (lit "GET", lit "/api-key") r) ∧
      (∀ r ∈ (c.CreateContact env reqC).sent, c.routed (lit "POST", lit "/contacts/create") r) ∧
      (∀ r ∈ (c.UpdateContact env reqU).sent, c.routed (lit "PUT", lit "/contacts/update") r) ∧
      (∀ r ∈ (c.FindContact env email userId).sent,
        c.routed (lit "GET", lit "/contacts/find") r) ∧
      (∀ r ∈ (c.DeleteContact env reqD).sent, c.routed (lit "POST", lit "/contacts/delete") r) ∧
      (∀ r ∈ (c.CreateContactProperty env reqP).sent,
        c.routed (lit "POST", lit "/contacts/properties") r) ∧
      (∀ r ∈ (c.ListContactProperties env list).sent,
        c.routed (lit "GET", lit "/contacts/properties") r) ∧
      (∀ r ∈ (c.GetDedicatedSendingIPs env).sent,
        c.routed (lit "GET", lit "/dedicated-sending-ips") r) ∧
      (∀ r ∈ (c.GetLists env).sent, c.routed (lit "GET", lit "/lists") r) ∧
      (∀ r ∈ (c.SendEvent env reqE tokE).sent, c.routed (lit "POST", lit "/events/send") r) ∧
      (∀ r ∈ (c.SendTransactional env reqT tokT).sent,
        c.routed (lit "POST", lit "/transactional") r) ∧
      (∀ r ∈ (c.ListTransactionals env perPage cursor).sent,
        c.routed (lit "GET", lit "/transactional") r)) ∧
    [(lit "GET", lit "/api-key"), (lit "POST", lit "/contacts/create"),
      (lit "PUT", lit "/contacts/update"), (lit "GET", lit "/contacts/find"),
      (lit "POST", lit "/contacts/delete"), (lit "POST", lit "/contacts/properties"),
      (lit "GET", lit "/contacts/properties"), (lit "GET", lit "/dedicated-sending-ips"),
      (lit "GET", lit "/lists"), (lit "POST", lit "/events/send"),
      (lit "POST", lit "/transactional"), (lit "GET", lit "/transactional")] =
      expectedEndpoints ∧
    ((sampleClient.GetAPIKey (serverEnv 200 [])).sent.length = 1 ∧
      (sampleClient.CreateContact (serverEnv 200 [])
        (some (contactRequest (lit "u@example.com") []))).sent.length = 1 ∧
      (sampleClient.UpdateContact (serverEnv 200 [])
        (some (contactUpdateRequest (lit "u@example.com") []))).sent.length = 1 ∧
      (sampleClient.FindContact (serverEnv 200 []) (lit "u@example.com") []).sent.length = 1 ∧
      (sampleClient.DeleteContact (serverEnv 200 [])
        (some { Email := lit "u@example.com", UserID := [] })).sent.length = 1 ∧
      (sampleClient.CreateContactProperty (serverEnv 200 [])
        (some { Name := lit "plan", Type' := lit "string" })).sent.length = 1 ∧
      (sampleClient.ListContactProperties (serverEnv 200 []) (lit "custom")).sent.length = 1 ∧
      (sampleClient.GetDedicatedSendingIPs (serverEnv 200 [])).sent.length = 1 ∧
      (sampleClient.GetLists (serverEnv 200 [])).sent.length = 1 ∧
      (sampleClient.SendEvent (serverEnv 200 [])
        (some (eventRequest (lit "signup") (lit "u@example.com") [])) []).sent.length = 1 ∧
      (sampleClient.SendTransactional (serverEnv 200 [])
        (some (transactionalRequest (lit "u@example.com") (lit "tmpl_1"))) []).sent.length = 1 ∧
      (sampleClient.ListTransactionals (serverEnv 200 []) 20 []).sent.length = 1) := by
  refine ⟨⟨?_, ?_, ?_, ?_, ?_, ?_, ?_, ?_, ?_, ?_, ?_, ?_⟩, rfl,
    by decide, by decide, by decide, by decide, by decide, by decide, by decide, by decide,
    by decide, by decide, by decide, by decide⟩
  · exact fun r hr => dispatched_routed c _ _ r (GetAPIKey_dispatched env c r hr)
  · exact fun r hr => dispatched_routed c _ _ r (CreateContact_dispatched env c _ r hr)
  · exact fun r hr => dispatched_routed c _ _ r (UpdateContact_dispatched env c _ r hr)
  · exact fun r hr => dispatched_routed c _ _ r (FindContact_dispatched env c _ _ r hr)
  · exact fun r hr => dispatched_routed c _ _ r (DeleteContact_dispatched env c _ r hr)
  · exact fun r hr => dispatched_routed c _ _ r (CreateContactProperty_dispatched env c _ r hr)
  · exact fun r hr => dispatched_routed c _ _ r (ListContactProperties_dispatched env c _ r hr)
  · exact fun r hr => dispatched_routed c _ _ r (GetDedicatedSendingIPs_dispatched env c r hr)
  · exact fun r hr => dispatched_routed c _ _ r (GetLists_dispatched env c r hr)
  · exact fun r hr => dispatched_routed c _ _ r (SendEvent_dispatched env c _ _ r hr)
  · exact fun r hr => dispatched_routed c _ _ r (SendTransactional_dispatched env c _ _ r hr)
  · exact fun r hr => dispatched_routed c _ _ r (ListTransactionals_dispatched env c _ _ r hr)

/-! ## The page size of `ListTransactionals` -/

theorem natDigits_digits (f n : Nat) (acc : Bytes) (h : ∀ b ∈ acc, 48 ≤ b ∧ b ≤ 57) :
    ∀ b ∈ natDigits f n acc, 48 ≤ b ∧ b ≤ 57 := by
  induction f generalizing n acc with
  | zero => exact h
  | succ f ih =>
    simp only [natDigits]
    split_ifs with h10
    · intro b hb
      rcases List.mem_cons.mp hb with rfl | hb
      · omega
      · exact h b hb
    · apply ih
      intro b hb
      rcases List.mem_cons.mp hb with rfl | hb
      · omega
      · exact h b hb

theorem queryEscape_unreserved (s : GoString) (h : ∀ b ∈ s, unreserved b = true) :
    queryEscape s = s := by
  induction s with
  | nil => rfl
  | cons b tl ih =>
    have hb := h b (List.mem_cons_self _ _)
    have htl := ih (fun x hx => h x (List.mem_cons_of_mem _ hx))
    simp only [queryEscape] at htl ⊢
    rw [List.flatMap_cons, htl]
    simp [hb]

theorem queryEscape_Itoa (n : Int) (h : 0 < n) : queryEscape (Itoa n) = Itoa n := by
  apply queryEscape_unreserved
  intro b hb
  cases n with
  | ofNat m =>
    have := natDigits_digits (m + 1) m [] (by simp) b hb
    simp [unreserved]
    omega
  | negSucc m => exact absurd h (by simp [Int.negSucc_lt_zero])

/-- C18, as stated, fails: a page size of 5 or 100 is transmitted as it is,
outside 10 to 50, and for page size 0 no `perPage` is transmitted at all, not
20. -/
theorem ListTransactionals_perPage_not_clamped :
    (sampleClient.ListTransactionals (serverEnv 200 []) 5 []).sent.map (fun r => r.URL) =
      [lit "https://app.loops.so/api/v1/transactional?perPage=5"] ∧
    (sampleClient.ListTransactionals (serverEnv 200 []) 100 []).sent.map (fun r => r.URL) =
      [lit "https://app.loops.so/api/v1/transactional?perPage=100"] ∧
    (sampleClient.ListTransactionals (serverEnv 200 []) 0 []).sent.map (fun r => r.URL) =
      [lit "https://app.loops.so/api/v1/transactional"] := by
  decide

/-- C18, amended. `ListTransactionals` passes the page size through: for every
positive `perPage` the query holds `perPage` with the decimal text of the
argument itself, inside or outside 10 to 50, and for `perPage` of 0 or less
the query holds no `perPage` (the client supplies no default).  The cursor is
in the query exactly when it is non-empty.  The request goes to the URL base
plus `/transactional`, followed by `?` and the encoded query when the query is
not empty; with a positive page size and no cursor that is
`/transactional?perPage=N`. -/
theorem ListTransactionals_query_passed_through (env : Env) (c : Client) (perPage : Int)
    (cursor : GoString) :
    c.ListTransactionals env perPage cursor =
      returnPtr ListTransactionalsResponse.zero
        (c.doWithQuery env (lit "GET") (lit "/transactional")
          ((if perPage > 0 then [(lit "perPage", Itoa perPage)] else []) ++
            (if cursor ≠ [] then [(lit "cursor", cursor)] else []))
          [] (some ListTransactionalsResponse.zero)) ∧
    (perPage > 0 →
      lookupKey ((if perPage > 0 then [(lit "perPage", Itoa perPage)] else []) ++
        (if cursor ≠ [] then [(lit "cursor", cursor)] else [])) (lit "perPage") =
        some (Itoa perPage) ∧
      parseNum (Itoa perPage) = some (perPage, [])) ∧
    (perPage ≤ 0 →
      lookupKey ((if perPage > 0 then [(lit "perPage", Itoa perPage)] else []) ++
        (if cursor ≠ [] then [(lit "cursor", cursor)] else [])) (lit "perPage") = none) ∧
    (cursor ≠ [] →
      lookupKey ((if perPage > 0 then [(lit "perPage", Itoa perPage)] else []) ++
        (if cursor ≠ [] then [(lit "cursor", cursor)] else [])) (lit "cursor") =
        some cursor) ∧
    (cursor = [] →
      lookupKey ((if perPage > 0 then [(lit "perPage", Itoa perPage)] else []) ++
        (if cursor ≠ [] then [(lit "cursor", cursor)] else [])) (lit "cursor") = none) ∧
    (∀ r ∈ (c.ListTransactionals env perPage cursor).sent,
      r.URL = c.baseURL ++ lit "/transactional" ++
        (if perPage ≤ 0 ∧ cursor = [] then []
         else lit "?" ++ encodeQuery
          ((if perPage > 0 then [(lit "perPage", Itoa perPage)] else []) ++
            (if cursor ≠ [] then [(lit "cursor", cursor)] else [])))) ∧
    (perPage > 0 → cursor = [] → ∀ r ∈ (c.ListTransactionals env perPage cursor).sent,
      r.URL = c.baseURL ++ lit "/transactional?perPage=" ++ Itoa perPage) := by
  have hkeys : lit "perPage" ≠ lit "cursor" := by decide
  have hkeys' : lit "cursor" ≠ lit "perPage" := by decide
  have hdef : c.ListTransactionals env perPage cursor =
      returnPtr ListTransactionalsResponse.zero
        (c.doWithQuery env (lit "GET") (lit "/transactional")
          ((if perPage > 0 then [(lit "perPage", Itoa perPage)] else []) ++
            (if cursor ≠ [] then [(lit "cursor", cursor)] else []))
          [] (some ListTransactionalsResponse.zero)) := by
    by_cases hp : perPage > 0 <;> by_cases hc : cursor = [] <;>
      simp [Client.ListTransactionals, hp, hc, setKey, hkeys]
  have hurl : ∀ r ∈ (c.ListTransactionals env perPage cursor).sent,
      r.URL = c.baseURL ++ lit "/transactional" ++
        (if perPage ≤ 0 ∧ cursor = [] then []
         else lit "?" ++ encodeQuery
          ((if perPage > 0 then [(lit "perPage", Itoa perPage)] else []) ++
            (if cursor ≠ [] then [(lit "cursor", cursor)] else []))) := by
    intro r hr
    rw [hdef, returnPtr_sent] at hr
    unfold Client.doWithQuery at hr
    have h := mem_sent_do env c _ _ _ _ _ r hr
    rw [h]
    by_cases hp : perPage > 0 <;> by_cases hc : cursor = []
    · have hp' : ¬ perPage ≤ 0 := by omega
      simp [Client.buildRequest, hp, hc, hp']
    · have hp' : ¬ perPage ≤ 0 := by omega
      simp [Client.buildRequest, hp, hc, hp']
    · have hp' : perPage ≤ 0 := by omega
      simp [Client.buildRequest, hp, hc, hp']
    · have hp' : perPage ≤ 0 := by omega
      simp [Client.buildRequest, hp, hc, hp']
  refine ⟨hdef, ?_, ?_, ?_, ?_, hurl, ?_⟩
  · intro hp
    refine ⟨?_, parseNum_Itoa perPage⟩
    simp [hp, lookupKey]
  · intro hp
    have hp' : ¬ perPage > 0 := by omega
    by_cases hc : cursor = []
    · simp [hp', hc, lookupKey]
    · simp [hp', hc, lookupKey, hkeys']
  · intro hc
    by_cases hp : perPage > 0
    · simp [hp, hc, lookupKey, hkeys]
    · simp [hp, hc, lookupKey]
  · intro hc
    by_cases hp : perPage > 0
    · simp [hp, hc, lookupKey, hkeys]
    · simp [hp, hc, lookupKey]
  · intro hp hc r hr
    have hp' : ¬ (perPage ≤ 0 ∧ cursor = []) := by omega
    have hk : queryEscape (lit "perPage") = lit "perPage" := by decide
    have hq : lit "?" ++ (lit "perPage" ++ 61 :: Itoa perPage) =
        lit "?perPage=" ++ Itoa perPage := by
      have : lit "?perPage=" = lit "?" ++ (lit "perPage" ++ [61]) := by decide
      rw [this]
      simp only [List.append_assoc, List.singleton_append]
    have hpath : lit "/transactional?perPage=" = lit "/transactional" ++ lit "?perPage=" := by
      decide
    rw [hurl r hr, if_neg hp']
    simp only [hp, hc, if_true, ne_eq, not_true_eq_false, if_false, List.append_nil,
      encodeQuery, List.foldr, insertSorted, joinPairs, hk, queryEscape_Itoa perPage hp, hq,
      hpath, List.append_assoc]

/-! ## Result or error -/

theorem validationError_exactlyOne {R : Type} (msg : GoString) :
    (validationError msg : Call R).exactlyOne :=
  ⟨none, _, [], rfl, by simp⟩

theorem returnPtr_exactlyOne {R : Type} (out : R) (d : DoResult R) :
    (returnPtr out d).exactlyOne := by
  cases h : d.err with
  | none => exact ⟨some (d.result.getD out), none, d.sent, by simp [returnPtr, h], by simp⟩
  | some e => exact ⟨none, some e, d.sent, by simp [returnPtr, h], by simp⟩

theorem returnSlice_notBoth {R : Type} (d : DoResult (Option (List R))) :
    (returnSlice d).notBoth := by
  cases h : d.err with
  | none => exact ⟨d.result.getD none, none, d.sent, by simp [returnSlice, h], by simp⟩
  | some e => exact ⟨none, some e, d.sent, by simp [returnSlice, h], by simp⟩

theorem error_exactlyOne {R : Type} (e : GoError) :
    (Call.returned none (some e) [] : Call R).exactlyOne :=
  ⟨none, some e, [], rfl, by simp⟩

/-- A slice variable decodes to nil only from `null`. -/
theorem decodeSlice_nil {α : Type} (zero : α) (elem : JSON → α → Except JSONError α) (j : JSON)
    (cur : Option (List α)) : decodeSlice zero elem j cur = .ok none ↔ j = .null := by
  cases j with
  | null => simp [decodeSlice]
  | arr xs =>
    simp only [decodeSlice, reduceCtorEq, iff_false]
    cases h : xs.mapM (fun x => elem x zero) with
    | ok l => simp [Except.map]
    | error e => simp [Except.map]
  | bool b => simp [decodeSlice]
  | num n => simp [decodeSlice]
  | str s => simp [decodeSlice]
  | obj kvs => simp [decodeSlice]

/-- An endpoint that returns its slice returns neither a result nor an error
exactly when the answer has a status below 400 and a body that is empty or
the JSON text `null`. -/
theorem returnSlice_neither {R : Type} [inst : GoUnmarshal (Option (List R))] (env : Env)
    (c : Client) (method path : GoString) (body : Bytes) (opts : Option doOpts)
    (hinst : ∀ j, inst.fromJSON j none = .ok none ↔ j = .null)
    (r : Request) (resp : Response) (slurp : Bytes)
    (hsent : (returnSlice (c.do' env method path body
      (some (none : Option (List R))) opts)).sent = [r])
    (hresp : env.roundTrip r = .ok resp) (hbody : resp.Body = .ok slurp) :
    ((returnSlice (c.do' env method path body (some (none : Option (List R))) opts)).err = none ∧
      (returnSlice (c.do' env method path body (some (none : Option (List R))) opts)).result
        = none) ↔
    (resp.StatusCode < 400 ∧ (slurp = [] ∨ env.json.decode slurp = some .null)) := by
  rw [returnSlice_sent] at hsent
  rw [returnSlice_err]
  rcases do_shape env c method path body (some (none : Option (List R))) opts
    with ⟨h0, -, -⟩ | ⟨h1, hnr⟩
  · rw [h0] at hsent
    cases hsent
  · rw [h1] at hsent
    cases hsent
    by_cases hs : resp.StatusCode ≥ 400
    · have hlt : ¬ resp.StatusCode < 400 := by omega
      simp [Client.do', hnr, hresp, hbody, hs, hlt]
    · have hlt : resp.StatusCode < 400 := by omega
      by_cases he : slurp = []
      · subst he
        simp [Client.do', returnSlice, hnr, hresp, hbody, hs, hlt, Call.result]
      · have hpos : slurp.length > 0 := List.length_pos.mpr he
        have hpos' : 0 < slurp.length := hpos
        cases hd : env.json.decode slurp with
        | none =>
          simp [Client.do', returnSlice, hnr, hresp, hbody, hs, hlt, he, hpos', jsonUnmarshal, hd]
        | some j =>
          cases hf : inst.fromJSON j none with
          | error e =>
            have hj : j ≠ .null := fun h => by
              rw [(hinst j).mpr h] at hf
              cases hf
            simp [Client.do', returnSlice, hnr, hresp, hbody, hs, hlt, he, hpos', jsonUnmarshal,
              hd, hf, hj]
          | ok a =>
            cases a with
            | none =>
              have hj : j = .null := (hinst j).mp hf
              subst hj
              simp [Client.do', returnSlice, hnr, hresp, hbody, hs, hlt, he, hpos',
                jsonUnmarshal, hd, hf, Call.result]
            | some l =>
              have hj : j ≠ .null := fun h => by
                rw [(hinst j).mpr h] at hf
                cases hf
              simp [Client.do', returnSlice, hnr, hresp, hbody, hs, hlt, he, hpos',
                jsonUnmarshal, hd, hf, hj, Call.result]

/-- After a response below status 400 with an empty body `do` returns no error
and leaves the result as it was. -/
theorem do_empty_body {α : Type} [GoUnmarshal α] (env : Env) (c : Client)
    (method path : GoString) (body : Bytes) (result : Option α) (opts : Option doOpts)
    (r : Request) (resp : Response)
    (hsent : (c.do' env method path body result opts).sent = [r])
    (hresp : env.roundTrip r = .ok resp) (hbody : resp.Body = .ok [])
    (hstatus : resp.StatusCode < 400) :
    (c.do' env method path body result opts).err = none ∧
    (c.do' env method path body result opts).result = result := by
  have hns : ¬ resp.StatusCode ≥ 400 := by omega
  rcases do_shape env c method path body result opts with ⟨h0, -, -⟩ | ⟨h1, hnr⟩
  · rw [h0] at hsent
    cases hsent
  · rw [h1] at hsent
    cases hsent
    cases result with
    | none => simp only [Client.do', hnr, hresp, hbody, hns, if_false, and_self]
    | some cur =>
      simp only [Client.do', hnr, hresp, hbody, hns, if_false, List.length_nil,
        gt_iff_lt, lt_self_iff_false, and_self]

theorem returnPtr_zeroOnEmpty {R : Type} [GoUnmarshal R] (env : Env) (c : Client)
    (method path : GoString) (body : Bytes) (out : R) (opts : Option doOpts) :
    (returnPtr out (c.do' env method path body (some out) opts)).zeroOnEmpty env (some out) := by
  intro r resp hsent hresp hbody hstatus
  rw [returnPtr_sent] at hsent
  obtain ⟨he, hr⟩ := do_empty_body env c method path body (some out) opts r resp hsent hresp
    hbody hstatus
  simp only [returnPtr, he, hr, Call.err, Call.result, Option.getD_some, and_self]

theorem returnSlice_zeroOnEmpty {R : Type} [GoUnmarshal (Option (List R))] (env : Env)
    (c : Client) (method path : GoString) (body : Bytes) (opts : Option doOpts) :
    (returnSlice (c.do' env method path body (some (none : Option (List R))) opts)).zeroOnEmpty
      env none := by
  intro r resp hsent hresp hbody hstatus
  rw [returnSlice_sent] at hsent
  obtain ⟨he, hr⟩ := do_empty_body env c method path body (some none) opts r resp hsent hresp
    hbody hstatus
  simp only [returnSlice, he, hr, Call.err, Call.result, Option.getD_some, and_self]

theorem unsent_zeroOnEmpty {R : Type} (x : Call R) (env : Env) (zero : Option R)
    (h : x.sent = []) : x.zeroOnEmpty env zero := by
  intro r resp hsent
  rw [h] at hsent
  cases hsent

theorem merged_exactlyOne {α R : Type} [GoMarshal α] [GoUnmarshal R] (env : Env) (c : Client)
    (hlib : env.json.readsBack) (v : α) (fields extra : Entries)
    (hv : GoMarshal.toJSON v = .ok (.obj fields)) (out : R) (method path : GoString)
    (opts : Option doOpts) :
    (match mergeBody env.json v extra with
      | .panic => Call.panicked
      | .err e => .returned none (some e) []
      | .ok body => returnPtr out (c.do' env method path body (some out) opts)).exactlyOne := by
  rcases mergeBody_object_returns env.json hlib v fields extra hv with ⟨b, h⟩ | ⟨e, h⟩
  · rw [h]
    exact returnPtr_exactlyOne _ _
  · rw [h]
    exact error_exactlyOne _

theorem merged_zeroOnEmpty {R : Type} [GoUnmarshal R] (env : Env) (c : Client)
    (x : Res Bytes) (out : R) (method path : GoString) (opts : Option doOpts) :
    (match x with
      | .panic => Call.panicked
      | .err e => .returned none (some e) []
      | .ok body => returnPtr out (c.do' env method path body (some out) opts)).zeroOnEmpty
      env (some out) := by
  cases x with
  | panic => exact unsent_zeroOnEmpty _ _ _ rfl
  | err e => exact unsent_zeroOnEmpty _ _ _ rfl
  | ok body => exact returnPtr_zeroOnEmpty env c method path body out opts

/-- C12. With a codec that reads back as `encoding/json` does, every endpoint
call returns, and with a non-nil error its result is nil.  The eight endpoints
that return a pointer return exactly one of result and error: with a nil error
the pointer is non-nil.  The four endpoints that return a slice return with a
nil error the slice the response was decoded into, which is a value of the
result type also when it is nil.  After a response below status 400 with an
empty body every endpoint returns no error and the zero value of its result:
the pointer endpoints a pointer to the zero struct, the slice endpoints the
nil slice.  A slice endpoint returns the nil slice without an error exactly
after a response below status 400 whose body is empty or the JSON text
`null`. -/
theorem result_and_error_never_both (env : Env) (c : Client) (hlib : env.json.readsBack)
    (reqC : Option ContactRequest) (reqU : Option ContactUpdateRequest)
    (email userId : GoString) (reqD : Option ContactDeleteRequest)
    (reqP : Option ContactPropertyCreateRequest) (list : GoString)
    (reqE : Option EventRequest) (tokE : GoString) (reqT : Option TransactionalRequest)
    (tokT : GoString) (perPage : Int) (cursor : GoString) :
    ((c.GetAPIKey env).exactlyOne ∧
      (c.CreateContact env reqC).exactlyOne ∧
      (c.UpdateContact env reqU).exactlyOne ∧
      (c.DeleteContact env reqD).exactlyOne ∧
      (c.CreateContactProperty env reqP).exactlyOne ∧
      (c.SendEvent env reqE tokE).exactlyOne ∧
      (c.SendTransactional env reqT tokT).exactlyOne ∧
      (c.ListTransactionals env perPage cursor).exactlyOne) ∧
    ((c.FindContact env email userId).notBoth ∧
      (c.ListContactProperties env list).notBoth ∧
      (c.GetLists env).notBoth ∧
      (c.GetDedicatedSendingIPs env).notBoth) ∧
    ((c.GetAPIKey env).zeroOnEmpty env (some { Success := false, TeamName := [] }) ∧
      (c.CreateContact env reqC).zeroOnEmpty env (some { Success := false, ID := [] }) ∧
      (c.UpdateContact env reqU).zeroOnEmpty env (some { Success := false, ID := [] }) ∧
      (c.DeleteContact env reqD).zeroOnEmpty env (some { Success := false, Message := [] }) ∧
      (c.CreateContactProperty env reqP).zeroOnEmpty env (some { Success := false }) ∧
      (c.SendEvent env reqE tokE).zeroOnEmpty env (some { Success := false }) ∧
      (c.SendTransactional env reqT tokT).zeroOnEmpty env (some { Success := false }) ∧
      (c.ListTransactionals env perPage cursor).zeroOnEmpty env
        (some ListTransactionalsResponse.zero) ∧
      (c.FindContact env email userId).zeroOnEmpty env none ∧
      (c.ListContactProperties env list).zeroOnEmpty env none ∧
      (c.GetLists env).zeroOnEmpty env none ∧
      (c.GetDedicatedSendingIPs env).zeroOnEmpty env none) ∧
    (∀ r resp slurp, env.roundTrip r = .ok resp → resp.Body = .ok slurp →
      ((c.FindContact env email userId).sent = [r] →
        (((c.FindContact env email userId).err = none ∧
            (c.FindContact env email userId).result = none) ↔
          (resp.StatusCode < 400 ∧ (slurp = [] ∨ env.json.decode slurp = some .null)))) ∧
      ((c.ListContactProperties env list).sent = [r] →
        (((c.ListContactProperties env list).err = none ∧
            (c.ListContactProperties env list).result = none) ↔
          (resp.StatusCode < 400 ∧ (slurp = [] ∨ env.json.decode slurp = some .null)))) ∧
      ((c.GetLists env).sent = [r] →
        (((c.GetLists env).err = none ∧ (c.GetLists env).result = none) ↔
          (resp.StatusCode < 400 ∧ (slurp = [] ∨ env.json.decode slurp = some .null)))) ∧
      ((c.GetDedicatedSendingIPs env).sent = [r] →
        (((c.GetDedicatedSendingIPs env).err = none ∧
            (c.GetDedicatedSendingIPs env).result = none) ↔
          (resp.StatusCode < 400 ∧ (slurp = [] ∨ env.json.decode slurp = some .null))))) := by
  refine ⟨⟨?_, ?_, ?_, ?_, ?_, ?_, ?_, ?_⟩, ⟨?_, ?_, ?_, ?_⟩,
    ⟨?_, ?_, ?_, ?_, ?_, ?_, ?_, ?_, ?_, ?_, ?_, ?_⟩, ?_⟩
  · exact returnPtr_exactlyOne _ _
  · cases reqC with
    | none => exact validationError_exactlyOne _
    | some q =>
      by_cases h : q.Email = []
      · simp only [Client.CreateContact, if_pos h]
        exact validationError_exactlyOne _
      · simp only [Client.CreateContact, if_neg h]
        exact merged_exactlyOne env c hlib (some q) _ q.Extra rfl _ _ _ _
  · cases reqU with
    | none => exact validationError_exactlyOne _
    | some q =>
      by_cases h : q.Email = [] ∧ q.UserID = []
      · simp only [Client.UpdateContact, if_pos h]
        exact validationError_exactlyOne _
      · simp only [Client.UpdateContact, if_neg h]
        exact merged_exactlyOne env c hlib (some q) _ q.Extra rfl _ _ _ _
  · cases reqD with
    | none => exact validationError_exactlyOne _
    | some q =>
      by_cases h : decide (q.Email ≠ []) = decide (q.UserID ≠ [])
      · simp only [Client.DeleteContact, if_pos h]
        exact validationError_exactlyOne _
      · simp only [Client.DeleteContact, if_neg h, jsonMarshal, GoMarshal.toJSON]
        exact returnPtr_exactlyOne _ _
  · cases reqP with
    | none => exact validationError_exactlyOne _
    | some q =>
      by_cases h : q.Name = [] ∨ q.Type' = []
      · simp only [Client.CreateContactProperty, if_pos h]
        exact validationError_exactlyOne _
      · simp only [Client.CreateContactProperty, if_neg h, jsonMarshal, GoMarshal.toJSON]
        exact returnPtr_exactlyOne _ _
  · cases reqE with
    | none => exact validationError_exactlyOne _
    | some q =>
      by_cases hn : q.EventName = []
      · simp only [Client.SendEvent, if_pos hn]
        exact validationError_exactlyOne _
      · by_cases h : q.Email = [] ∧ q.UserID = []
        · simp only [Client.SendEvent, if_neg hn, if_pos h]
          exact validationError_exactlyOne _
        · simp only [Client.SendEvent, if_neg hn, if_neg h, Client.doWithHeaders]
          exact merged_exactlyOne env c hlib (some q) _ q.Extra rfl _ _ _ _
  · cases reqT with
    | none => exact validationError_exactlyOne _
    | some q =>
      by_cases h : q.Email = [] ∨ q.TransactionalID = []
      · simp only [Client.SendTransactional, if_pos h]
        exact validationError_exactlyOne _
      · simp only [Client.SendTransactional, if_neg h, jsonMarshal, GoMarshal.toJSON]
        exact returnPtr_exactlyOne _ _
  · exact returnPtr_exactlyOne _ _
  · by_cases h : (email ≠ [] ∧ userId ≠ []) ∨ (email = [] ∧ userId = [])
    · simp only [Client.FindContact, if_pos h]
      exact ⟨none, _, [], rfl, fun _ => rfl⟩
    · simp only [Client.FindContact, if_neg h]
      exact returnSlice_notBoth _
  · exact returnSlice_notBoth _
  · exact returnSlice_notBoth _
  · exact returnSlice_notBoth _
  · exact returnPtr_zeroOnEmpty env c _ _ _ _ _
  · cases reqC with
    | none => exact unsent_zeroOnEmpty _ _ _ rfl
    | some q =>
      by_cases h : q.Email = []
      · simp only [Client.CreateContact, if_pos h]
        exact unsent_zeroOnEmpty _ _ _ rfl
      · simp only [Client.CreateContact, if_neg h]
        exact merged_zeroOnEmpty env c _ _ _ _ _
  · cases reqU with
    | none => exact unsent_zeroOnEmpty _ _ _ rfl
    | some q =>
      by_cases h : q.Email = [] ∧ q.UserID = []
      · simp only [Client.UpdateContact, if_pos h]
        exact unsent_zeroOnEmpty _ _ _ rfl
      · simp only [Client.UpdateContact, if_neg h]
        exact merged_zeroOnEmpty env c _ _ _ _ _
  · cases reqD with
    | none => exact unsent_zeroOnEmpty _ _ _ rfl
    | some q =>
      by_cases h : decide (q.Email ≠ []) = decide (q.UserID ≠ [])
      · simp only [Client.DeleteContact, if_pos h]
        exact unsent_zeroOnEmpty _ _ _ rfl
      · simp only [Client.DeleteContact, if_neg h]
        cases jsonMarshal env.json (some q) with
        | error e => exact unsent_zeroOnEmpty _ _ _ rfl
        | ok body => exact returnPtr_zeroOnEmpty env c _ _ _ _ _
  · cases reqP with
    | none => exact unsent_zeroOnEmpty _ _ _ rfl
    | some q =>
      by_cases h : q.Name = [] ∨ q.Type' = []
      · simp only [Client.CreateContactProperty, if_pos h]
        exact unsent_zeroOnEmpty _ _ _ rfl
      · simp only [Client.CreateContactProperty, if_neg h]
        cases jsonMarshal env.json (some q) with
        | error e => exact unsent_zeroOnEmpty _ _ _ rfl
        | ok body => exact returnPtr_zeroOnEmpty env c _ _ _ _ _
  · cases reqE with
    | none => exact unsent_zeroOnEmpty _ _ _ rfl
    | some q =>
      by_cases hn : q.EventName = []
      · simp only [Client.SendEvent, if_pos hn]
        exact unsent_zeroOnEmpty _ _ _ rfl
      · by_cases h : q.Email = [] ∧ q.UserID = []
        · simp only [Client.SendEvent, if_neg hn, if_pos h]
          exact unsent_zeroOnEmpty _ _ _ rfl
        · simp only [Client.SendEvent, if_neg hn, if_neg h, Client.doWithHeaders]
          exact merged_zeroOnEmpty env c _ _ _ _ _
  · cases reqT with
    | none => exact unsent_zeroOnEmpty _ _ _ rfl
    | some q =>
      by_cases h : q.Email = [] ∨ q.TransactionalID = []
      · simp only [Client.SendTransactional, if_pos h]
        exact unsent_zeroOnEmpty _ _ _ rfl
      · simp only [Client.SendTransactional, if_neg h, Client.doWithHeaders]
        cases jsonMarshal env.json (some q) with
        | error e => exact unsent_zeroOnEmpty _ _ _ rfl
        | ok body => exact returnPtr_zeroOnEmpty env c _ _ _ _ _
  · exact returnPtr_zeroOnEmpty env c _ _ _ _ _
  · by_cases h : (email ≠ [] ∧ userId ≠ []) ∨ (email = [] ∧ userId = [])
    · simp only [Client.FindContact, if_pos h]
      exact unsent_zeroOnEmpty _ _ _ rfl
    · simp only [Client.FindContact, if_neg h]
      exact returnSlice_zeroOnEmpty env c _ _ _ _
  · exact returnSlice_zeroOnEmpty env c _ _ _ _
  · exact returnSlice_zeroOnEmpty env c _ _ _ _
  · exact returnSlice_zeroOnEmpty env c _ _ _ _
  · intro r resp slurp hresp hbody
    refine ⟨?_, ?_, ?_, ?_⟩
    · intro hsent
      by_cases h : (email ≠ [] ∧ userId ≠ []) ∨ (email = [] ∧ userId = [])
      · simp only [Client.FindContact, if_pos h] at hsent
        cases hsent
      · simp only [Client.FindContact, if_neg h, Client.doWithQuery] at hsent ⊢
        exact returnSlice_neither env c _ _ _ _ (fun j => decodeSlice_nil _ _ j none) r resp slurp hsent
          hresp hbody
    · intro hsent
      simp only [Client.ListContactProperties, Client.doWithQuery] at hsent ⊢
      exact returnSlice_neither env c _ _ _ _ (fun j => decodeSlice_nil _ _ j none) r resp slurp hsent
        hresp hbody
    · intro hsent
      exact returnSlice_neither env c _ _ _ _ (fun j => decodeSlice_nil _ _ j none) r resp slurp hsent
        hresp hbody
    · intro hsent
      exact returnSlice_neither env c _ _ _ _ (fun j => decodeSlice_nil _ _ j none) r resp slurp hsent
        hresp hbody

/-- C12, against a server that answers 200 with an empty body: every call
returns no error and the zero value of its result. -/
theorem result_and_error_never_both_witness :
    ((sampleClient.GetAPIKey (serverEnv 200 [])).exactlyOne ∧
      (sampleClient.CreateContact (serverEnv 200 [])
        (some (contactRequest (lit "u@example.com") [(lit "plan", JSON.int 2)]))).exactlyOne ∧
      (sampleClient.UpdateContact (serverEnv 200 [])
        (some (contactUpdateRequest (lit "u@example.com") []))).exactlyOne ∧
      (sampleClient.DeleteContact (serverEnv 200 [])
        (some { Email := lit "u@example.com", UserID := [] })).exactlyOne ∧
      (sampleClient.CreateContactProperty (serverEnv 200 [])
        (some { Name := lit "plan", Type' := lit "string" })).exactlyOne ∧
      (sampleClient.SendEvent (serverEnv 200 [])
        (some (eventRequest (lit "signup") (lit "u@example.com") [])) []).exactlyOne ∧
      (sampleClient.SendTransactional (serverEnv 200 [])
        (some (transactionalRequest (lit "u@example.com") (lit "tmpl_1"))) []).exactlyOne ∧
      (sampleClient.ListTransactionals (serverEnv 200 []) 20 []).exactlyOne) ∧
    ((sampleClient.FindContact (serverEnv 200 []) (lit "u@example.com") []).notBoth ∧
      (sampleClient.ListContactProperties (serverEnv 200 []) (lit "custom")).notBoth ∧
      (sampleClient.GetLists (serverEnv 200 [])).notBoth ∧
      (sampleClient.GetDedicatedSendingIPs (serverEnv 200 [])).notBoth) ∧
    ((sampleClient.GetAPIKey (serverEnv 200 [])).err = none ∧
      (sampleClient.GetAPIKey (serverEnv 200 [])).result =
        some { Success := false, TeamName := [] }) ∧
    ((sampleClient.GetLists (serverEnv 200 [])).err = none ∧
      (sampleClient.GetLists (serverEnv 200 [])).result = none) :=
  ⟨(result_and_error_never_both (serverEnv 200 []) sampleClient goJSON_readsBack
      (some (contactRequest (lit "u@example.com") [(lit "plan", JSON.int 2)]))
      (some (contactUpdateRequest (lit "u@example.com") []))
      (lit "u@example.com") [] (some { Email := lit "u@example.com", UserID := [] })
      (some { Name := lit "plan", Type' := lit "string" }) (lit "custom")
      (some (eventRequest (lit "signup") (lit "u@example.com") [])) []
      (some (transactionalRequest (lit "u@example.com") (lit "tmpl_1"))) [] 20 []).1,
    (result_and_error_never_both (serverEnv 200 []) sampleClient goJSON_readsBack
      (some (contactRequest (lit "u@example.com") [(lit "plan", JSON.int 2)]))
      (some (contactUpdateRequest (lit "u@example.com") []))
      (lit "u@example.com") [] (some { Email := lit "u@example.com", UserID := [] })
      (some { Name := lit "plan", Type' := lit "string" }) (lit "custom")
      (some (eventRequest (lit "signup") (lit "u@example.com") [])) []
      (some (transactionalRequest (lit "u@example.com") (lit "tmpl_1"))) [] 20 []).2.1,
    (result_and_error_never_both (serverEnv 200 []) sampleClient goJSON_readsBack
      (some (contactRequest (lit "u@example.com") [(lit "plan", JSON.int 2)]))
      (some (contactUpdateRequest (lit "u@example.com") []))
      (lit "u@example.com") [] (some { Email := lit "u@example.com", UserID := [] })
      (some { Name := lit "plan", Type' := lit "string" }) (lit "custom")
      (some (eventRequest (lit "signup") (lit "u@example.com") [])) []
      (some (transactionalRequest (lit "u@example.com") (lit "tmpl_1"))) [] 20 []).2.2.1.1
      _ { StatusCode := 200, Body := .ok [] } rfl rfl rfl (by decide),
    (result_and_error_never_both (serverEnv 200 []) sampleClient goJSON_readsBack
      (some (contactRequest (lit "u@example.com") [(lit "plan", JSON.int 2)]))
      (some (contactUpdateRequest (lit "u@example.com") []))
      (lit "u@example.com") [] (some { Email := lit "u@example.com", UserID := [] })
      (some { Name := lit "plan", Type' := lit "string" }) (lit "custom")
      (some (eventRequest (lit "signup") (lit "u@example.com") [])) []
      (some (transactionalRequest (lit "u@example.com") (lit "tmpl_1"))) [] 20
      []).2.2.1.2.2.2.2.2.2.2.2.2.2.1
      _ { StatusCode := 200, Body := .ok [] } rfl rfl rfl (by decide)⟩

/-! ## The body composer on values that are not objects -/

/-- C21, as stated, fails: for a value that marshals to `null` (a nil
`*ContactRequest`, a nil dynamic value) and the extra map `x: 1` the call
panics, since the decoded map variable stays nil and the loop assigns into it.
An array and a scalar are refused with the decoder's error. -/
theorem mergeBody_null_panics :
    mergeBody goJSON (none : Option ContactRequest) [(lit "x", JSON.int 1)] = .panic ∧
    mergeBody goJSON JSON.null [(lit "x", JSON.int 1)] = .panic ∧
    mergeBody goJSON (JSON.arr [JSON.int 1]) [(lit "x", JSON.int 1)] =
      .err (.json (.typeError [])) ∧
    mergeBody goJSON (JSON.int 7) [(lit "x", JSON.int 1)] = .err (.json (.typeError [])) ∧
    mergeBody goJSON (JSON.str (lit "s")) [(lit "x", JSON.int 1)] =
      .err (.json (.typeError [])) :=
  ⟨by rw [mergeBody_spec goJSON goJSON_readsBack _ .null _ (by simp) rfl]; rfl,
    by rw [mergeBody_spec goJSON goJSON_readsBack _ .null _ (by simp) rfl]; rfl,
    by rw [mergeBody_spec goJSON goJSON_readsBack _ (.arr [JSON.int 1]) _ (by simp) rfl]; rfl,
    by rw [mergeBody_spec goJSON goJSON_readsBack _ (JSON.int 7) _ (by simp) rfl]; rfl,
    by rw [mergeBody_spec goJSON goJSON_readsBack _ (.str (lit "s")) _ (by simp) rfl]; rfl⟩

/-- C21, amended. With a codec that reads back as `encoding/json` does,
`mergeBody` returns the merged bytes or a JSON error for every value and every
extra map, except for a value that marshals to `null` with a non-empty extra
map, where the assignment into the nil map panics.  A marshalling error is
passed on; with an empty extra map the marshalled bytes are returned as they
are; a value nested deeper than the decoder allows gives a syntax error, an
array or a scalar the decoder's type error.  The values the endpoints pass,
non-nil requests, marshal to objects: for them there is no panic. -/
theorem mergeBody_total_unless_null {α : Type} [GoMarshal α] (lib : JSONCodec)
    (hlib : lib.readsBack) (v : α) (extra : Entries) :
    (∀ e, GoMarshal.toJSON v = .error e → mergeBody lib v extra = .err (.json e)) ∧
    (∀ j, GoMarshal.toJSON v = .ok j → extra = [] → mergeBody lib v extra = .ok (lib.encode j)) ∧
    (∀ j, GoMarshal.toJSON v = .ok j → j ≠ .null →
      (∃ out, mergeBody lib v extra = .ok out) ∨ (∃ e, mergeBody lib v extra = .err (.json e))) ∧
    (∀ j, GoMarshal.toJSON v = .ok j → extra ≠ [] → ¬ j.depth ≤ maxNestingDepth →
      mergeBody lib v extra = .err (.json .syntaxError)) ∧
    (∀ j, GoMarshal.toJSON v = .ok j → extra ≠ [] → j.depth ≤ maxNestingDepth →
      j ≠ .null → (∀ fields, j ≠ .obj fields) →
      mergeBody lib v extra = .err (.json (.typeError []))) ∧
    (GoMarshal.toJSON v = .ok .null → extra ≠ [] → mergeBody lib v extra = .panic) ∧
    ((∀ r : ContactRequest, mergeBody lib (some r) extra ≠ .panic) ∧
      (∀ r : ContactUpdateRequest, mergeBody lib (some r) extra ≠ .panic) ∧
      (∀ r : EventRequest, mergeBody lib (some r) extra ≠ .panic)) := by
  refine ⟨?_, ?_, ?_, ?_, ?_, ?_,
    fun r => mergeBody_no_panic lib hlib (some r) _ extra rfl,
    fun r => mergeBody_no_panic lib hlib (some r) _ extra rfl,
    fun r => mergeBody_no_panic lib hlib (some r) _ extra rfl⟩
  · intro e he
    by_cases hlen : extra.length = 0
    · simp only [mergeBody, if_pos hlen, jsonMarshal, he, Res.ofExcept]
    · simp only [mergeBody, if_neg hlen, jsonMarshal, he]
  · intro j hj he
    subst he
    exact mergeBody_empty lib v j hj
  · intro j hj hnull
    by_cases hne : extra = []
    · subst hne
      exact Or.inl ⟨_, mergeBody_empty lib v j hj⟩
    · rw [mergeBody_spec lib hlib v j extra hne hj]
      split_ifs
      · cases j with
        | null => exact absurd rfl hnull
        | obj fields =>
          simp only []
          cases genericMembers (toValidMembers fields) with
          | error e => exact Or.inr ⟨e, rfl⟩
          | ok l => exact Or.inl ⟨_, rfl⟩
        | bool b => exact Or.inr ⟨_, rfl⟩
        | num x => exact Or.inr ⟨_, rfl⟩
        | str x => exact Or.inr ⟨_, rfl⟩
        | arr xs => exact Or.inr ⟨_, rfl⟩
      · exact Or.inr ⟨_, rfl⟩
  · intro j hj hne hdep
    rw [mergeBody_spec lib hlib v j extra hne hj, if_neg hdep]
  · intro j hj hne hdep hnull hobj
    rw [mergeBody_spec lib hlib v j extra hne hj, if_pos hdep]
    cases j with
    | null => exact absurd rfl hnull
    | obj fields => exact absurd rfl (hobj fields)
    | bool b => rfl
    | num x => rfl
    | str x => rfl
    | arr xs => rfl
  · intro hj hne
    rw [mergeBody_spec lib hlib v _ extra hne hj, if_pos (by decide)]

/-- C21, amended, with the reference codec and the extra map `x: 1`: at the
array `[1]` the decoder's type error is returned, at a contact request there is
no panic. -/
theorem mergeBody_total_unless_null_witness :
    mergeBody goJSON (JSON.arr [JSON.int 1]) [(lit "x", JSON.int 1)] =
      .err (.json (.typeError [])) ∧
    mergeBody goJSON (some (contactRequest (lit "a@b.com") [])) [(lit "x", JSON.int 1)] ≠
      .panic :=
  ⟨(mergeBody_total_unless_null goJSON goJSON_readsBack (JSON.arr [JSON.int 1])
      [(lit "x", JSON.int 1)]).2.2.2.2.1 _ rfl (by simp) (by decide) (by simp)
      (fun _ => by simp),
    (mergeBody_total_unless_null goJSON goJSON_readsBack (JSON.arr [JSON.int 1])
      [(lit "x", JSON.int 1)]).2.2.2.2.2.2.1 (contactRequest (lit "a@b.com") [])⟩

/-! ## The keys of the typed requests -/

theorem keysOf_append {β : Type} (a b : List (GoString × β)) :
    keysOf (a ++ b) = keysOf a ++ keysOf b := List.map_append _ _ _

theorem keysOf_strField_sublist (name v : GoString) (o : Bool) :
    (keysOf (strField name o v)).Sublist [name] := by
  unfold strField
  split
  · exact List.nil_sublist _
  · exact List.Sublist.refl _

theorem keysOf_boolPtrField_sublist (name : GoString) (v : Option Bool) :
    (keysOf (boolPtrField name v)).Sublist [name] := by
  cases v with
  | none => exact List.nil_sublist _
  | some b => exact List.Sublist.refl _

theorem keysOf_boolMapField_sublist (name : GoString) (v : List (GoString × Bool)) :
    (keysOf (boolMapField name v)).Sublist [name] := by
  unfold boolMapField
  split
  · exact List.nil_sublist _
  · exact List.Sublist.refl _

theorem keysOf_dynMapField_sublist (name : GoString) (v : Entries) :
    (keysOf (dynMapField name v)).Sublist [name] := by
  unfold dynMapField
  split
  · exact List.nil_sublist _
  · exact List.Sublist.refl _

/-- The keys of a marshalled `ContactRequest` are distinct and valid UTF-8. -/
theorem ContactRequest_keys (r : ContactRequest) :
    ∃ fields, GoMarshal.toJSON (some r) = .ok (.obj fields) ∧ (keysOf fields).Nodup ∧
      ∀ k ∈ keysOf fields, toValidUTF8 k = k := by
  have hsub : (keysOf (strField (lit "email") false r.Email ++
      strField (lit "firstName") true r.FirstName ++
      strField (lit "lastName") true r.LastName ++
      boolPtrField (lit "subscribed") r.Subscribed ++
      strField (lit "userGroup") true r.UserGroup ++
      strField (lit "userId") true r.UserID ++
      boolMapField (lit "mailingLists") r.MailingLists)).Sublist
      ([lit "email"] ++ [lit "firstName"] ++ [lit "lastName"] ++ [lit "subscribed"] ++
        [lit "userGroup"] ++ [lit "userId"] ++ [lit "mailingLists"]) := by
    simp only [keysOf_append]
    exact ((((((keysOf_strField_sublist _ _ _).append (keysOf_strField_sublist _ _ _)).append
      (keysOf_strField_sublist _ _ _)).append (keysOf_boolPtrField_sublist _ _)).append
      (keysOf_strField_sublist _ _ _)).append (keysOf_strField_sublist _ _ _)).append
      (keysOf_boolMapField_sublist _ _)
  exact ⟨_, rfl, hsub.nodup (by decide), fun k hk =>
    (by decide : ∀ k ∈ ([lit "email"] ++ [lit "firstName"] ++ [lit "lastName"] ++
      [lit "subscribed"] ++ [lit "userGroup"] ++ [lit "userId"] ++ [lit "mailingLists"]),
      toValidUTF8 k = k) k (hsub.subset hk)⟩

/-- The keys of a marshalled `ContactUpdateRequest` are distinct and valid
UTF-8. -/
theorem ContactUpdateRequest_keys (r : ContactUpdateRequest) :
    ∃ fields, GoMarshal.toJSON (some r) = .ok (.obj fields) ∧ (keysOf fields).Nodup ∧
      ∀ k ∈ keysOf fields, toValidUTF8 k = k := by
  have hsub : (keysOf (strField (lit "email") true r.Email ++
      strField (lit "firstName") true r.FirstName ++
      strField (lit "lastName") true r.LastName ++
      boolPtrField (lit "subscribed") r.Subscribed ++
      strField (lit "userGroup") true r.UserGroup ++
      strField (lit "userId") true r.UserID ++
      boolMapField (lit "mailingLists") r.MailingLists)).Sublist
      ([lit "email"] ++ [lit "firstName"] ++ [lit "lastName"] ++ [lit "subscribed"] ++
        [lit "userGroup"] ++ [lit "userId"] ++ [lit "mailingLists"]) := by
    simp only [keysOf_append]
    exact ((((((keysOf_strField_sublist _ _ _).append (keysOf_strField_sublist _ _ _)).append
      (keysOf_strField_sublist _ _ _)).append (keysOf_boolPtrField_sublist _ _)).append
      (keysOf_strField_sublist _ _ _)).append (keysOf_strField_sublist _ _ _)).append
      (keysOf_boolMapField_sublist _ _)
  exact ⟨_, rfl, hsub.nodup (by decide), fun k hk =>
    (by decide : ∀ k ∈ ([lit "email"] ++ [lit "firstName"] ++ [lit "lastName"] ++
      [lit "subscribed"] ++ [lit "userGroup"] ++ [lit "userId"] ++ [lit "mailingLists"]),
      toValidUTF8 k = k) k (hsub.subset hk)⟩

/-- The keys of a marshalled `EventRequest` are distinct and valid UTF-8. -/
theorem EventRequest_keys (r : EventRequest) :
    ∃ fields, GoMarshal.toJSON (some r) = .ok (.obj fields) ∧ (keysOf fields).Nodup ∧
      ∀ k ∈ keysOf fields, toValidUTF8 k = k := by
  have hsub : (keysOf (strField (lit "email") true r.Email ++
      strField (lit "userId") true r.UserID ++
      strField (lit "eventName") false r.EventName ++
      dynMapField (lit "eventProperties") r.EventProperties ++
      boolMapField (lit "mailingLists") r.MailingLists)).Sublist
      ([lit "email"] ++ [lit "userId"] ++ [lit "eventName"] ++ [lit "eventProperties"] ++
        [lit "mailingLists"]) := by
    simp only [keysOf_append]
    exact ((((keysOf_strField_sublist _ _ _).append (keysOf_strField_sublist _ _ _)).append
      (keysOf_strField_sublist _ _ _)).append (keysOf_dynMapField_sublist _ _)).append
      (keysOf_boolMapField_sublist _ _)
  exact ⟨_, rfl, hsub.nodup (by decide), fun k hk =>
    (by decide : ∀ k ∈ ([lit "email"] ++ [lit "userId"] ++ [lit "eventName"] ++
      [lit "eventProperties"] ++ [lit "mailingLists"]), toValidUTF8 k = k) k (hsub.subset hk)⟩

/-! ## The overlay and the other keys -/

theorem fitsMembers_append (d : Nat) : ∀ (a b : List (GoString × JSON)),
    fitsMembers d (a ++ b) = (fitsMembers d a && fitsMembers d b)
  | [], b => by simp [fitsMembers]
  | (k, v) :: a, b => by
    rw [List.cons_append, fitsMembers_cons, fitsMembers_cons, fitsMembers_append d a b,
      Bool.and_assoc]

theorem fitsMembers_strField (d : Nat) (name v : GoString) (o : Bool) :
    fitsMembers d (strField name o v) = true := by
  unfold strField
  split
  · rfl
  · rw [fitsMembers_cons, fits_str]
    rfl

theorem fits_bool (d : Nat) (b : Bool) : (JSON.bool b).fits d = true := by
  rw [JSON.fits]

theorem fits_null (d : Nat) : JSON.null.fits d = true := by
  rw [JSON.fits]

theorem fitsMembers_boolPtrField (d : Nat) (name : GoString) (v : Option Bool) :
    fitsMembers d (boolPtrField name v) = true := by
  cases v with
  | none => rfl
  | some b =>
    simp only [boolPtrField]
    rw [fitsMembers_cons, fits_bool]
    rfl

theorem fitsMembers_boolMapField (d : Nat) (name : GoString) (v : List (GoString × Bool)) :
    fitsMembers (d + 1) (boolMapField name v) = true := by
  unfold boolMapField
  split
  · rfl
  · rw [fitsMembers_cons, fits_obj_succ]
    have h : fitsMembers d (sortKeys (v.map (fun kv => (kv.1, JSON.bool kv.2)))) = true := by
      rw [fitsMembers_iff]
      intro x hx
      obtain ⟨kv, -, rfl⟩ := List.mem_map.mp ((mem_sortKeys _ x).mp hx)
      exact fits_bool d kv.2
    rw [h]
    rfl

theorem fitsMembers_dynMapField (d : Nat) (name : GoString) (v : Entries)
    (h : fitsMembers d v = true) : fitsMembers (d + 1) (dynMapField name v) = true := by
  unfold dynMapField
  split
  · rfl
  · rw [fitsMembers_cons, fits_obj_succ]
    have h2 : fitsMembers d (sortKeys v) = true := by
      rw [fitsMembers_iff] at h ⊢
      intro x hx
      exact h x ((mem_sortKeys _ x).mp hx)
    rw [h2]
    rfl

/-- A `ContactRequest` marshals to an object within the limits of the decoder. -/
theorem ContactRequest_fits (r : ContactRequest) :
    ∃ fields, GoMarshal.toJSON (some r) = .ok (.obj fields) ∧ fitsMembers 1 fields = true := by
  refine ⟨_, rfl, ?_⟩
  simp only [fitsMembers_append, fitsMembers_strField, fitsMembers_boolPtrField,
    fitsMembers_boolMapField, Bool.and_self]

/-- A `ContactUpdateRequest` marshals to an object within the limits of the
decoder. -/
theorem ContactUpdateRequest_fits (r : ContactUpdateRequest) :
    ∃ fields, GoMarshal.toJSON (some r) = .ok (.obj fields) ∧ fitsMembers 1 fields = true := by
  refine ⟨_, rfl, ?_⟩
  simp only [fitsMembers_append, fitsMembers_strField, fitsMembers_boolPtrField,
    fitsMembers_boolMapField, Bool.and_self]

/-- An `EventRequest` marshals to an object; it is within the limits of the
decoder when its properties are. -/
theorem EventRequest_fits (r : EventRequest) :
    ∃ fields, GoMarshal.toJSON (some r) = .ok (.obj fields) ∧
      ((JSON.obj r.EventProperties).fits (maxNestingDepth - 1) = true →
        (JSON.obj fields).fits maxNestingDepth = true) := by
  refine ⟨_, rfl, fun h => ?_⟩
  have h1 : fitsMembers 9998 r.EventProperties = true := by
    rw [← fits_obj_succ]; exact h
  have h2 := fitsMembers_dynMapField 9998 (lit "eventProperties") r.EventProperties h1
  show JSON.fits (9999 + 1) _ = true
  rw [fits_obj_succ]
  simp only [fitsMembers_append, fitsMembers_strField, fitsMembers_boolMapField, h2,
    Bool.and_self]

/-- With a codec that reads back as `encoding/json` does, the text of an object
decodes into a generic map variable as a non-nil map or not at all. -/
theorem unmarshal_object_nonnil (lib : JSONCodec) (hlib : lib.readsBack) (fields : Entries)
    (m0 : Option Entries)
    (h : jsonUnmarshal lib (lib.encode (.obj fields)) (none : Option Entries) = .ok m0) :
    ∃ m, m0 = some m := by
  unfold jsonUnmarshal at h
  rw [hlib (.obj fields)] at h
  split_ifs at h
  rw [toValid_obj] at h
  simp only [GoUnmarshal.fromJSON] at h
  cases hg : genericMembers (toValidMembers fields) with
  | error e => rw [hg] at h; cases h
  | ok l =>
    rw [hg] at h
    cases h
    exact ⟨_, rfl⟩

/-- With a codec that reads back as `encoding/json` does, the text of an object
within the limits of the decoder decodes into a generic map. -/
theorem unmarshal_object_fits (lib : JSONCodec) (hlib : lib.readsBack) (fields : Entries)
    (d : Nat) (hd : d + 1 ≤ maxNestingDepth) (hfit : fitsMembers d fields = true) :
    ∃ m, jsonUnmarshal lib (lib.encode (.obj fields)) (none : Option Entries) = .ok (some m) := by
  have hdep : (JSON.obj fields).depth ≤ maxNestingDepth :=
    Nat.le_trans (fits_depth _ (d + 1) (by rw [fits_obj_succ]; exact hfit)) hd
  obtain ⟨l, hl, -⟩ := genericMembers_fits (toValidMembers fields) d
    (by rw [fitsMembers_toValid]; exact hfit)
  refine ⟨l.foldl (fun m kv => setKey m kv.1 kv.2) [], ?_⟩
  unfold jsonUnmarshal
  rw [hlib (.obj fields), if_pos hdep, toValid_obj]
  simp only [GoUnmarshal.fromJSON, hl, Option.getD_none]

theorem returnPtr_ne_panicked {R : Type} (out : R) (d : DoResult R) :
    returnPtr out d ≠ .panicked := by
  unfold returnPtr
  split <;> simp

/-! ## The nil-map write and the public endpoints -/

/-- C23. With a codec that reads back as `encoding/json` does, `CreateContact`,
`UpdateContact` and `SendEvent` never panic.  A nil request is refused before
`mergeBody` is called, whatever the environment.  A non-nil request marshals
to an object, so inside `mergeBody` the decoder either fails (which an event
request with properties beyond the limits of the decoder can cause) or leaves
a non-nil map, and the loop over the extra map, whatever that holds, assigns
into it without panic.  For the two contact requests, and for an event request
within the limits, the decoder does leave a map. -/
theorem nil_map_write_unreachable (env : Env) (c : Client) (hlib : env.json.readsBack)
    (reqC : Option ContactRequest) (reqU : Option ContactUpdateRequest)
    (reqE : Option EventRequest) (tok : GoString) :
    (c.CreateContact env reqC ≠ .panicked ∧
      c.UpdateContact env reqU ≠ .panicked ∧
      c.SendEvent env reqE tok ≠ .panicked) ∧
    (∀ env2 : Env,
      c.CreateContact env2 none = validationError (lit "email is required") ∧
      c.UpdateContact env2 none = validationError (lit "email or userId is required") ∧
      c.SendEvent env2 none tok = validationError (lit "eventName is required")) ∧
    (∀ (r : ContactRequest) (extra : Entries), ∃ fields m,
      GoMarshal.toJSON (some r) = .ok (.obj fields) ∧
      jsonUnmarshal env.json (env.json.encode (.obj fields)) (none : Option Entries) =
        .ok (some m) ∧
      assignAll (some m) extra ≠ none ∧
      mergeBody env.json (some r) extra ≠ .panic) ∧
    (∀ (r : ContactUpdateRequest) (extra : Entries), ∃ fields m,
      GoMarshal.toJSON (some r) = .ok (.obj fields) ∧
      jsonUnmarshal env.json (env.json.encode (.obj fields)) (none : Option Entries) =
        .ok (some m) ∧
      assignAll (some m) extra ≠ none ∧
      mergeBody env.json (some r) extra ≠ .panic) ∧
    (∀ (r : EventRequest) (extra : Entries), ∃ fields,
      GoMarshal.toJSON (some r) = .ok (.obj fields) ∧
      (∀ m0, jsonUnmarshal env.json (env.json.encode (.obj fields)) (none : Option Entries) =
          .ok m0 → ∃ m, m0 = some m ∧ assignAll (some m) extra ≠ none) ∧
      ((JSON.obj r.EventProperties).fits (maxNestingDepth - 1) = true →
        ∃ m, jsonUnmarshal env.json (env.json.encode (.obj fields)) (none : Option Entries) =
          .ok (some m)) ∧
      mergeBody env.json (some r) extra ≠ .panic) := by
  have hassign : ∀ (m extra : Entries), assignAll (some m) extra ≠ none := by
    intro m extra
    rw [assignAll_some]
    simp
  have hcall : ∀ {α R : Type} [GoMarshal α] [GoUnmarshal R] (v : α) (fields extra : Entries)
      (out : R) (method path : GoString) (opts : Option doOpts),
      GoMarshal.toJSON v = .ok (.obj fields) →
      (match mergeBody env.json v extra with
        | .panic => Call.panicked
        | .err e => .returned none (some e) []
        | .ok body => returnPtr out (c.do' env method path body (some out) opts)) ≠
        .panicked := by
    intro α R _ _ v fields extra out method path opts hv
    rcases mergeBody_object_returns env.json hlib v fields extra hv with ⟨b, h⟩ | ⟨e, h⟩
    · rw [h]
      exact returnPtr_ne_panicked _ _
    · rw [h]
      simp
  refine ⟨⟨?_, ?_, ?_⟩, fun env2 => ⟨rfl, rfl, rfl⟩, ?_, ?_, ?_⟩
  · cases reqC with
    | none => simp [Client.CreateContact, validationError]
    | some q =>
      by_cases h : q.Email = []
      · simp [Client.CreateContact, h, validationError]
      · simp only [Client.CreateContact, if_neg h]
        exact hcall (some q) _ q.Extra _ _ _ _ rfl
  · cases reqU with
    | none => simp [Client.UpdateContact, validationError]
    | some q =>
      by_cases h : q.Email = [] ∧ q.UserID = []
      · simp [Client.UpdateContact, h, validationError]
      · simp only [Client.UpdateContact, if_neg h]
        exact hcall (some q) _ q.Extra _ _ _ _ rfl
  · cases reqE with
    | none => simp [Client.SendEvent, validationError]
    | some q =>
      by_cases hn : q.EventName = []
      · simp [Client.SendEvent, hn, validationError]
      · by_cases h : q.Email = [] ∧ q.UserID = []
        · simp [Client.SendEvent, hn, h, validationError]
        · simp only [Client.SendEvent, if_neg hn, if_neg h, Client.doWithHeaders]
          exact hcall (some q) _ q.Extra _ _ _ _ rfl
  · intro r extra
    obtain ⟨fields, hv, hfit⟩ := ContactRequest_fits r
    obtain ⟨m, hm⟩ := unmarshal_object_fits env.json hlib fields 1 (by decide) hfit
    exact ⟨fields, m, hv, hm, hassign m extra, mergeBody_no_panic env.json hlib _ fields extra hv⟩
  · intro r extra
    obtain ⟨fields, hv, hfit⟩ := ContactUpdateRequest_fits r
    obtain ⟨m, hm⟩ := unmarshal_object_fits env.json hlib fields 1 (by decide) hfit
    exact ⟨fields, m, hv, hm, hassign m extra, mergeBody_no_panic env.json hlib _ fields extra hv⟩
  · intro r extra
    obtain ⟨fields, hv, hfit⟩ := EventRequest_fits r
    refine ⟨fields, hv, ?_, ?_, mergeBody_no_panic env.json hlib _ fields extra hv⟩
    · intro m0 h0
      obtain ⟨m, rfl⟩ := unmarshal_object_nonnil env.json hlib fields m0 h0
      exact ⟨m, rfl, hassign m extra⟩
    · intro hp
      have hf := hfit hp
      exact unmarshal_object_fits env.json hlib fields 9999 (Nat.le_refl _)
        (by rw [← fits_obj_succ]; exact hf)

/-- C23, with the reference codec against a server that answers 200, for
requests that carry extra fields. -/
theorem nil_map_write_unreachable_witness :
    sampleClient.CreateContact (serverEnv 200 successBody)
        (some (contactRequest (lit "u@example.com") [(lit "plan", JSON.int 2)])) ≠ .panicked ∧
    sampleClient.UpdateContact (serverEnv 200 successBody)
        (some (contactUpdateRequest (lit "u@example.com") [])) ≠ .panicked ∧
    sampleClient.SendEvent (serverEnv 200 successBody)
        (some (eventRequest (lit "signup") (lit "u@example.com") [])) (lit "idem-123")
      ≠ .panicked :=
  (nil_map_write_unreachable (serverEnv 200 successBody) sampleClient goJSON_readsBack
    (some (contactRequest (lit "u@example.com") [(lit "plan", JSON.int 2)]))
    (some (contactUpdateRequest (lit "u@example.com") []))
    (some (eventRequest (lit "signup") (lit "u@example.com") [])) (lit "idem-123")).1

/-! ## The address in the create-contact body -/

theorem keysOf_strField (name v : GoString) (o : Bool) (k : GoString)
    (h : k ∈ keysOf (strField name o v)) : k = name := by
  unfold strField at h
  split at h
  · cases h
  · simpa [keysOf] using h

theorem keysOf_boolPtrField (name : GoString) (v : Option Bool) (k : GoString)
    (h : k ∈ keysOf (boolPtrField name v)) : k = name := by
  cases v with
  | none => cases h
  | some b => simpa [boolPtrField, keysOf] using h

theorem keysOf_boolMapField (name : GoString) (v : List (GoString × Bool)) (k : GoString)
    (h : k ∈ keysOf (boolMapField name v)) : k = name := by
  unfold boolMapField at h
  split at h
  · cases h
  · simpa [keysOf] using h

/-- A `ContactRequest` marshals to an object that starts with `email`, has
that key nowhere else, and is within the limits of the decoder. -/
theorem ContactRequest_email_first (r : ContactRequest) :
    ∃ rest, GoMarshal.toJSON (some r) = .ok (.obj ((lit "email", .str r.Email) :: rest)) ∧
      lit "email" ∉ keysOf rest ∧ fitsMembers 1 rest = true := by
  refine ⟨strField (lit "firstName") true r.FirstName ++
    strField (lit "lastName") true r.LastName ++
    boolPtrField (lit "subscribed") r.Subscribed ++
    strField (lit "userGroup") true r.UserGroup ++
    strField (lit "userId") true r.UserID ++
    boolMapField (lit "mailingLists") r.MailingLists, ?_, ?_, ?_⟩
  · simp [GoMarshal.toJSON, strField]
  · intro h
    simp only [keysOf, List.map_append, List.mem_append] at h
    rcases h with ((((h | h) | h) | h) | h) | h
    · exact absurd (keysOf_strField _ _ _ _ h) (by decide)
    · exact absurd (keysOf_strField _ _ _ _ h) (by decide)
    · exact absurd (keysOf_boolPtrField _ _ _ h) (by decide)
    · exact absurd (keysOf_strField _ _ _ _ h) (by decide)
    · exact absurd (keysOf_strField _ _ _ _ h) (by decide)
    · exact absurd (keysOf_boolMapField _ _ _ h) (by decide)
  · simp only [fitsMembers_append, fitsMembers_strField, fitsMembers_boolPtrField,
      fitsMembers_boolMapField, Bool.and_self]

/-- Under an ASCII name, a document as written holds the coerced value of the
member with that name. -/
theorem lookupKey_toValidMembers_ascii (a : GoString) (ha : ∀ x ∈ a, x < 128) :
    ∀ (kvs : List (GoString × JSON)),
      lookupKey (toValidMembers kvs) a = (lookupKey kvs a).map JSON.toValid
  | [] => rfl
  | (k, v) :: kvs => by
    simp only [toValidMembers, lookupKey]
    by_cases hk : k = a
    · subst hk
      rw [if_pos (toValidUTF8_ascii k ha), if_pos rfl]
      rfl
    · have hk2 : ¬ toValidUTF8 k = a := fun h => hk (eq_of_toValidUTF8_ascii k a ha h)
      rw [if_neg hk2, if_neg hk]
      exact lookupKey_toValidMembers_ascii a ha kvs

theorem not_mem_keysOf_toValidMembers_ascii (a : GoString) (ha : ∀ x ∈ a, x < 128)
    (kvs : List (GoString × JSON)) (h : a ∉ keysOf kvs) : a ∉ keysOf (toValidMembers kvs) := by
  rw [keysOf_toValidMembers]
  intro hin
  obtain ⟨k, hk, hka⟩ := List.mem_map.mp hin
  rw [eq_of_toValidUTF8_ascii k a ha hka] at hk
  exact h hk

/-- C24, as stated, fails: a request with address `a@b.com` whose `Extra` map
has the key `email` passes validation, and the one body sent holds the
address of the extra map: `{"email":"other@x.com"}`. -/
theorem CreateContact_email_overridden :
    (sampleClient.CreateContact (serverEnv 200 successBody)
      (some (contactRequest (lit "a@b.com")
        [(lit "email", .str (lit "other@x.com"))]))).sent.map (fun r => r.Body) =
      [some otherEmailBody] := by
  decide

/-- C24, amended. With a codec that reads back as `encoding/json` does, a
request with a non-empty `Email` is sent by `CreateContact` with the text of
one object as its body.  As written, and as read back by a JSON decoder when
it is nested at most 10000 deep, that object holds under `email` the address
`req.Email` with its invalid bytes replaced by U+FFFD (the address itself
when it is valid UTF-8) whenever the `Extra` map has no key `email`, and the
value of the `Extra` map under `email` when it has one (the keys of a map are
distinct). -/
theorem CreateContact_body_email (env : Env) (c : Client) (hlib : env.json.readsBack)
    (r : ContactRequest) (hemail : r.Email ≠ []) :
    ∃ merged,
      mergeBody env.json (some r) r.Extra = .ok (env.json.encode (.obj merged)) ∧
      c.CreateContact env (some r) =
        returnPtr ({ Success := false, ID := [] } : ContactSuccessResponse)
          (c.do' env (lit "POST") (lit "/contacts/create") (env.json.encode (.obj merged))
            (some ({ Success := false, ID := [] } : ContactSuccessResponse)) none) ∧
      (∀ q ∈ (c.CreateContact env (some r)).sent,
        q.Body = if (env.json.encode (.obj merged)).length > 0
          then some (env.json.encode (.obj merged)) else none) ∧
      ((JSON.obj merged).depth ≤ maxNestingDepth →
        env.json.decode (env.json.encode (.obj merged)) = some (.obj (toValidMembers merged))) ∧
      (lit "email" ∉ keysOf r.Extra →
        lookupKey (toValidMembers merged) (lit "email") = some (.str (toValidUTF8 r.Email))) ∧
      (lit "email" ∉ keysOf r.Extra → toValidUTF8 r.Email = r.Email →
        lookupKey (toValidMembers merged) (lit "email") = some (.str r.Email)) ∧
      ((keysOf r.Extra).Nodup → ∀ val, lookupKey r.Extra (lit "email") = some val →
        lookupKey (toValidMembers merged) (lit "email") = some val.toValid) := by
  have hascii : ∀ x ∈ lit "email", x < 128 := by decide
  obtain ⟨rest, hv, hrest, hfrest⟩ := ContactRequest_email_first r
  have hcall : ∀ body, mergeBody env.json (some r) r.Extra = .ok body →
      c.CreateContact env (some r) =
        returnPtr ({ Success := false, ID := [] } : ContactSuccessResponse)
          (c.do' env (lit "POST") (lit "/contacts/create") body
            (some ({ Success := false, ID := [] } : ContactSuccessResponse)) none) := by
    intro body hb
    simp only [Client.CreateContact, if_neg hemail, hb]
  have hsent : ∀ body, mergeBody env.json (some r) r.Extra = .ok body →
      ∀ q ∈ (c.CreateContact env (some r)).sent,
        q.Body = if body.length > 0 then some body else none := by
    intro body hb q hq
    rw [hcall body hb, returnPtr_sent] at hq
    rw [mem_sent_do env c _ _ _ _ _ q hq]
    rfl
  have hdec : ∀ merged : Entries, (JSON.obj merged).depth ≤ maxNestingDepth →
      env.json.decode (env.json.encode (.obj merged)) = some (.obj (toValidMembers merged)) := by
    intro merged hd
    rw [hlib (.obj merged), if_pos hd, toValid_obj]
  have hfin : ∀ merged : Entries,
      mergeBody env.json (some r) r.Extra = .ok (env.json.encode (.obj merged)) →
      (lit "email" ∉ keysOf r.Extra →
        lookupKey merged (lit "email") = some (.str (toValidUTF8 r.Email)) ∨
        lookupKey merged (lit "email") = some (.str r.Email)) →
      ((keysOf r.Extra).Nodup → ∀ val, lookupKey r.Extra (lit "email") = some val →
        lookupKey merged (lit "email") = some val) →
      ∃ merged,
        mergeBody env.json (some r) r.Extra = .ok (env.json.encode (.obj merged)) ∧
        c.CreateContact env (some r) =
          returnPtr ({ Success := false, ID := [] } : ContactSuccessResponse)
            (c.do' env (lit "POST") (lit "/contacts/create") (env.json.encode (.obj merged))
              (some ({ Success := false, ID := [] } : ContactSuccessResponse)) none) ∧
        (∀ q ∈ (c.CreateContact env (some r)).sent,
          q.Body = if (env.json.encode (.obj merged)).length > 0
            then some (env.json.encode (.obj merged)) else none) ∧
        ((JSON.obj merged).depth ≤ maxNestingDepth →
          env.json.decode (env.json.encode (.obj merged)) =
            some (.obj (toValidMembers merged))) ∧
        (lit "email" ∉ keysOf r.Extra →
          lookupKey (toValidMembers merged) (lit "email") =
            some (.str (toValidUTF8 r.Email))) ∧
        (lit "email" ∉ keysOf r.Extra → toValidUTF8 r.Email = r.Email →
          lookupKey (toValidMembers merged) (lit "email") = some (.str r.Email)) ∧
        ((keysOf r.Extra).Nodup → ∀ val, lookupKey r.Extra (lit "email") = some val →
          lookupKey (toValidMembers merged) (lit "email") = some val.toValid) := by
    intro merged hb h1 h2
    have h1' : lit "email" ∉ keysOf r.Extra →
        lookupKey (toValidMembers merged) (lit "email") = some (.str (toValidUTF8 r.Email)) := by
      intro hk
      rw [lookupKey_toValidMembers_ascii _ hascii]
      rcases h1 hk with h | h
      · rw [h]
        simp only [Option.map_some', toValid_str, toValidUTF8_idem]
      · rw [h]
        simp only [Option.map_some', toValid_str]
    refine ⟨merged, hb, hcall _ hb, hsent _ hb, hdec merged, h1', ?_, ?_⟩
    · intro hk hvalid
      rw [h1' hk, hvalid]
    · intro hnd val hval
      rw [lookupKey_toValidMembers_ascii _ hascii, h2 hnd val hval]
      rfl
  by_cases hne : r.Extra = []
  · apply hfin ((lit "email", .str r.Email) :: rest)
    · rw [hne]
      exact mergeBody_empty env.json (some r) _ hv
    · intro _
      right
      simp [lookupKey]
    · intro _ val hval
      rw [hne] at hval
      cases hval
  · have hfit : fitsMembers 1 ((lit "email", JSON.str r.Email) :: rest) = true := by
      rw [fitsMembers_cons, fits_str, hfrest]
      rfl
    obtain ⟨l, hl, -, hmb⟩ := mergeBody_object env.json hlib (some r) _ r.Extra hv hne 1
      (by decide) hfit
    obtain ⟨hndM, -, -, hex, -⟩ := overlay_spec l r.Extra
    apply hfin _ hmb
    · intro hk
      left
      have hl' := hl
      simp only [toValidMembers] at hl'
      rw [toValidUTF8_ascii _ hascii, toValid_str, genericMembers_cons, generic_str] at hl'
      simp only [] at hl'
      cases hgs : genericMembers (toValidMembers rest) with
      | error e => rw [hgs] at hl'; cases hl'
      | ok gs =>
        rw [hgs] at hl'
        simp only [Except.ok.injEq] at hl'
        subst hl'
        have hkgs : lit "email" ∉ keysOf gs := by
          rw [(genericMembers_spec _ gs hgs).1]
          exact not_mem_keysOf_toValidMembers_ascii _ hascii rest hrest
        rw [lookupKey_sortKeys _ (nodup_foldl_setKey r.Extra _
            (nodup_foldl_setKey _ [] nodup_keysOf_nil)),
          lookupKey_foldl_other r.Extra _ _ hk, List.foldl_cons,
          lookupKey_foldl_other gs _ _ hkgs]
        exact lookupKey_setKey_self _ _ _
    · exact fun hnd val hval => hex hnd _ val hval

/-- C24, amended, at a request with address `a@b.com` and the extra field
`plan`, sent through the reference codec. -/
theorem CreateContact_body_email_witness :
    ∃ merged,
      mergeBody goJSON (some (contactRequest (lit "a@b.com") [(lit "plan", JSON.int 2)]))
        [(lit "plan", JSON.int 2)] = .ok (goJSON.encode (.obj merged)) ∧
      sampleClient.CreateContact (serverEnv 200 successBody)
          (some (contactRequest (lit "a@b.com") [(lit "plan", JSON.int 2)])) =
        returnPtr ({ Success := false, ID := [] } : ContactSuccessResponse)
          (sampleClient.do' (serverEnv 200 successBody) (lit "POST") (lit "/contacts/create")
            (goJSON.encode (.obj merged))
            (some ({ Success := false, ID := [] } : ContactSuccessResponse)) none) ∧
      (∀ q ∈ (sampleClient.CreateContact (serverEnv 200 successBody)
          (some (contactRequest (lit "a@b.com") [(lit "plan", JSON.int 2)]))).sent,
        q.Body = if (goJSON.encode (.obj merged)).length > 0
          then some (goJSON.encode (.obj merged)) else none) ∧
      ((JSON.obj merged).depth ≤ maxNestingDepth →
        goJSON.decode (goJSON.encode (.obj merged)) = some (.obj (toValidMembers merged))) ∧
      (lit "email" ∉ keysOf [(lit "plan", JSON.int 2)] →
        lookupKey (toValidMembers merged) (lit "email") =
          some (.str (toValidUTF8 (lit "a@b.com")))) ∧
      (lit "email" ∉ keysOf [(lit "plan", JSON.int 2)] →
        toValidUTF8 (lit "a@b.com") = lit "a@b.com" →
        lookupKey (toValidMembers merged) (lit "email") = some (.str (lit "a@b.com"))) ∧
      ((keysOf [(lit "plan", JSON.int 2)]).Nodup →
        ∀ val, lookupKey [(lit "plan", JSON.int 2)] (lit "email") = some val →
          lookupKey (toValidMembers merged) (lit "email") = some val.toValid) :=
  CreateContact_body_email (serverEnv 200 successBody) sampleClient goJSON_readsBack
    (contactRequest (lit "a@b.com") [(lit "plan", JSON.int 2)]) (by decide)

end Loops
